import Mathlib

/-!
# Event handler building a rapidyaml tree (`src/c4/yml/event_handler_tree.hpp`)

A shallow embedding of `c4::yml::EventHandlerTree`: the handler owns a stack of
parser-state frames and mutates a tree of nodes addressed by integer identifier.

* Machine words (`NodeType` bit sets, parser flags, addresses, sizes) are natural
  numbers; every operation used here is bitwise or additive and cannot overflow.
* A string view (`csubstr`/`substr`) is an address and a length; the text it denotes
  is read from a byte memory `Nat → Nat`.
* A failing call (`_RYML_CB_ERR_`, `_RYML_CB_CHECK`, `_RYML_CB_ASSERT`, `c4::yml::error`)
  produces `Outcome.fail` carrying the handler state as it was when the error was raised,
  so that what a failing call has or has not changed can be stated.
-/

namespace ryml

/-! ## String views -/

/-- A `c4::csubstr` / `c4::substr`: start address and length. -/
structure csubstr where
  str : Nat := 0
  len : Nat := 0
deriving DecidableEq, Repr

/-- Byte memory: address to byte. -/
abbrev Mem := Nat → Nat

/-- The bytes a view denotes in a memory. -/
def csubstr.text (m : Mem) (s : csubstr) : List Nat :=
  (List.range s.len).map (fun i => m (s.str + i))

/-- Modelled from the spec: `csubstr::sub(first)` of c4core is not under src/; the view
without its first `first` characters. -/
def csubstr.sub (s : csubstr) (first : Nat) : csubstr :=
  { str := s.str + first, len := s.len - first }

/-- Modelled from the spec: `csubstr::begins_with(char)` of c4core is not under src/;
the view is non-empty and its first byte is `c`. -/
def csubstr.begins_with (m : Mem) (s : csubstr) (c : Nat) : Bool :=
  decide (0 < s.len) && decide (m s.str = c)

/-- Modelled from the spec: `csubstr::begins_with(csubstr)` of c4core is not under src/;
the view starts with the given bytes. -/
def csubstr.begins_with_str (m : Mem) (s : csubstr) (pat : List Nat) : Bool :=
  decide (pat.length ≤ s.len) &&
    decide ((List.range pat.length).map (fun i => m (s.str + i)) = pat)

/-- Modelled from the spec: `csubstr::is_super` of c4core is not under src/; the spec's
"points inside the bounds": `that` starts at or after the start of `s` and ends at or
before its end. -/
def csubstr.is_super (s that : csubstr) : Bool :=
  decide (s.str ≤ that.str) && decide (that.str + that.len ≤ s.str + s.len)

/-! ## Node type bits

Modelled from the spec: the enumeration `NodeType_e` is declared in `node_type.hpp`,
which is not under src/. The layout below gives every value flag the bit directly above
its key flag, as `actually_val_is_first_key_of_new_map_flow` asserts statically. -/

/-- Modelled from the spec: `NOTYPE`, no bit set (declared in node_type.hpp). -/
def NOTYPE : Nat := 0
/-- Modelled from the spec: key-present bit (declared in node_type.hpp). -/
def KEY : Nat := 1
/-- Modelled from the spec: value-present bit (declared in node_type.hpp). -/
def VAL : Nat := 2
/-- Modelled from the spec: is-map bit (declared in node_type.hpp). -/
def MAP : Nat := 4
/-- Modelled from the spec: is-seq bit (declared in node_type.hpp). -/
def SEQ : Nat := 8
/-- Modelled from the spec: is-doc bit (declared in node_type.hpp). -/
def DOC : Nat := 16
/-- Modelled from the spec: is-stream, a sequence of documents (declared in node_type.hpp). -/
def STREAM : Nat := 32 ||| SEQ
/-- Modelled from the spec: key-is-reference bit (declared in node_type.hpp). -/
def KEYREF : Nat := 64
/-- Modelled from the spec: value-is-reference bit (declared in node_type.hpp). -/
def VALREF : Nat := 128
/-- Modelled from the spec: key-anchor-present bit (declared in node_type.hpp). -/
def KEYANCH : Nat := 256
/-- Modelled from the spec: value-anchor-present bit (declared in node_type.hpp). -/
def VALANCH : Nat := 512
/-- Modelled from the spec: key-tag-present bit (declared in node_type.hpp). -/
def KEYTAG : Nat := 1024
/-- Modelled from the spec: value-tag-present bit (declared in node_type.hpp). -/
def VALTAG : Nat := 2048
/-- Modelled from the spec: key-unfiltered marker (declared in node_type.hpp). -/
def KEY_UNFILT : Nat := 4096
/-- Modelled from the spec: value-unfiltered marker (declared in node_type.hpp). -/
def VAL_UNFILT : Nat := 8192
/-- Modelled from the spec: single-line flow container style (declared in node_type.hpp). -/
def FLOW_SL : Nat := 16384
/-- Modelled from the spec: multi-line flow container style (declared in node_type.hpp). -/
def FLOW_ML : Nat := 32768
/-- Modelled from the spec: block container style (declared in node_type.hpp). -/
def BLOCK : Nat := 65536
/-- Modelled from the spec: key literal-block style (declared in node_type.hpp). -/
def KEY_LITERAL : Nat := 131072
/-- Modelled from the spec: value literal-block style (declared in node_type.hpp). -/
def VAL_LITERAL : Nat := 262144
/-- Modelled from the spec: key folded-block style (declared in node_type.hpp). -/
def KEY_FOLDED : Nat := 524288
/-- Modelled from the spec: value folded-block style (declared in node_type.hpp). -/
def VAL_FOLDED : Nat := 1048576
/-- Modelled from the spec: key single-quoted style (declared in node_type.hpp). -/
def KEY_SQUO : Nat := 2097152
/-- Modelled from the spec: value single-quoted style (declared in node_type.hpp). -/
def VAL_SQUO : Nat := 4194304
/-- Modelled from the spec: key double-quoted style (declared in node_type.hpp). -/
def KEY_DQUO : Nat := 8388608
/-- Modelled from the spec: value double-quoted style (declared in node_type.hpp). -/
def VAL_DQUO : Nat := 16777216
/-- Modelled from the spec: key plain style (declared in node_type.hpp). -/
def KEY_PLAIN : Nat := 33554432
/-- Modelled from the spec: value plain style (declared in node_type.hpp). -/
def VAL_PLAIN : Nat := 67108864
/-- Modelled from the spec: `KEY|VAL` (declared in node_type.hpp). -/
def KEYVAL : Nat := KEY ||| VAL
/-- Modelled from the spec: the quoted key styles (declared in node_type.hpp). -/
def KEYQUO : Nat := KEY_SQUO ||| KEY_DQUO ||| KEY_FOLDED ||| KEY_LITERAL
/-- Modelled from the spec: the quoted value styles (declared in node_type.hpp). -/
def VALQUO : Nat := VAL_SQUO ||| VAL_DQUO ||| VAL_FOLDED ||| VAL_LITERAL
/-- Modelled from the spec: all key scalar styles (declared in node_type.hpp). -/
def KEY_STYLE : Nat := KEY_LITERAL ||| KEY_FOLDED ||| KEY_SQUO ||| KEY_DQUO ||| KEY_PLAIN
/-- Modelled from the spec: all value scalar styles (declared in node_type.hpp). -/
def VAL_STYLE : Nat := VAL_LITERAL ||| VAL_FOLDED ||| VAL_SQUO ||| VAL_DQUO ||| VAL_PLAIN
/-- Modelled from the spec: key-side state mask (declared in node_type.hpp). -/
def _KEYMASK : Nat := KEY ||| KEYQUO ||| KEYANCH ||| KEYREF ||| KEYTAG
/-- Modelled from the spec: value-side state mask (declared in node_type.hpp). -/
def _VALMASK : Nat := VAL ||| VALQUO ||| VALANCH ||| VALREF ||| VALTAG

/-- The C expression `t & ~bits` on an unsigned word: the bits of `t` that are not in
`bits` (the result does not depend on the word width). -/
def andNot (t bits : Nat) : Nat := t ^^^ (t &&& bits)

/-! ## Parser flags

Modelled from the spec: the parser flag constants are declared in `parser_state.hpp`,
which is not under src/. -/

/-- Modelled from the spec: reading at top level (declared in parser_state.hpp). -/
def RTOP : Nat := 1
/-- Modelled from the spec: reading unknown state (declared in parser_state.hpp). -/
def RUNK : Nat := 2
/-- Modelled from the spec: reading a map (declared in parser_state.hpp). -/
def RMAP : Nat := 4
/-- Modelled from the spec: reading a seq (declared in parser_state.hpp). -/
def RSEQ : Nat := 8
/-- Modelled from the spec: reading a document (declared in parser_state.hpp). -/
def RDOC : Nat := 16384
/-- Modelled from the spec: style not yet determined, "already typed" destination
(declared in parser_state.hpp). -/
def USTY : Nat := 65536

/-! ## Document tree -/

/-- One node of the tree: type bits, the six string views, and the hierarchy links
(`none` is the sentinel `NONE`). The source addresses these per field and per node
identifier (`m_tree->m_type[id]`, `m_tree->m_val[id]`, ...). -/
structure NodeData where
  m_type : Nat := NOTYPE
  m_key : csubstr := {}
  m_key_tag : csubstr := {}
  m_key_anchor : csubstr := {}
  m_val : csubstr := {}
  m_val_tag : csubstr := {}
  m_val_anchor : csubstr := {}
  m_parent : Option Nat := none
  m_first_child : Option Nat := none
  m_last_child : Option Nat := none
  m_next_sibling : Option Nat := none
  m_prev_sibling : Option Nat := none
deriving DecidableEq, Repr

/-- Modelled from the spec: the class `Tree` is declared in `tree.hpp`, which is not under
src/. The node store is the list of live nodes, a node's identifier being its position
(nodes are appended at the tail and removed from the tail) and `m_cap` the capacity
of the store; the arena is a view of the allocated buffer and the number of bytes in use; the tag table lists the registered
`%TAG` directives. Allocation of nodes never fails in this model. -/
structure Tree where
  m_buf : List NodeData := []
  m_cap : Nat := 0
  m_arena : csubstr := {}
  m_arena_pos : Nat := 0
  m_tag_directives : List csubstr := []
deriving DecidableEq, Repr

namespace Tree

/-- Modelled from the spec: `Tree::size`, the number of live nodes. -/
def size (t : Tree) : Nat := t.m_buf.length
/-- Modelled from the spec: `Tree::capacity`, the capacity of the node store. -/
def capacity (t : Tree) : Nat := t.m_cap

/-- Modelled from the spec: read access to the node with identifier `i` (`_p(i)`, or the
per-field arrays); a cleared node when `i` is not live. -/
def get (t : Tree) (i : Nat) : NodeData := t.m_buf.getD i {}

/-- Modelled from the spec: write access to the node with identifier `i`; nothing happens
when `i` is not live. -/
def modify (t : Tree) (i : Nat) (f : NodeData → NodeData) : Tree :=
  { t with m_buf := t.m_buf.set i (f (t.get i)) }

/-- Modelled from the spec: write access to a node through a link; nothing happens for
`NONE`. -/
def modifyOpt (t : Tree) (i : Option Nat) (f : NodeData → NodeData) : Tree :=
  match i with
  | some j => t.modify j f
  | none => t

/-- Modelled from the spec: `Tree::type`, also read as `m_tree->m_type[id]`: the type bits
of a node. -/
def type (t : Tree) (i : Nat) : Nat := (t.get i).m_type
/-- Modelled from the spec: `Tree::root_id`, "root is always identifier 0". -/
def root_id (_t : Tree) : Nat := 0
/-- Modelled from the spec: `Tree::parent`, the parent link. -/
def parent (t : Tree) (i : Nat) : Option Nat := (t.get i).m_parent
/-- Modelled from the spec: `Tree::first_child`, the first-child link. -/
def first_child (t : Tree) (i : Nat) : Option Nat := (t.get i).m_first_child
/-- Modelled from the spec: `Tree::last_child`, the last-child link. -/
def last_child (t : Tree) (i : Nat) : Option Nat := (t.get i).m_last_child
/-- Modelled from the spec: `Tree::next_sibling`, the next-sibling link. -/
def next_sibling (t : Tree) (i : Nat) : Option Nat := (t.get i).m_next_sibling
/-- Modelled from the spec: `Tree::prev_sibling`, the previous-sibling link. -/
def prev_sibling (t : Tree) (i : Nat) : Option Nat := (t.get i).m_prev_sibling

/-- Modelled from the spec: `Tree::is_root`, the node has no parent. -/
def is_root (t : Tree) (i : Nat) : Bool := (t.parent i).isNone
/-- Modelled from the spec: `Tree::has_parent`. -/
def has_parent (t : Tree) (i : Nat) : Bool := (t.parent i).isSome
/-- Modelled from the spec: `Tree::has_children`. -/
def has_children (t : Tree) (i : Nat) : Bool := (t.first_child i).isSome
/-- Modelled from the spec: `Tree::is_map`, the map bit is set. -/
def is_map (t : Tree) (i : Nat) : Bool := decide (t.type i &&& MAP ≠ 0)
/-- Modelled from the spec: `Tree::is_seq`, the seq bit is set. -/
def is_seq (t : Tree) (i : Nat) : Bool := decide (t.type i &&& SEQ ≠ 0)
/-- Modelled from the spec: `Tree::is_container`, a map or a seq. -/
def is_container (t : Tree) (i : Nat) : Bool := decide (t.type i &&& (MAP ||| SEQ) ≠ 0)
/-- Modelled from the spec: `Tree::has_key`, the key bit is set. -/
def has_key (t : Tree) (i : Nat) : Bool := decide (t.type i &&& KEY ≠ 0)
/-- Modelled from the spec: `Tree::is_val`, a value without a key. -/
def is_val (t : Tree) (i : Nat) : Bool := decide (t.type i &&& KEYVAL = VAL)
/-- Modelled from the spec: `Tree::is_doc`, the doc bit is set. -/
def is_doc (t : Tree) (i : Nat) : Bool := decide (t.type i &&& DOC ≠ 0)
/-- Modelled from the spec: `Tree::is_stream`, all the stream bits are set. -/
def is_stream (t : Tree) (i : Nat) : Bool := decide (t.type i &&& STREAM = STREAM)

/-- Modelled from the spec: the children list, read by following the sibling links from
`cur` for at most `fuel` steps. -/
def siblings_from (t : Tree) : Nat → Option Nat → List Nat
  | 0, _ => []
  | _, none => []
  | fuel + 1, some c => c :: siblings_from t fuel (t.next_sibling c)

/-- Modelled from the spec: the children of node `i`, first to last (at most as many as
there are live nodes). -/
def children (t : Tree) (i : Nat) : List Nat :=
  t.siblings_from t.size (t.first_child i)

/-- Modelled from the spec: `Tree::num_children`. -/
def num_children (t : Tree) (i : Nat) : Nat := (t.children i).length

/-- Modelled from the spec: `append_child(parent_id) -> node_id`, "appends a new node at
the tail of storage, linked as the last child of parent_id; new node has type NOTYPE".
Returns the tree and the identifier of the new node. -/
def _append_child__unprotected (t : Tree) (parent : Nat) : Tree × Nat :=
  let child := t.size
  let prev := t.last_child parent
  let t1 : Tree :=
    { t with m_buf := t.m_buf ++ [{ m_parent := some parent, m_prev_sibling := prev }],
             m_cap := max t.m_cap (t.size + 1) }
  let t2 := t1.modifyOpt prev (fun n => { n with m_next_sibling := some child })
  let t3 := t2.modify parent (fun n =>
    { n with m_first_child := if n.m_first_child.isSome then n.m_first_child else some child,
             m_last_child := some child })
  (t3, child)

/-- Modelled from the spec: `remove(node_id)`, "unlinks and deletes a node; valid only
when node_id is the tail-most node and has no children". The node is taken out of its
parent's and its siblings' links; the tail-most node is then dropped from the store (any
other node, which the handler never removes, is cleared in place). -/
def remove (t : Tree) (i : Nat) : Tree :=
  let n := t.get i
  let t1 := t.modifyOpt n.m_prev_sibling (fun p => { p with m_next_sibling := n.m_next_sibling })
  let t2 := t1.modifyOpt n.m_next_sibling (fun p => { p with m_prev_sibling := n.m_prev_sibling })
  let t3 := t2.modifyOpt n.m_parent (fun p =>
    { p with m_first_child := if p.m_first_child = some i then n.m_next_sibling else p.m_first_child,
             m_last_child := if p.m_last_child = some i then n.m_prev_sibling else p.m_last_child })
  if i + 1 = t.size then { t3 with m_buf := t3.m_buf.dropLast }
  else t3.modify i (fun _ => {})

/-- Modelled from the spec: `Tree::_copy_props_wo_key`, the destination takes the source's
type bits other than the key-side ones, and the source's value, value tag and value
anchor ("inherits whatever content node 0 previously held"). -/
def _copy_props_wo_key (t : Tree) (dst src : Nat) : Tree :=
  let s := t.get src
  t.modify dst (fun d =>
    { d with m_type := andNot s.m_type _KEYMASK ||| (d.m_type &&& _KEYMASK),
             m_val := s.m_val, m_val_tag := s.m_val_tag, m_val_anchor := s.m_val_anchor })

/-- Modelled from the spec: `convert_root_to_stream()`, "restructures node 0 in place so it
becomes a stream container whose sole child is a doc node that inherits whatever content
node 0 previously held". A root that is already a stream is left alone. A childless root
holding a value gets a new doc child carrying that value. A root with children gets a new
doc child carrying its type and value, and the former children of the root become the
children of that doc node, in the same order. -/
def set_root_as_stream (t : Tree) : Tree :=
  let root := t.root_id
  if t.is_stream root then t
  else if !t.has_children root then
    let t3 :=
      if t.is_val root then
        let t0 := t.modify root (fun n => { n with m_type := n.m_type ||| SEQ })
        let r := t0._append_child__unprotected root
        let t1 := r.1._copy_props_wo_key r.2 root
        t1.modify r.2 (fun n => { n with m_type := andNot (n.m_type ||| DOC) SEQ })
      else t
    t3.modify root (fun n => { n with m_type := STREAM })
  else
    let next_doc := t.size
    let first := t.first_child root
    let last := t.last_child root
    let t0 : Tree := { t with m_buf := t.m_buf.map (fun n =>
      if n.m_parent = some root then { n with m_parent := some next_doc } else n) }
    let r := t0._append_child__unprotected root
    let t1 := r.1._copy_props_wo_key next_doc root
    let t2 := t1.modify next_doc (fun n =>
      { n with m_type := n.m_type ||| DOC, m_first_child := first, m_last_child := last,
               m_prev_sibling := none, m_next_sibling := none })
    let t3 := t2.modifyOpt last (fun n => { n with m_next_sibling := none })
    t3.modify root (fun n =>
      { n with m_type := STREAM, m_first_child := some next_doc, m_last_child := some next_doc })

end Tree

/-! ## Parser state frames and the level stack -/

/-- Modelled from the spec: `ParserState` is declared in `parser_state.hpp`, which is not
under src/. One frame per nesting level: the structural flags, the nesting level, the
node the frame is positioned on, and the source-location bookkeeping this file reads
(`line_contents.rem`, the rest of the current line). -/
structure ParserState where
  flags : Nat := 0
  level : Nat := 0
  node_id : Nat := 0
  line_contents_rem : csubstr := {}
deriving DecidableEq, Repr

/-- The handler: the level stack and the tree it writes to. The stack is never empty:
`m_curr` is its top frame and `m_lower` the frames below it, nearest first, so that the
source's `m_parent` is the head of `m_lower` (null when `m_lower` is empty). `m_id` is
the node the handler was reset onto. -/
structure EventHandlerTree where
  m_curr : ParserState := {}
  m_lower : List ParserState := []
  m_tree : Tree := {}
  m_id : Nat := 0
deriving DecidableEq, Repr

/-- The ways a call can fail: `_RYML_CB_ERR_` / `c4::yml::error` with its message, a failed
`_RYML_CB_CHECK` / `RYML_CHECK`, and a failed `_RYML_CB_ASSERT` (checked, as in a debug
build). -/
inductive Error where
  | err (msg : String)
  | check
  | assertion
deriving DecidableEq, Repr

/-- Result of a call: the new handler state, or the error raised together with the handler
state at the moment it was raised. -/
inductive Outcome where
  | ok (h : EventHandlerTree)
  | fail (e : Error) (h : EventHandlerTree)
deriving DecidableEq, Repr

namespace Outcome

/-- The handler state an outcome ends in. -/
def state : Outcome → EventHandlerTree
  | ok h => h
  | fail _ h => h

/-- Whether the call returned normally. -/
def isOk : Outcome → Bool
  | ok _ => true
  | fail _ _ => false

/-- Sequencing: the next call runs only when the previous one returned normally. -/
def andThen (o : Outcome) (f : EventHandlerTree → Outcome) : Outcome :=
  match o with
  | ok h => f h
  | fail e h => fail e h

end Outcome

/-- What the handler takes from code that is not under src/: the byte memory the string
views point into, the two decisions of `EventHandlerStack` on documents
(`_stack_should_push_on_begin_doc`, `_stack_should_pop_on_end_doc`), whether the tree
accepts a `%TAG` directive given its current table, and the allocation policy of the arena
(`arena_reserve buf needed`: the address and capacity of the buffer that replaces `buf`
when `needed` bytes must fit). -/
structure Env where
  mem : Mem
  _stack_should_push_on_begin_doc : EventHandlerTree → Bool
  _stack_should_pop_on_end_doc : EventHandlerTree → Bool
  tag_directive_accepted : List csubstr → csubstr → Bool
  arena_reserve : csubstr → Nat → csubstr

namespace EventHandlerTree

/-- Modelled from the spec: `Tree::add_tag_directive`, "%TAG directives are registered into
the tree-wide tag table"; returns whether the directive was accepted. -/
def add_tag_directive (env : Env) (t : Tree) (directive : csubstr) : Bool × Tree :=
  if env.tag_directive_accepted t.m_tag_directives directive then
    (true, { t with m_tag_directives := t.m_tag_directives ++ [directive] })
  else (false, t)

/-- The frame below the top, `m_parent` (`none` is the null pointer). -/
def m_parent (h : EventHandlerTree) : Option ParserState := h.m_lower.head?

/-- Stack depth, `m_stack.size()`. -/
def depth (h : EventHandlerTree) : Nat := h.m_lower.length + 1

/-- Modelled from the spec: `_stack_push` of `EventHandlerStack`, "push a new frame onto
the stack": the new top starts as a copy of the previous top, one level deeper, not yet
positioned on a node. -/
def _stack_push (h : EventHandlerTree) : EventHandlerTree :=
  { h with m_curr := { h.m_curr with level := h.m_curr.level + 1, node_id := 0 },
           m_lower := h.m_curr :: h.m_lower }

/-- Modelled from the spec: `_stack_pop` of `EventHandlerStack`, "remove the top frame,
restoring the previous current/parent pair"; it needs a frame below the top. -/
def _stack_pop (h : EventHandlerTree) : Outcome :=
  match h.m_lower with
  | [] => .fail .assertion h
  | p :: rest => .ok { h with m_curr := p, m_lower := rest }

/-- Source `_enable__<bits>`: set type bits on the current node. -/
def _enable__ (bits : Nat) (h : EventHandlerTree) : EventHandlerTree :=
  { h with m_tree := h.m_tree.modify h.m_curr.node_id (fun n => { n with m_type := n.m_type ||| bits }) }

/-- Source `_disable__<bits>`: clear type bits on the current node. -/
def _disable__ (bits : Nat) (h : EventHandlerTree) : EventHandlerTree :=
  { h with m_tree := h.m_tree.modify h.m_curr.node_id (fun n => { n with m_type := andNot n.m_type bits }) }

/-- Source `_has_any__<bits>`: whether the current node has any of the bits. -/
def _has_any__ (bits : Nat) (h : EventHandlerTree) : Bool :=
  decide (h.m_tree.type h.m_curr.node_id &&& bits ≠ 0)

/-- Source `_set_state_(m_curr, id)`: position the current frame on a node. -/
def _set_state_curr (h : EventHandlerTree) (id : Nat) : EventHandlerTree :=
  { h with m_curr := { h.m_curr with node_id := id } }

/-- Source `_save_loc`: the start address of the current node's value view is set to the start of
the rest of the current line. -/
def _save_loc (h : EventHandlerTree) : EventHandlerTree :=
  { h with m_tree := h.m_tree.modify h.m_curr.node_id (fun n =>
      { n with m_val := { n.m_val with str := h.m_curr.line_contents_rem.str } }) }

/-- Source `_push`: push a frame, append a child to the node of the new parent frame (the frame
that was on top before the push), and position the new top frame on that child. -/
def _push (h : EventHandlerTree) : EventHandlerTree :=
  let h1 := h._stack_push
  let r := h1.m_tree._append_child__unprotected h.m_curr.node_id
  { h1 with m_tree := r.1, m_curr := { h1.m_curr with node_id := r.2 } }

/-- Source `_remove_speculative`: delete the tail-most node when it has a parent and no type. -/
def _remove_speculative (h : EventHandlerTree) : Outcome :=
  if h.m_tree.size = 0 then .fail .assertion h
  else
    let last_added := h.m_tree.size - 1
    if h.m_tree.has_parent last_added && decide (h.m_tree.type last_added = NOTYPE) then
      .ok { h with m_tree := h.m_tree.remove last_added }
    else .ok h

/-- Source `_remove_speculative_with_parent`: the tail-most node must have a parent; it is deleted
when it has no type. -/
def _remove_speculative_with_parent (h : EventHandlerTree) : Outcome :=
  if h.m_tree.size = 0 then .fail .assertion h
  else
    let last_added := h.m_tree.size - 1
    if !h.m_tree.has_parent last_added then .fail .assertion h
    else if h.m_tree.type last_added = NOTYPE then
      .ok { h with m_tree := h.m_tree.remove last_added }
    else .ok h

/-- Source `_pop`: end the current scope. -/
def _pop (h : EventHandlerTree) : Outcome :=
  (h._remove_speculative_with_parent).andThen _stack_pop

/-- Source `_set_root_as_stream`: make the root a stream; a root with neither children nor a
value is marked as a value for the conversion and the mark is taken off the new doc
child afterwards. -/
def _set_root_as_stream (h : EventHandlerTree) : Outcome :=
  let node := h.m_curr.node_id
  let root := h.m_tree.root_id
  if node ≠ 0 then .fail .assertion h
  else
    let hack := !h.m_tree.has_children node && !h.m_tree.is_val node
    let h1 : EventHandlerTree :=
      if hack then { h with m_tree := h.m_tree.modify node (fun n => { n with m_type := n.m_type ||| VAL }) }
      else h
    let h2 : EventHandlerTree := { h1 with m_tree := h1.m_tree.set_root_as_stream }
    if !h2.m_tree.is_stream root then .fail .assertion h2
    else if !h2.m_tree.has_children root then .fail .assertion h2
    else
      match h2.m_tree.first_child root with
      | none => .fail .assertion h2
      | some first =>
        if !h2.m_tree.is_doc first then .fail .assertion h2
        else
          let h3 : EventHandlerTree :=
            if hack then { h2 with m_tree := h2.m_tree.modify first (fun n => { n with m_type := andNot n.m_type VAL }) }
            else h2
          .ok (h3._set_state_curr root)

/-- Source `_reset_parser_state(st, parse_root, node)` on a frame: position the frame on `node`
and add the flags that follow from the node's type. Returns the frame, or the error
together with the frame as it is when the error is raised: already positioned on `node`,
no flag added. -/
def _reset_parser_state (t : Tree) (st : ParserState) (parse_root node : Nat) :
    Except (Error × ParserState) ParserState :=
  let st := { st with node_id := node }
  let type := t.type node
  let r : Except (Error × ParserState) ParserState :=
    if type = NOTYPE then
      if t.is_root parse_root then .ok { st with flags := st.flags ||| (RUNK ||| RTOP) }
      else .ok { st with flags := st.flags ||| USTY }
    else if t.is_map node then .ok { st with flags := st.flags ||| (RMAP ||| USTY) }
    else if t.is_seq node then .ok { st with flags := st.flags ||| (RSEQ ||| USTY) }
    else if t.has_key node then .ok { st with flags := st.flags ||| USTY }
    else .error (.err "cannot append to node", st)
  match r with
  | .error e => .error e
  | .ok st1 => if t.is_doc node then .ok { st1 with flags := st1.flags ||| RDOC } else .ok st1

/-- Source `reset(tree, id)`: bind the handler `h` to a tree and a destination node, with a fresh
stack of one frame (root destination) or two frames (the destination and its parent). A
failure while a frame is set carries that frame as `_reset_parser_state` left it. -/
def reset (h : EventHandlerTree) (tree : Tree) (id : Nat) : Outcome :=
  if ¬ id < tree.capacity then .fail .check h
  else if !tree.is_root id && (match tree.parent id with
        | some p => tree.is_map p
        | none => false) && !tree.has_key id then
    .fail (.err "destination node belongs to a map and has no key") h
  else
    let h1 : EventHandlerTree := { h with m_tree := tree, m_id := id }
    if tree.is_root id then
      let h2 : EventHandlerTree := { h1 with m_curr := {}, m_lower := [] }
      match _reset_parser_state tree h2.m_curr id tree.root_id with
      | .error e => .fail e.1 { h2 with m_curr := e.2 }
      | .ok st => .ok { h2 with m_curr := st }
    else
      let h2 : EventHandlerTree := { h1 with m_curr := {}, m_lower := [{}] }
      match _reset_parser_state tree {} id ((tree.parent id).getD 0) with
      | .error e => .fail e.1 { h2 with m_lower := [e.2] }
      | .ok stp =>
        let h3 : EventHandlerTree := { h2 with m_lower := [stp] }
        match _reset_parser_state tree h3.m_curr id id with
        | .error e => .fail e.1 { h3 with m_curr := e.2 }
        | .ok st => .ok { h3 with m_curr := st }

/-! ## Events -/

/-- Source `begin_stream`: nothing to do. -/
def begin_stream (h : EventHandlerTree) : Outcome := .ok h

/-- Source `end_stream`: nothing to do. -/
def end_stream (h : EventHandlerTree) : Outcome := .ok h

/-- Source `begin_doc`: implicit document start. -/
def begin_doc (env : Env) (h : EventHandlerTree) : Outcome :=
  if env._stack_should_push_on_begin_doc h then
    (h._set_root_as_stream).andThen (fun h1 => .ok (_enable__ DOC h1._push))
  else .ok h

/-- Source `end_doc`: implicit document end. -/
def end_doc (env : Env) (h : EventHandlerTree) : Outcome :=
  if env._stack_should_pop_on_end_doc h then
    (h._remove_speculative).andThen _pop
  else .ok h

/-- Source `begin_doc_expl`: explicit document start, with `---`. -/
def begin_doc_expl (h : EventHandlerTree) : Outcome :=
  if h.m_tree.root_id ≠ h.m_curr.node_id then .fail .assertion h
  else if !h.m_tree.is_stream h.m_tree.root_id then
    (h._set_root_as_stream).andThen (fun h1 =>
      match h1.m_tree.first_child h1.m_tree.root_id with
      | none => .fail .assertion h1
      | some first =>
        if !h1.m_tree.is_stream h1.m_tree.root_id then .fail .assertion h1
        else if h1.m_tree.num_children h1.m_tree.root_id ≠ 1 then .fail .assertion h1
        else if h1.m_tree.has_children first || h1.m_tree.is_val first then
          .ok (_enable__ DOC h1._push)
        else
          (h1._push._remove_speculative).andThen (fun h2 =>
            match h2.m_tree.last_child h2.m_tree.root_id with
            | none => .fail .assertion h2
            | some last => .ok (_enable__ DOC (h2._set_state_curr last))))
  else .ok (_enable__ DOC h._push)

/-- Source `end_doc_expl`: explicit document end, with `...`. -/
def end_doc_expl (env : Env) (h : EventHandlerTree) : Outcome :=
  (h._remove_speculative).andThen (fun h1 =>
    if env._stack_should_pop_on_end_doc h1 then h1._pop else .ok h1)

/-- The message of the container-as-key errors. -/
def containers_as_keys : String := "ryml trees cannot handle containers as keys"

/-- Source `begin_map_key_flow`: always an error. -/
def begin_map_key_flow (h : EventHandlerTree) : Outcome := .fail (.err containers_as_keys) h

/-- Source `begin_map_key_block`: always an error. -/
def begin_map_key_block (h : EventHandlerTree) : Outcome := .fail (.err containers_as_keys) h

/-- Source `begin_map_val_flow`. -/
def begin_map_val_flow (h : EventHandlerTree) : Outcome :=
  if _has_any__ VAL h then .fail .check h
  else .ok (_push (_save_loc (_enable__ (MAP ||| FLOW_SL) h)))

/-- Source `begin_map_val_block`. -/
def begin_map_val_block (h : EventHandlerTree) : Outcome :=
  if _has_any__ VAL h then .fail .check h
  else .ok (_push (_save_loc (_enable__ (MAP ||| BLOCK) h)))

/-- Source `end_map`. -/
def end_map (h : EventHandlerTree) : Outcome := h._pop

/-- Source `begin_seq_key_flow`: always an error. -/
def begin_seq_key_flow (h : EventHandlerTree) : Outcome := .fail (.err containers_as_keys) h

/-- Source `begin_seq_key_block`: always an error. -/
def begin_seq_key_block (h : EventHandlerTree) : Outcome := .fail (.err containers_as_keys) h

/-- Source `begin_seq_val_flow`. -/
def begin_seq_val_flow (h : EventHandlerTree) : Outcome :=
  if _has_any__ VAL h then .fail .check h
  else .ok (_push (_save_loc (_enable__ (SEQ ||| FLOW_SL) h)))

/-- Source `begin_seq_val_block`. -/
def begin_seq_val_block (h : EventHandlerTree) : Outcome :=
  if _has_any__ VAL h then .fail .check h
  else .ok (_push (_save_loc (_enable__ (SEQ ||| BLOCK) h)))

/-- Source `end_seq`. -/
def end_seq (h : EventHandlerTree) : Outcome := h._pop

/-- Source `add_sibling`: append a child under the parent frame's node and position the current
frame on it. -/
def add_sibling (h : EventHandlerTree) : Outcome :=
  match h.m_parent with
  | none => .fail .assertion h
  | some p =>
    if !h.m_tree.has_children p.node_id then .fail .assertion h
    else
      let r := h.m_tree._append_child__unprotected p.node_id
      .ok (_set_state_curr { h with m_tree := r.1 } r.2)

/-- Source `actually_val_is_first_key_of_new_map_flow`: the value just set becomes the first key
of a new flow map opened on the current node. -/
def actually_val_is_first_key_of_new_map_flow (h : EventHandlerTree) : Outcome :=
  let id := h.m_curr.node_id
  if h.m_tree.is_container id then .fail (.err containers_as_keys) h
  else
    match h.m_parent with
    | none => .fail .assertion h
    | some p =>
      if !h.m_tree.is_seq p.node_id then .fail .assertion h
      else if h.m_tree.is_container id then .fail .assertion h
      else if h.m_tree.has_key id then .fail .assertion h
      else
        let type := h.m_tree.type id
        let val := (h.m_tree.get id).m_val
        let tag := (h.m_tree.get id).m_val_tag
        let anc := (h.m_tree.get id).m_val_anchor
        let type := (type &&& (_VALMASK ||| VAL_STYLE)) >>> 1
        let type := andNot type (_VALMASK ||| VAL_STYLE)
        let type := type ||| KEY
        (begin_map_val_flow (_disable__ (_VALMASK ||| VAL_STYLE) h)).andThen (fun h1 =>
          let id := h1.m_curr.node_id
          .ok { h1 with m_tree := h1.m_tree.modify id (fun n =>
            { n with m_type := type, m_key := val, m_key_tag := tag, m_key_anchor := anc }) })

/-- Source `actually_val_is_first_key_of_new_map_block`: always an error. -/
def actually_val_is_first_key_of_new_map_block (h : EventHandlerTree) : Outcome :=
  .fail (.err containers_as_keys) h

/-- Write the key view of the current node, `m_tree->m_key[m_curr->node_id] = scalar`. -/
def set_key (h : EventHandlerTree) (scalar : csubstr) : EventHandlerTree :=
  { h with m_tree := h.m_tree.modify h.m_curr.node_id (fun n => { n with m_key := scalar }) }

/-- Write the value view of the current node, `m_tree->m_val[m_curr->node_id] = scalar`. -/
def set_val (h : EventHandlerTree) (scalar : csubstr) : EventHandlerTree :=
  { h with m_tree := h.m_tree.modify h.m_curr.node_id (fun n => { n with m_val := scalar }) }

/-- Source `set_key_scalar_plain`. -/
def set_key_scalar_plain (scalar : csubstr) (h : EventHandlerTree) : Outcome :=
  .ok (_enable__ (KEY ||| KEY_PLAIN) (h.set_key scalar))
/-- Source `set_val_scalar_plain`. -/
def set_val_scalar_plain (scalar : csubstr) (h : EventHandlerTree) : Outcome :=
  .ok (_enable__ (VAL ||| VAL_PLAIN) (h.set_val scalar))
/-- Source `set_key_scalar_dquoted`. -/
def set_key_scalar_dquoted (scalar : csubstr) (h : EventHandlerTree) : Outcome :=
  .ok (_enable__ (KEY ||| KEY_DQUO) (h.set_key scalar))
/-- Source `set_val_scalar_dquoted`. -/
def set_val_scalar_dquoted (scalar : csubstr) (h : EventHandlerTree) : Outcome :=
  .ok (_enable__ (VAL ||| VAL_DQUO) (h.set_val scalar))
/-- Source `set_key_scalar_squoted`. -/
def set_key_scalar_squoted (scalar : csubstr) (h : EventHandlerTree) : Outcome :=
  .ok (_enable__ (KEY ||| KEY_SQUO) (h.set_key scalar))
/-- Source `set_val_scalar_squoted`. -/
def set_val_scalar_squoted (scalar : csubstr) (h : EventHandlerTree) : Outcome :=
  .ok (_enable__ (VAL ||| VAL_SQUO) (h.set_val scalar))
/-- Source `set_key_scalar_literal`. -/
def set_key_scalar_literal (scalar : csubstr) (h : EventHandlerTree) : Outcome :=
  .ok (_enable__ (KEY ||| KEY_LITERAL) (h.set_key scalar))
/-- Source `set_val_scalar_literal`. -/
def set_val_scalar_literal (scalar : csubstr) (h : EventHandlerTree) : Outcome :=
  .ok (_enable__ (VAL ||| VAL_LITERAL) (h.set_val scalar))
/-- Source `set_key_scalar_folded`. -/
def set_key_scalar_folded (scalar : csubstr) (h : EventHandlerTree) : Outcome :=
  .ok (_enable__ (KEY ||| KEY_FOLDED) (h.set_key scalar))
/-- Source `set_val_scalar_folded`. -/
def set_val_scalar_folded (scalar : csubstr) (h : EventHandlerTree) : Outcome :=
  .ok (_enable__ (VAL ||| VAL_FOLDED) (h.set_val scalar))

/-- Source `mark_key_scalar_unfiltered`. -/
def mark_key_scalar_unfiltered (h : EventHandlerTree) : Outcome := .ok (_enable__ KEY_UNFILT h)
/-- Source `mark_val_scalar_unfiltered`. -/
def mark_val_scalar_unfiltered (h : EventHandlerTree) : Outcome := .ok (_enable__ VAL_UNFILT h)

/-- Source `set_key_anchor`: the name must come without its `&`. -/
def set_key_anchor (env : Env) (anchor : csubstr) (h : EventHandlerTree) : Outcome :=
  if anchor.begins_with env.mem 38 then .fail .assertion h
  else
    let h1 := _enable__ KEYANCH h
    .ok { h1 with m_tree := h1.m_tree.modify h1.m_curr.node_id (fun n => { n with m_key_anchor := anchor }) }

/-- Source `set_val_anchor`: the name must come without its `&`. -/
def set_val_anchor (env : Env) (anchor : csubstr) (h : EventHandlerTree) : Outcome :=
  if anchor.begins_with env.mem 38 then .fail .assertion h
  else
    let h1 := _enable__ VALANCH h
    .ok { h1 with m_tree := h1.m_tree.modify h1.m_curr.node_id (fun n => { n with m_val_anchor := anchor }) }

/-- Source `set_key_ref`: the alias must come with its `*`. -/
def set_key_ref (env : Env) (ref : csubstr) (h : EventHandlerTree) : Outcome :=
  if !ref.begins_with env.mem 42 then .fail .assertion h
  else
    let h1 := _enable__ (KEY ||| KEYREF) h
    let h2 : EventHandlerTree :=
      { h1 with m_tree := h1.m_tree.modify h1.m_curr.node_id (fun n => { n with m_key_anchor := ref.sub 1 }) }
    .ok (h2.set_key ref)

/-- Source `set_val_ref`: the alias must come with its `*`. -/
def set_val_ref (env : Env) (ref : csubstr) (h : EventHandlerTree) : Outcome :=
  if !ref.begins_with env.mem 42 then .fail .assertion h
  else
    let h1 := _enable__ (VAL ||| VALREF) h
    let h2 : EventHandlerTree :=
      { h1 with m_tree := h1.m_tree.modify h1.m_curr.node_id (fun n => { n with m_val_anchor := ref.sub 1 }) }
    .ok (h2.set_val ref)

/-- Source `set_key_tag`. -/
def set_key_tag (tag : csubstr) (h : EventHandlerTree) : Outcome :=
  let h1 := _enable__ KEYTAG h
  .ok { h1 with m_tree := h1.m_tree.modify h1.m_curr.node_id (fun n => { n with m_key_tag := tag }) }

/-- Source `set_val_tag`. -/
def set_val_tag (tag : csubstr) (h : EventHandlerTree) : Outcome :=
  let h1 := _enable__ VALTAG h
  .ok { h1 with m_tree := h1.m_tree.modify h1.m_curr.node_id (fun n => { n with m_val_tag := tag }) }

/-- Source `add_directive`: `%TAG` directives go to the tree's tag table, the others are ignored.
The byte lists are the texts `%TAG` and `%YAML`; 37 is `%`. -/
def add_directive (env : Env) (directive : csubstr) (h : EventHandlerTree) : Outcome :=
  if !directive.begins_with env.mem 37 then .fail .assertion h
  else if directive.begins_with_str env.mem [37, 84, 65, 71] then
    let r := add_tag_directive env h.m_tree directive
    if r.1 then .ok { h with m_tree := r.2 } else .fail .check { h with m_tree := r.2 }
  else if directive.begins_with_str env.mem [37, 89, 65, 77, 76] then .ok h
  else .ok h

end EventHandlerTree

/-! ## Arena functions -/

/-- Modelled from the spec: the rebasing rule of the arena relocation protocol
(`_stack_relocate_to_new_arena(s, prev, curr)` of `EventHandlerStack`, not under src/):
"new_view = new_base + (old_view.start - old_base), preserving length". -/
def _stack_relocate_to_new_arena (s prev curr : csubstr) : csubstr :=
  { str := curr.str + (s.str - prev.str), len := s.len }

/-- Modelled from the spec: "views that point outside the old arena's bounds are never
rebased"; a view inside the old bounds is rebased. -/
def relocate_if_in_arena (prev curr s : csubstr) : csubstr :=
  if prev.is_super s then _stack_relocate_to_new_arena s prev curr else s

namespace Tree

/-- Modelled from the spec: `Tree::arena`, the bounds of the arena: the bytes in use of the
arena buffer. -/
def arena (t : Tree) : csubstr := { str := t.m_arena.str, len := t.m_arena_pos }

/-- Modelled from the spec: the memory after a reallocation of the arena, the bytes in use
of the old arena having been copied to the new base. -/
def copy_arena (m : Mem) (old_base new_base used : Nat) : Mem :=
  fun a => if new_base ≤ a ∧ a < new_base + used then m (old_base + (a - new_base)) else m a

/-- Modelled from the spec: `allocate_arena(len) -> view`, "grows/returns a slice of the
arena; may trigger reallocation, in which case every previously issued arena view becomes
invalid at its old address and must be rebased". When the free part of the buffer is too
small the buffer is replaced by the one the allocation policy gives, the bytes in use are
copied to it, and the views of the nodes that pointed inside the old bounds are rebased.
The slice returned starts at the first free byte and has the requested length. Returns
the memory, the tree and the slice. -/
def alloc_arena (reserve : csubstr → Nat → csubstr) (m : Mem) (t : Tree) (sz : Nat) :
    Mem × Tree × csubstr :=
  let grown : Mem × Tree :=
    if sz > t.m_arena.len - t.m_arena_pos then
      let buf := reserve t.m_arena (t.m_arena_pos + sz)
      let prev := t.arena
      let curr : csubstr := { str := buf.str, len := t.m_arena_pos }
      (copy_arena m t.m_arena.str buf.str t.m_arena_pos,
       { t with
         m_arena := buf,
         m_buf := t.m_buf.map (fun n =>
           { n with m_key := relocate_if_in_arena prev curr n.m_key,
                    m_key_tag := relocate_if_in_arena prev curr n.m_key_tag,
                    m_key_anchor := relocate_if_in_arena prev curr n.m_key_anchor,
                    m_val := relocate_if_in_arena prev curr n.m_val,
                    m_val_tag := relocate_if_in_arena prev curr n.m_val_tag,
                    m_val_anchor := relocate_if_in_arena prev curr n.m_val_anchor }) })
    else (m, t)
  let t1 := grown.2
  (grown.1, { t1 with m_arena_pos := t1.m_arena_pos + sz },
   { str := t1.m_arena.str + t1.m_arena_pos, len := sz })

end Tree

/-- What an arena call of the handler returns: the memory and the handler after the call,
the slice allocated, and the view passed for relocation as the call leaves it. -/
structure ArenaResult where
  mem : Mem
  h : EventHandlerTree
  out : csubstr
  relocated : csubstr

namespace EventHandlerTree

/-- Modelled from the spec: `_stack_relocate_to_new_arena(prev, curr)` of
`EventHandlerStack` (not under src/): the pending views of the frames that point inside
the old arena bounds are rebased. -/
def _stack_relocate_frames (prev curr : csubstr) (h : EventHandlerTree) : EventHandlerTree :=
  { h with
    m_curr := { h.m_curr with
      line_contents_rem := relocate_if_in_arena prev curr h.m_curr.line_contents_rem },
    m_lower := h.m_lower.map (fun st =>
      { st with line_contents_rem := relocate_if_in_arena prev curr st.line_contents_rem }) }

/-- Source `alloc_arena(len)`: allocate from the tree's arena and, when the arena has moved,
relocate the views of the stack. -/
def alloc_arena (env : Env) (h : EventHandlerTree) (len : Nat) : Mem × EventHandlerTree × csubstr :=
  let prev := h.m_tree.arena
  let r := h.m_tree.alloc_arena env.arena_reserve env.mem len
  let h1 : EventHandlerTree := { h with m_tree := r.2.1 }
  let out := r.2.2
  let curr := h1.m_tree.arena
  if curr.str ≠ prev.str then (r.1, _stack_relocate_frames prev curr h1, out)
  else (r.1, h1, out)

/-- Source `alloc_arena(len, relocated)`: as `alloc_arena(len)`, and the view `*relocated` is
rebased when it pointed inside the old arena and the arena has moved. -/
def alloc_arena_relocating (env : Env) (h : EventHandlerTree) (len : Nat) (relocated : csubstr) :
    ArenaResult :=
  let prev := h.m_tree.arena
  if !prev.is_super relocated then
    let r := h.alloc_arena env len
    { mem := r.1, h := r.2.1, out := r.2.2, relocated := relocated }
  else
    let r := h.alloc_arena env len
    let curr := r.2.1.m_tree.arena
    if curr.str ≠ prev.str then
      { mem := r.1, h := r.2.1, out := r.2.2,
        relocated := _stack_relocate_to_new_arena relocated prev curr }
    else { mem := r.1, h := r.2.1, out := r.2.2, relocated := relocated }

end EventHandlerTree

/-- The parse events of the handler (the stream, document, map, seq, structure, scalar,
anchor, reference, tag and directive events of the source). -/
inductive Event where
  | begin_stream | end_stream
  | begin_doc | end_doc | begin_doc_expl | end_doc_expl
  | begin_map_key_flow | begin_map_key_block | begin_map_val_flow | begin_map_val_block | end_map
  | begin_seq_key_flow | begin_seq_key_block | begin_seq_val_flow | begin_seq_val_block | end_seq
  | add_sibling
  | actually_val_is_first_key_of_new_map_flow
  | actually_val_is_first_key_of_new_map_block
  | set_key_scalar_plain (s : csubstr) | set_val_scalar_plain (s : csubstr)
  | set_key_scalar_dquoted (s : csubstr) | set_val_scalar_dquoted (s : csubstr)
  | set_key_scalar_squoted (s : csubstr) | set_val_scalar_squoted (s : csubstr)
  | set_key_scalar_literal (s : csubstr) | set_val_scalar_literal (s : csubstr)
  | set_key_scalar_folded (s : csubstr) | set_val_scalar_folded (s : csubstr)
  | mark_key_scalar_unfiltered | mark_val_scalar_unfiltered
  | set_key_anchor (s : csubstr) | set_val_anchor (s : csubstr)
  | set_key_ref (s : csubstr) | set_val_ref (s : csubstr)
  | set_key_tag (s : csubstr) | set_val_tag (s : csubstr)
  | add_directive (s : csubstr)
deriving DecidableEq, Repr

namespace EventHandlerTree

/-- One event applied to the handler. -/
def step (env : Env) (h : EventHandlerTree) : Event → Outcome
  | .begin_stream => h.begin_stream
  | .end_stream => h.end_stream
  | .begin_doc => h.begin_doc env
  | .end_doc => h.end_doc env
  | .begin_doc_expl => h.begin_doc_expl
  | .end_doc_expl => h.end_doc_expl env
  | .begin_map_key_flow => h.begin_map_key_flow
  | .begin_map_key_block => h.begin_map_key_block
  | .begin_map_val_flow => h.begin_map_val_flow
  | .begin_map_val_block => h.begin_map_val_block
  | .end_map => h.end_map
  | .begin_seq_key_flow => h.begin_seq_key_flow
  | .begin_seq_key_block => h.begin_seq_key_block
  | .begin_seq_val_flow => h.begin_seq_val_flow
  | .begin_seq_val_block => h.begin_seq_val_block
  | .end_seq => h.end_seq
  | .add_sibling => h.add_sibling
  | .actually_val_is_first_key_of_new_map_flow => h.actually_val_is_first_key_of_new_map_flow
  | .actually_val_is_first_key_of_new_map_block => h.actually_val_is_first_key_of_new_map_block
  | .set_key_scalar_plain s => h.set_key_scalar_plain s
  | .set_val_scalar_plain s => h.set_val_scalar_plain s
  | .set_key_scalar_dquoted s => h.set_key_scalar_dquoted s
  | .set_val_scalar_dquoted s => h.set_val_scalar_dquoted s
  | .set_key_scalar_squoted s => h.set_key_scalar_squoted s
  | .set_val_scalar_squoted s => h.set_val_scalar_squoted s
  | .set_key_scalar_literal s => h.set_key_scalar_literal s
  | .set_val_scalar_literal s => h.set_val_scalar_literal s
  | .set_key_scalar_folded s => h.set_key_scalar_folded s
  | .set_val_scalar_folded s => h.set_val_scalar_folded s
  | .mark_key_scalar_unfiltered => h.mark_key_scalar_unfiltered
  | .mark_val_scalar_unfiltered => h.mark_val_scalar_unfiltered
  | .set_key_anchor s => h.set_key_anchor env s
  | .set_val_anchor s => h.set_val_anchor env s
  | .set_key_ref s => h.set_key_ref env s
  | .set_val_ref s => h.set_val_ref env s
  | .set_key_tag s => h.set_key_tag s
  | .set_val_tag s => h.set_val_tag s
  | .add_directive s => h.add_directive env s

/-- A sequence of events, stopping at the first error. -/
def run (env : Env) (h : EventHandlerTree) : List Event → Outcome
  | [] => .ok h
  | e :: es => (h.step env e).andThen (fun h1 => run env h1 es)

end EventHandlerTree

/-- The empty tree: a single root node with no type. -/
def Tree.empty : Tree := { m_buf := [{}], m_cap := 16 }

/-- The handler reset onto the root of the empty tree. -/
def EventHandlerTree.init : Outcome := EventHandlerTree.reset {} Tree.empty 0

/-! ## Vocabulary of the properties -/

/-- An environment for evaluating closed examples: a zeroed memory, documents that never
ask for a push or a pop, a tag table that accepts every directive, and an arena that is
replaced by a buffer of twice the needed size placed right after the old one. -/
def Env.plain : Env :=
  { mem := fun _ => 0
    _stack_should_push_on_begin_doc := fun _ => false
    _stack_should_pop_on_end_doc := fun _ => false
    tag_directive_accepted := fun _ _ => true
    arena_reserve := fun buf needed => { str := buf.str + buf.len + 1000, len := 2 * needed } }

/-- The frame a reset onto an untyped root produces: "unknown root, at top". -/
def root_frame : ParserState := { flags := RUNK ||| RTOP }

/-- The handler state after a reset onto the empty tree. -/
def EventHandlerTree.start : EventHandlerTree := { m_curr := root_frame, m_tree := Tree.empty }

/-- The four value-opening events. -/
def Event.opens_value : Event → Bool
  | .begin_map_val_flow => true
  | .begin_map_val_block => true
  | .begin_seq_val_flow => true
  | .begin_seq_val_block => true
  | _ => false

/-- The container and style bits a value-opening event requests. -/
def Event.opening_bits : Event → Nat
  | .begin_map_val_flow => MAP ||| FLOW_SL
  | .begin_map_val_block => MAP ||| BLOCK
  | .begin_seq_val_flow => SEQ ||| FLOW_SL
  | .begin_seq_val_block => SEQ ||| BLOCK
  | _ => 0

/-- The end event that matches a value-opening event. -/
def Event.closing : Event → Event
  | .begin_seq_val_flow => .end_seq
  | .begin_seq_val_block => .end_seq
  | _ => .end_map

/-- What a value-opening event does once its check has passed: set the bits, save the
location, push. -/
def EventHandlerTree.opened (bits : Nat) (h : EventHandlerTree) : EventHandlerTree :=
  EventHandlerTree._push (EventHandlerTree._save_loc (EventHandlerTree._enable__ bits h))

/-- A handler whose current node (the root) holds a plain scalar value. -/
def EventHandlerTree.on_scalar : EventHandlerTree :=
  (EventHandlerTree.set_val_scalar_plain { str := 100, len := 1 } EventHandlerTree.start).state

/-- A handler back on a root that is an empty flow map: `begin_map_val_flow`, `end_map`
after a reset onto the empty tree. -/
def EventHandlerTree.on_empty_map : EventHandlerTree :=
  (EventHandlerTree.run Env.plain EventHandlerTree.start [.begin_map_val_flow, .end_map]).state

/-- The value flags that `actually_val_is_first_key_of_new_map_flow` carries over, each
paired with its key flag: value-present, value-reference, value-anchor, value-tag and the
five value styles. -/
def value_key_flags : List (Nat × Nat) :=
  [(VAL, KEY), (VALREF, KEYREF), (VALANCH, KEYANCH), (VALTAG, KEYTAG),
   (VAL_LITERAL, KEY_LITERAL), (VAL_FOLDED, KEY_FOLDED), (VAL_SQUO, KEY_SQUO),
   (VAL_DQUO, KEY_DQUO), (VAL_PLAIN, KEY_PLAIN)]

/-- The key-side type the key conversion is specified to produce from the value-side type
`T`: the key-present flag, together with the key flag of every value flag present in `T`,
and nothing else. -/
def converted_key_type (T : Nat) : Nat :=
  value_key_flags.foldl (fun acc p => if T &&& p.1 ≠ 0 then acc ||| p.2 else acc) KEY

/-- The type `actually_val_is_first_key_of_new_map_flow` computes for the new node from the
type `T` of the value: the three assignments to `type` of the source. -/
def shifted_key_type (T : Nat) : Nat :=
  andNot ((T &&& (_VALMASK ||| VAL_STYLE)) >>> 1) (_VALMASK ||| VAL_STYLE) ||| KEY

/-- A handler on the first value of a flow sequence, a plain scalar with a tag: the events
`begin_seq_val_flow`, `set_val_tag`, `set_val_scalar_plain` after a reset onto the empty
tree. -/
def EventHandlerTree.on_tagged_seq_value : EventHandlerTree :=
  (EventHandlerTree.run Env.plain EventHandlerTree.start
    [.begin_seq_val_flow, .set_val_tag { str := 200, len := 5 },
     .set_val_scalar_plain { str := 100, len := 1 }]).state

/-- The flow-sequence scenario, after `begin_seq_val_flow` on the reset state: the root is
a flow sequence and the handler is on its first, still untyped, child. -/
def EventHandlerTree.in_flow_seq : EventHandlerTree :=
  { m_curr := { flags := RUNK ||| RTOP, level := 1, node_id := 1 }, m_lower := [root_frame],
    m_tree := { m_cap := 16, m_buf := [
      { m_type := NOTYPE ||| (SEQ ||| FLOW_SL), m_first_child := some 1, m_last_child := some 1 },
      { m_parent := some 0 }] } }

/-- The flow-sequence scenario, after `set_val_scalar_plain x`. -/
def EventHandlerTree.in_flow_seq_val (x : csubstr) : EventHandlerTree :=
  { EventHandlerTree.in_flow_seq with
    m_tree := { m_cap := 16, m_buf := [
      { m_type := NOTYPE ||| (SEQ ||| FLOW_SL), m_first_child := some 1, m_last_child := some 1 },
      { m_type := NOTYPE ||| (VAL ||| VAL_PLAIN), m_val := x, m_parent := some 0 }] } }

/-- The tree of the flow-sequence scenario once the value `x` has become the first key of
a new flow map and `v` is the value view of the new node, typed `ty`. -/
def flow_seq_map_tree (x v : csubstr) (ty : Nat) : Tree :=
  { m_cap := 16, m_buf := [
      { m_type := NOTYPE ||| (SEQ ||| FLOW_SL), m_first_child := some 1, m_last_child := some 1 },
      { m_type := andNot (NOTYPE ||| (VAL ||| VAL_PLAIN)) (_VALMASK ||| VAL_STYLE) ||| (MAP ||| FLOW_SL),
        m_val := { str := 0, len := x.len }, m_parent := some 0,
        m_first_child := some 2, m_last_child := some 2 },
      { m_type := ty, m_key := x, m_val := v, m_parent := some 1 }] }

/-- The flow-sequence scenario, after `actually_val_is_first_key_of_new_map_flow`. -/
def EventHandlerTree.in_flow_seq_map (x : csubstr) : EventHandlerTree :=
  { m_curr := { flags := RUNK ||| RTOP, level := 2, node_id := 2 },
    m_lower := [{ flags := RUNK ||| RTOP, level := 1, node_id := 1 }, root_frame],
    m_tree := flow_seq_map_tree x {} (shifted_key_type (NOTYPE ||| (VAL ||| VAL_PLAIN))) }

/-- The type of the node holding the pair of the flow-sequence scenario. -/
def flow_seq_pair_type : Nat :=
  shifted_key_type (NOTYPE ||| (VAL ||| VAL_PLAIN)) ||| (VAL ||| VAL_PLAIN)

/-- The flow-sequence scenario, at its end: the sequence `[{x: y}]`. -/
def EventHandlerTree.flow_seq_done (x y : csubstr) : EventHandlerTree :=
  { m_curr := root_frame, m_lower := [], m_tree := flow_seq_map_tree x y flow_seq_pair_type }

/-- The scalar events of a list of (key, value) pairs: for each pair
`set_key_scalar_plain`, `set_val_scalar_plain`, with `add_sibling` between consecutive
pairs. -/
def pair_events : List (csubstr × csubstr) → List Event
  | [] => []
  | [p] => [.set_key_scalar_plain p.1, .set_val_scalar_plain p.2]
  | p :: q :: rest =>
    .set_key_scalar_plain p.1 :: .set_val_scalar_plain p.2 :: .add_sibling :: pair_events (q :: rest)

/-- The events of a block map holding the given pairs. -/
def block_map_events (pairs : List (csubstr × csubstr)) : List Event :=
  .begin_map_val_block :: (pair_events pairs ++ [.end_map])

/-- The node holding the pair `p` as the `i`-th child (counting from 1) of the root. -/
def pair_node (i : Nat) (p : csubstr × csubstr) (next : Option Nat) : NodeData :=
  { m_type := NOTYPE ||| (KEY ||| KEY_PLAIN) ||| (VAL ||| VAL_PLAIN), m_key := p.1, m_val := p.2,
    m_parent := some 0, m_prev_sibling := if i = 1 then none else some (i - 1),
    m_next_sibling := next }

/-- The root of the block-map scenario when its last child is node `last`. -/
def block_map_root (last : Nat) : NodeData :=
  { m_type := NOTYPE ||| (MAP ||| BLOCK), m_first_child := some 1, m_last_child := some last }

/-- The block-map scenario with the pairs `ps` committed on the nodes `1 .. ps.length` and
the handler on a fresh node `ps.length + 1`. -/
structure Building (ps : List (csubstr × csubstr)) (h : EventHandlerTree) : Prop where
  size : h.m_tree.size = ps.length + 2
  curr : h.m_curr = { root_frame with level := 1, node_id := ps.length + 1 }
  lower : h.m_lower = [root_frame]
  root : h.m_tree.get 0 = block_map_root (ps.length + 1)
  done : ∀ i p, ps[i]? = some p → h.m_tree.get (i + 1) = pair_node (i + 1) p (some (i + 2))
  fresh : h.m_tree.get (ps.length + 1) =
    { m_parent := some 0, m_prev_sibling := if ps.length = 0 then none else some ps.length }

/-- The block-map scenario with the pairs `qs` committed on the nodes `1 .. qs.length`, the
handler with current frame `c` over the frames `lower`. -/
structure Filled (qs : List (csubstr × csubstr)) (c : ParserState) (lower : List ParserState)
    (h : EventHandlerTree) : Prop where
  size : h.m_tree.size = qs.length + 1
  curr : h.m_curr = c
  lower : h.m_lower = lower
  root : h.m_tree.get 0 = block_map_root qs.length
  done : ∀ i p, qs[i]? = some p →
    h.m_tree.get (i + 1) = pair_node (i + 1) p (if i + 1 = qs.length then none else some (i + 2))

/-- Every live node of the tree has some type bit. -/
def Tree.all_typed (t : Tree) : Prop := ∀ j, j < t.size → t.type j ≠ NOTYPE

/-- Tail-only speculation: a live node without type is the tail-most node of the store and
is the node the current frame is positioned on. -/
def EventHandlerTree.tail_only_speculative (h : EventHandlerTree) : Prop :=
  ∀ j, j < h.m_tree.size → h.m_tree.type j = NOTYPE → j + 1 = h.m_tree.size ∧ h.m_curr.node_id = j

/-- The states reachable from the reset state by events that return normally, `add_sibling`
being issued only when the current node has some type bit. -/
inductive Reachable (env : Env) : EventHandlerTree → Prop where
  | start : Reachable env EventHandlerTree.start
  | step (h h1 : EventHandlerTree) (e : Event) :
      Reachable env h →
      (e = .add_sibling → h.m_tree.type h.m_curr.node_id ≠ NOTYPE) →
      h.step env e = .ok h1 →
      Reachable env h1

/-- The handler `h1` differs from `h` by writes to node fields that clear no type: same
frames, same number of nodes, and every node without type in `h1` had no type in `h`. -/
def EventHandlerTree.grows (h h1 : EventHandlerTree) : Prop :=
  h1.m_curr = h.m_curr ∧ h1.m_lower = h.m_lower ∧ h1.m_tree.size = h.m_tree.size ∧
    ∀ j, h1.m_tree.type j = NOTYPE → h.m_tree.type j = NOTYPE

/-- A handler whose tree has an arena of 8 bytes at address 1000, 6 of them in use. -/
def EventHandlerTree.with_arena : EventHandlerTree :=
  { EventHandlerTree.start with
    m_tree := { Tree.empty with m_arena := { str := 1000, len := 8 }, m_arena_pos := 6 } }

/-- A memory holding the byte `a mod 251` at every address `a`. -/
def Env.patterned : Env := { Env.plain with mem := fun a => a % 251 }

/-! ## Vocabulary of the properties on references, directives and documents -/

/-- An environment whose memory holds the text `%TAG` at the addresses 500 to 503 and the
text `%YAML` at the addresses 600 to 604, and whose tag table accepts a directive while it
holds fewer than four. -/
def Env.directives : Env :=
  { Env.plain with
    mem := fun a =>
      if 500 ≤ a ∧ a < 504 then [37, 84, 65, 71].getD (a - 500) 0
      else if 600 ≤ a ∧ a < 605 then [37, 89, 65, 77, 76].getD (a - 600) 0
      else 0
    tag_directive_accepted := fun table _ => decide (table.length < 4) }

/-- A handler on the empty tree whose tag table already holds four directives. -/
def EventHandlerTree.with_full_tag_table : EventHandlerTree :=
  { EventHandlerTree.start with
    m_tree := { Tree.empty with
      m_tag_directives := [{ str := 500, len := 12 }, { str := 500, len := 13 },
                           { str := 500, len := 14 }, { str := 500, len := 15 }] } }

/-- An environment like `Env.plain` whose two decisions on documents are fixed: `push` is
the answer of `_stack_should_push_on_begin_doc` and `pop` the answer of
`_stack_should_pop_on_end_doc`, in every state. -/
def Env.deciding (push pop : Bool) : Env :=
  { Env.plain with
    _stack_should_push_on_begin_doc := fun _ => push
    _stack_should_pop_on_end_doc := fun _ => pop }

/-- A handler back on a root that is a stream holding one document with a plain scalar:
`begin_doc_expl`, `set_val_scalar_plain`, `end_doc_expl` (with the pop decided) after a
reset onto the empty tree. -/
def EventHandlerTree.on_stream_root : EventHandlerTree :=
  (EventHandlerTree.run (Env.deciding false true) EventHandlerTree.start
    [.begin_doc_expl, .set_val_scalar_plain { str := 100, len := 1 }, .end_doc_expl]).state

/-- The handler state after an implicit `begin_doc` that pushes, issued on the reset state:
the root is a stream and the handler is on a new document node. -/
def EventHandlerTree.doc_pushed : EventHandlerTree :=
  (EventHandlerTree.begin_doc (Env.deciding true false) EventHandlerTree.start).state

/-- The handler state after an implicit `begin_doc` that pushes and an implicit `end_doc`
that pops, issued on the reset state. -/
def EventHandlerTree.doc_popped : EventHandlerTree :=
  (EventHandlerTree.end_doc (Env.deciding true true) EventHandlerTree.doc_pushed).state

/-- A tree whose root is a block sequence with one child that has no type yet. -/
def Tree.seq_with_child : Tree :=
  { m_cap := 16, m_buf := [
      { m_type := SEQ ||| BLOCK, m_first_child := some 1, m_last_child := some 1 },
      { m_parent := some 0 }] }

/-- A tree whose root is a block map with one child that has neither key nor type. -/
def Tree.map_with_keyless_child : Tree :=
  { m_cap := 16, m_buf := [
      { m_type := MAP ||| BLOCK, m_first_child := some 1, m_last_child := some 1 },
      { m_parent := some 0 }] }

/-- A tree whose root is a document holding a block map with no child. -/
def Tree.doc_map : Tree := { m_cap := 16, m_buf := [{ m_type := DOC ||| MAP ||| BLOCK }] }

/-- A tree whose root is a plain scalar value. -/
def Tree.scalar_root : Tree :=
  { m_cap := 16, m_buf := [{ m_type := VAL ||| VAL_PLAIN, m_val := { str := 100, len := 1 } }] }

/-- The flags `_reset_parser_state` adds for a document node on top of the flags `f`: the
"within document" flag `RDOC` when the type `T` has the document bit. -/
def with_doc_flag (T f : Nat) : Nat := if T &&& DOC ≠ 0 then f ||| RDOC else f

/-- The handler state a reset of the tree `tree` onto the node `id` ends in once the current
frame has been positioned: the current frame is on `id` and carries the flags `flags`
(none, `0`, when the reset fails on the type of the node), the frames below are `lower`. -/
def EventHandlerTree.placed (tree : Tree) (id : Nat) (lower : List ParserState) (flags : Nat) :
    EventHandlerTree :=
  { m_curr := { flags := flags, node_id := id }, m_lower := lower, m_tree := tree, m_id := id }

/-- A handler on the first child of a flow sequence, that child being an empty block
sequence: `begin_seq_val_flow`, `begin_seq_val_block`, `end_seq` after a reset onto the
empty tree. -/
def EventHandlerTree.on_nested_seq : EventHandlerTree :=
  (EventHandlerTree.run Env.plain EventHandlerTree.start
    [.begin_seq_val_flow, .begin_seq_val_block, .end_seq]).state

/-- The handler state after an explicit `begin_doc_expl` on the reset state: the root is a
stream, its single child is a document, and the handler is on that child, over the root
frame. -/
def EventHandlerTree.doc_tweaked : EventHandlerTree :=
  { m_curr := { flags := RUNK ||| RTOP, level := 1, node_id := 1 },
    m_lower := [root_frame],
    m_tree := { m_cap := 16, m_buf := [
      { m_type := STREAM, m_first_child := some 1, m_last_child := some 1 },
      { m_type := DOC, m_parent := some 0 }] } }

/-- Every live node of the tree other than the tail-most one has some type bit. -/
def Tree.typed_but_tail (t : Tree) : Prop := ∀ j, j + 1 < t.size → t.type j ≠ NOTYPE

/-! ## Vocabulary of the properties on scalar setters and balanced scopes -/

/-- The ten scalar setters of the source, each with the side it writes (`true`: the key,
`false`: the value), the presence bit and the style bit of the `_enable_` it issues, and
the string it is called with. -/
def Event.scalar_setter : Event → Option (Bool × Nat × Nat × csubstr)
  | .set_key_scalar_plain s => some (true, KEY, KEY_PLAIN, s)
  | .set_val_scalar_plain s => some (false, VAL, VAL_PLAIN, s)
  | .set_key_scalar_dquoted s => some (true, KEY, KEY_DQUO, s)
  | .set_val_scalar_dquoted s => some (false, VAL, VAL_DQUO, s)
  | .set_key_scalar_squoted s => some (true, KEY, KEY_SQUO, s)
  | .set_val_scalar_squoted s => some (false, VAL, VAL_SQUO, s)
  | .set_key_scalar_literal s => some (true, KEY, KEY_LITERAL, s)
  | .set_val_scalar_literal s => some (false, VAL, VAL_LITERAL, s)
  | .set_key_scalar_folded s => some (true, KEY, KEY_FOLDED, s)
  | .set_val_scalar_folded s => some (false, VAL, VAL_FOLDED, s)
  | _ => none

/-- The setters of the content of the current node: the ten scalar setters, the two
markers of unfiltered scalars, and the anchor, reference and tag setters. -/
def Event.is_setter : Event → Bool
  | .set_key_scalar_plain _ | .set_val_scalar_plain _
  | .set_key_scalar_dquoted _ | .set_val_scalar_dquoted _
  | .set_key_scalar_squoted _ | .set_val_scalar_squoted _
  | .set_key_scalar_literal _ | .set_val_scalar_literal _
  | .set_key_scalar_folded _ | .set_val_scalar_folded _
  | .mark_key_scalar_unfiltered | .mark_val_scalar_unfiltered
  | .set_key_anchor _ | .set_val_anchor _ | .set_key_ref _ | .set_val_ref _
  | .set_key_tag _ | .set_val_tag _ => true
  | _ => false

/-- The properly nested event sequences that may stand between a value-opening event and
its end event: setters and `add_sibling` events, and scopes of their own, each made of a
value-opening event, a properly nested sequence and the matching end event. -/
inductive Nested : List Event → Prop where
  | nil : Nested []
  | setter (e : Event) (es : List Event) : e.is_setter = true → Nested es → Nested (e :: es)
  | sibling (es : List Event) : Nested es → Nested (Event.add_sibling :: es)
  | scope (e : Event) (body es : List Event) : e.opens_value = true → Nested body → Nested es →
      Nested (e :: (body ++ e.closing :: es))

/-- The events of the block map `k: [a, b]`, `k2: v` between its opening event and its end
event: a key whose value is a flow sequence of two scalars, then a second pair. -/
def nested_map_body : List Event :=
  [.set_key_scalar_plain { str := 100, len := 1 },
   .begin_seq_val_flow,
   .set_val_scalar_plain { str := 110, len := 1 }, .add_sibling,
   .set_val_scalar_dquoted { str := 120, len := 1 },
   .end_seq,
   .add_sibling,
   .set_key_scalar_plain { str := 130, len := 2 }, .set_val_scalar_plain { str := 140, len := 1 }]


/-! ## Theorems -/

/-! ### Node store lemmas -/

namespace Tree

theorem size_modify (t : Tree) (i : Nat) (f : NodeData → NodeData) :
    (t.modify i f).size = t.size := by
  simp [modify, size]

theorem get_modify (t : Tree) (i : Nat) (f : NodeData → NodeData) (j : Nat) :
    (t.modify i f).get j = if j = i ∧ i < t.size then f (t.get i) else t.get j := by
  unfold modify get size
  simp only [List.getD_eq_getElem?_getD, List.getElem?_set]
  by_cases hji : j = i
  · subst hji
    by_cases hlt : j < t.m_buf.length
    · simp [hlt]
    · simp [hlt]
      rw [List.getElem?_eq_none (by omega)]
      rfl
  · have : ¬ i = j := fun h => hji h.symm
    simp [hji, this]

theorem get_of_size_le (t : Tree) (j : Nat) (h : t.size ≤ j) : t.get j = {} := by
  unfold get size at *
  rw [List.getD_eq_getElem?_getD, List.getElem?_eq_none h]
  rfl

theorem size_modifyOpt (t : Tree) (i : Option Nat) (f : NodeData → NodeData) :
    (t.modifyOpt i f).size = t.size := by
  cases i <;> simp [modifyOpt, size_modify]

theorem get_modifyOpt (t : Tree) (i : Option Nat) (f : NodeData → NodeData) (j : Nat) :
    (t.modifyOpt i f).get j = if i = some j ∧ j < t.size then f (t.get j) else t.get j := by
  cases i with
  | none => simp [modifyOpt]
  | some k =>
    simp only [modifyOpt, get_modify, Option.some.injEq]
    by_cases hkj : k = j
    · subst hkj; simp
    · have : ¬ j = k := fun h => hkj h.symm
      simp [hkj, this]

/-- The store with one node pushed at the tail. -/
theorem get_snoc (t : Tree) (n : NodeData) (c : Nat) (j : Nat) :
    Tree.get { t with m_buf := t.m_buf ++ [n], m_cap := c } j =
      if j = t.size then n else t.get j := by
  unfold get size
  simp only [List.getD_eq_getElem?_getD]
  by_cases hj : j < t.m_buf.length
  · rw [List.getElem?_append_left hj]
    simp [Nat.ne_of_lt hj]
  · rw [List.getElem?_append_right (by omega)]
    by_cases hje : j = t.m_buf.length
    · simp [hje]
    · have h1 : j - t.m_buf.length ≠ 0 := by omega
      obtain ⟨k, hk⟩ := Nat.exists_eq_succ_of_ne_zero h1
      rw [hk, List.getElem?_eq_none (by simp), List.getElem?_eq_none (by omega)]
      simp [hje]

theorem size_append (t : Tree) (p : Nat) : (t._append_child__unprotected p).1.size = t.size + 1 := by
  simp [_append_child__unprotected, size_modify, size_modifyOpt]
  simp [size]

theorem snd_append (t : Tree) (p : Nat) : (t._append_child__unprotected p).2 = t.size := rfl

/-- Every node after an append, as a function of the nodes before it. -/
theorem get_append (t : Tree) (p : Nat) (j : Nat) :
    (t._append_child__unprotected p).1.get j =
      let new : NodeData := { m_parent := some p, m_prev_sibling := t.last_child p }
      let n0 := if j = t.size then new else t.get j
      let n1 := if t.last_child p = some j ∧ j < t.size + 1 then
          { n0 with m_next_sibling := some t.size } else n0
      if j = p ∧ p < t.size + 1 then
        { n1 with m_first_child := if n1.m_first_child.isSome then n1.m_first_child else some t.size,
                  m_last_child := some t.size }
      else n1 := by
  have hs : Tree.size { t with m_buf := t.m_buf ++ [{ m_parent := some p, m_prev_sibling := t.last_child p }],
                               m_cap := max t.m_cap (t.size + 1) } = t.size + 1 := by
    simp [size]
  simp only [_append_child__unprotected, get_modify, get_modifyOpt, get_snoc, size_modifyOpt, hs]
  by_cases hjp : j = p
  · subst hjp; simp
  · simp [hjp]

/-- An append changes no type bits: the new node has none. -/
theorem type_append (t : Tree) (p : Nat) (j : Nat) :
    (t._append_child__unprotected p).1.type j = t.type j := by
  unfold type
  rw [get_append]
  by_cases hj : j = t.size
  · subst hj
    have := get_of_size_le t t.size (Nat.le_refl _)
    simp only [this]
    split_ifs <;> rfl
  · simp only [hj, if_false]
    split_ifs <;> rfl

theorem size_remove_tail (t : Tree) (i : Nat) (h : i + 1 = t.size) : (t.remove i).size = i := by
  unfold remove
  simp only [h, if_true]
  have key : ∀ u : Tree, u.size = t.size → Tree.size { u with m_buf := u.m_buf.dropLast } = i := by
    intro u hu
    simp only [size, List.length_dropLast] at *
    omega
  exact key _ (by simp only [size_modifyOpt])

theorem get_dropLast (t : Tree) (j : Nat) :
    Tree.get { t with m_buf := t.m_buf.dropLast } j = if j + 1 < t.size then t.get j else {} := by
  unfold get size
  simp only [List.getD_eq_getElem?_getD, List.getElem?_dropLast]
  by_cases hj : j + 1 < t.m_buf.length
  · have : j < t.m_buf.length - 1 := by omega
    simp [hj, this]
  · have : ¬ j < t.m_buf.length - 1 := by omega
    simp [hj, this]

/-- Every node after the removal of the tail-most node. -/
theorem get_remove_tail (t : Tree) (i : Nat) (h : i + 1 = t.size) (j : Nat) :
    (t.remove i).get j =
      if j < i then
        let n := t.get i
        let n0 := t.get j
        let n1 := if n.m_prev_sibling = some j then { n0 with m_next_sibling := n.m_next_sibling } else n0
        let n2 := if n.m_next_sibling = some j then { n1 with m_prev_sibling := n.m_prev_sibling } else n1
        if n.m_parent = some j then
          { n2 with m_first_child := if n2.m_first_child = some i then n.m_next_sibling else n2.m_first_child,
                    m_last_child := if n2.m_last_child = some i then n.m_prev_sibling else n2.m_last_child }
        else n2
      else {} := by
  unfold remove
  simp only [h, if_true, get_dropLast, size_modifyOpt, get_modifyOpt]
  by_cases hj : j < i
  · have h1 : j + 1 < t.size := by omega
    have h2 : j < t.size := by omega
    simp [hj, h1, h2]
  · have h1 : ¬ j + 1 < t.size := by omega
    simp [hj, h1]

/-- Removing the tail-most node changes no type bits of the other nodes. -/
theorem type_remove_tail (t : Tree) (i : Nat) (h : i + 1 = t.size) (j : Nat) (hj : j < i) :
    (t.remove i).type j = t.type j := by
  unfold type
  rw [get_remove_tail t i h]
  simp only [hj, if_true]
  split_ifs <;> rfl

end Tree

/-! ### Bit lemmas -/

theorem and_eq_zero_of_or_and_eq_zero {a b m : Nat} (h : (a ||| b) &&& m = 0) :
    a &&& m = 0 ∧ b &&& m = 0 := by
  have key : ∀ i, ((a ||| b) &&& m).testBit i = false := by
    intro i; rw [h]; simp
  constructor
  · apply Nat.eq_of_testBit_eq
    intro i
    have := key i
    simp only [Nat.testBit_and, Nat.testBit_or, Nat.zero_testBit] at this ⊢
    cases ha : a.testBit i <;> cases hm : m.testBit i <;> simp_all
  · apply Nat.eq_of_testBit_eq
    intro i
    have := key i
    simp only [Nat.testBit_and, Nat.testBit_or, Nat.zero_testBit] at this ⊢
    cases hb : b.testBit i <;> cases hm : m.testBit i <;> simp_all

theorem or_and_ne_zero_of_left {a b m : Nat} (h : a &&& m ≠ 0) : (a ||| b) &&& m ≠ 0 :=
  fun h0 => h (and_eq_zero_of_or_and_eq_zero h0).1

theorem or_and_ne_zero_of_right {a b m : Nat} (h : b &&& m ≠ 0) : (a ||| b) &&& m ≠ 0 :=
  fun h0 => h (and_eq_zero_of_or_and_eq_zero h0).2

theorem or_ne_zero_of_right {a b : Nat} (h : b ≠ 0) : a ||| b ≠ 0 := by
  intro h0
  apply h
  apply Nat.eq_of_testBit_eq
  intro i
  have : (a ||| b).testBit i = false := by rw [h0]; simp
  simp only [Nat.testBit_or, Nat.zero_testBit] at this ⊢
  cases hb : b.testBit i <;> simp_all

theorem or_ne_zero_of_left {a b : Nat} (h : a ≠ 0) : a ||| b ≠ 0 := by
  rw [Nat.lor_comm]
  exact or_ne_zero_of_right h

theorem or_and_eq_of_and_eq_zero {a b m : Nat} (h : b &&& m = 0) : (a ||| b) &&& m = a &&& m := by
  apply Nat.eq_of_testBit_eq
  intro i
  have : (b &&& m).testBit i = false := by rw [h]; simp
  simp only [Nat.testBit_and, Nat.testBit_or] at this ⊢
  cases ha : a.testBit i <;> cases hb : b.testBit i <;> cases hm : m.testBit i <;> simp_all

theorem and_two_pow_ne_zero (T k : Nat) : T &&& 2 ^ k ≠ 0 ↔ T.testBit k = true := by
  constructor
  · intro h
    by_contra hb
    apply h
    apply Nat.eq_of_testBit_eq
    intro i
    simp only [Nat.testBit_and, Nat.testBit_two_pow, Nat.zero_testBit]
    by_cases hk : k = i
    · subst hk; simp [hb]
    · simp [hk]
  · intro h h0
    have : (T &&& 2 ^ k).testBit k = false := by rw [h0]; simp
    simp [Nat.testBit_and, Nat.testBit_two_pow, h] at this

theorem valmask_eq : _VALMASK ||| VAL_STYLE =
    2 ^ 1 ||| 2 ^ 7 ||| 2 ^ 9 ||| 2 ^ 11 ||| 2 ^ 18 ||| 2 ^ 20 ||| 2 ^ 22 ||| 2 ^ 24 ||| 2 ^ 26 := by
  decide

theorem shifted_key_type_testBit (T i : Nat) :
    (shifted_key_type T).testBit i =
      (decide (i = 0) || (T.testBit (i + 1) &&
        (decide (i = 0) || decide (i = 6) || decide (i = 8) || decide (i = 10) || decide (i = 17) ||
         decide (i = 19) || decide (i = 21) || decide (i = 23) || decide (i = 25)))) := by
  have hK : KEY = 2 ^ 0 := by decide
  unfold shifted_key_type andNot
  rw [valmask_eq, hK]
  simp only [Nat.testBit_or, Nat.testBit_xor, Nat.testBit_and, Nat.testBit_shiftRight,
    Nat.testBit_two_pow]
  by_cases h0 : i = 0
  · subst h0; simp
  by_cases h6 : i = 6
  · subst h6; simp
  by_cases h8 : i = 8
  · subst h8; simp
  by_cases h10 : i = 10
  · subst h10; simp
  by_cases h17 : i = 17
  · subst h17; simp
  by_cases h19 : i = 19
  · subst h19; simp
  by_cases h21 : i = 21
  · subst h21; simp
  by_cases h23 : i = 23
  · subst h23; simp
  by_cases h25 : i = 25
  · subst h25; simp
  have e1 : ¬ 1 = 1 + i := by omega
  have e7 : ¬ 7 = 1 + i := by omega
  have e9 : ¬ 9 = 1 + i := by omega
  have e11 : ¬ 11 = 1 + i := by omega
  have e18 : ¬ 18 = 1 + i := by omega
  have e20 : ¬ 20 = 1 + i := by omega
  have e22 : ¬ 22 = 1 + i := by omega
  have e24 : ¬ 24 = 1 + i := by omega
  have e26 : ¬ 26 = 1 + i := by omega
  have z0 : ¬ 0 = i := by omega
  simp [h0, h6, h8, h10, h17, h19, h21, h23, h25, e1, e7, e9, e11, e18, e20, e22, e24, e26, z0]


theorem testBit_ite_or_two_pow (c : Prop) [Decidable c] (a k i : Nat) :
    (if c then a ||| 2 ^ k else a).testBit i = (a.testBit i || (decide c && decide (k = i))) := by
  by_cases hc : c
  · simp [hc, Nat.testBit_or, Nat.testBit_two_pow]
  · simp [hc]

theorem converted_key_type_testBit (T i : Nat) :
    (converted_key_type T).testBit i =
      (decide (i = 0) || (T.testBit (i + 1) &&
        (decide (i = 0) || decide (i = 6) || decide (i = 8) || decide (i = 10) || decide (i = 17) ||
         decide (i = 19) || decide (i = 21) || decide (i = 23) || decide (i = 25)))) := by
  have c0 : KEY = 2 ^ 0 := by decide
  have c1 : VAL = 2 ^ 1 := by decide
  have c6 : KEYREF = 2 ^ 6 := by decide
  have c7 : VALREF = 2 ^ 7 := by decide
  have c8 : KEYANCH = 2 ^ 8 := by decide
  have c9 : VALANCH = 2 ^ 9 := by decide
  have c10 : KEYTAG = 2 ^ 10 := by decide
  have c11 : VALTAG = 2 ^ 11 := by decide
  have c17 : KEY_LITERAL = 2 ^ 17 := by decide
  have c18 : VAL_LITERAL = 2 ^ 18 := by decide
  have c19 : KEY_FOLDED = 2 ^ 19 := by decide
  have c20 : VAL_FOLDED = 2 ^ 20 := by decide
  have c21 : KEY_SQUO = 2 ^ 21 := by decide
  have c22 : VAL_SQUO = 2 ^ 22 := by decide
  have c23 : KEY_DQUO = 2 ^ 23 := by decide
  have c24 : VAL_DQUO = 2 ^ 24 := by decide
  have c25 : KEY_PLAIN = 2 ^ 25 := by decide
  have c26 : VAL_PLAIN = 2 ^ 26 := by decide
  simp only [converted_key_type, value_key_flags, List.foldl]
  rw [c0, c1, c6, c7, c8, c9, c10, c11, c17, c18, c19, c20, c21, c22, c23, c24, c25, c26]
  simp only [and_two_pow_ne_zero, testBit_ite_or_two_pow, Nat.testBit_two_pow]
  by_cases h0 : i = 0
  · subst h0; simp
  by_cases h6 : i = 6
  · subst h6; simp
  by_cases h8 : i = 8
  · subst h8; simp
  by_cases h10 : i = 10
  · subst h10; simp
  by_cases h17 : i = 17
  · subst h17; simp
  by_cases h19 : i = 19
  · subst h19; simp
  by_cases h21 : i = 21
  · subst h21; simp
  by_cases h23 : i = 23
  · subst h23; simp
  by_cases h25 : i = 25
  · subst h25; simp
  have z0 : ¬ 0 = i := by omega
  have z6 : ¬ 6 = i := by omega
  have z8 : ¬ 8 = i := by omega
  have z10 : ¬ 10 = i := by omega
  have z17 : ¬ 17 = i := by omega
  have z19 : ¬ 19 = i := by omega
  have z21 : ¬ 21 = i := by omega
  have z23 : ¬ 23 = i := by omega
  have z25 : ¬ 25 = i := by omega
  simp [h0, h6, h8, h10, h17, h19, h21, h23, h25, z0, z6, z8, z10, z17, z19, z21, z23, z25]

/-- The type the code computes is the specified key-side type. -/
theorem shifted_key_type_eq_converted (T : Nat) : shifted_key_type T = converted_key_type T := by
  apply Nat.eq_of_testBit_eq
  intro i
  rw [shifted_key_type_testBit, converted_key_type_testBit]

/-- The computed key-side type has no value-side bit and no container bit. -/
theorem shifted_key_type_clean (T : Nat) :
    shifted_key_type T &&& (_VALMASK ||| VAL_STYLE ||| MAP ||| SEQ) = 0 := by
  have hM : _VALMASK ||| VAL_STYLE ||| MAP ||| SEQ =
      2 ^ 1 ||| 2 ^ 7 ||| 2 ^ 9 ||| 2 ^ 11 ||| 2 ^ 18 ||| 2 ^ 20 ||| 2 ^ 22 ||| 2 ^ 24 ||| 2 ^ 26
        ||| 2 ^ 2 ||| 2 ^ 3 := by decide
  apply Nat.eq_of_testBit_eq
  intro i
  rw [Nat.testBit_and, shifted_key_type_testBit, hM]
  simp only [Nat.testBit_or, Nat.testBit_two_pow, Nat.zero_testBit]
  by_cases h0 : i = 0
  · subst h0; simp
  by_cases h6 : i = 6
  · subst h6; simp
  by_cases h8 : i = 8
  · subst h8; simp
  by_cases h10 : i = 10
  · subst h10; simp
  by_cases h17 : i = 17
  · subst h17; simp
  by_cases h19 : i = 19
  · subst h19; simp
  by_cases h21 : i = 21
  · subst h21; simp
  by_cases h23 : i = 23
  · subst h23; simp
  by_cases h25 : i = 25
  · subst h25; simp
  simp [h0, h6, h8, h10, h17, h19, h21, h23, h25]

/-- Clearing the value-side bits clears the value-present bit. -/
theorem andNot_valmask_and_val (T : Nat) : andNot T (_VALMASK ||| VAL_STYLE) &&& VAL = 0 := by
  have c1 : VAL = 2 ^ 1 := by decide
  apply Nat.eq_of_testBit_eq
  intro i
  unfold andNot
  rw [valmask_eq, c1]
  simp only [Nat.testBit_or, Nat.testBit_xor, Nat.testBit_and, Nat.testBit_two_pow, Nat.zero_testBit]
  by_cases h1 : 1 = i
  · subst h1; simp
  · simp [h1]

/-! ### The handler primitives -/

namespace EventHandlerTree

theorem init_eq_start : EventHandlerTree.init = .ok start := by decide

theorem begin_map_val_flow_eq (h : EventHandlerTree) : h.begin_map_val_flow =
    if _has_any__ VAL h then .fail .check h else .ok (opened (MAP ||| FLOW_SL) h) := rfl
theorem begin_map_val_block_eq (h : EventHandlerTree) : h.begin_map_val_block =
    if _has_any__ VAL h then .fail .check h else .ok (opened (MAP ||| BLOCK) h) := rfl
theorem begin_seq_val_flow_eq (h : EventHandlerTree) : h.begin_seq_val_flow =
    if _has_any__ VAL h then .fail .check h else .ok (opened (SEQ ||| FLOW_SL) h) := rfl
theorem begin_seq_val_block_eq (h : EventHandlerTree) : h.begin_seq_val_block =
    if _has_any__ VAL h then .fail .check h else .ok (opened (SEQ ||| BLOCK) h) := rfl

/-- Every value-opening event is the check on the value-present bit followed by `opened`. -/
theorem step_opens_value (env : Env) (h : EventHandlerTree) (e : Event) (he : e.opens_value = true) :
    h.step env e =
      if h.m_tree.type h.m_curr.node_id &&& VAL ≠ 0 then .fail .check h
      else .ok (opened e.opening_bits h) := by
  cases e <;> simp [Event.opens_value] at he <;>
    simp [step, Event.opening_bits, begin_map_val_flow_eq, begin_map_val_block_eq,
      begin_seq_val_flow_eq, begin_seq_val_block_eq, _has_any__]

theorem opened_curr (bits : Nat) (h : EventHandlerTree) :
    (opened bits h).m_curr = { h.m_curr with level := h.m_curr.level + 1, node_id := h.m_tree.size } := by
  simp [opened, _push, _stack_push, _save_loc, _enable__, Tree.snd_append, Tree.size_modify]

theorem opened_lower (bits : Nat) (h : EventHandlerTree) :
    (opened bits h).m_lower = h.m_curr :: h.m_lower := rfl

theorem opened_size (bits : Nat) (h : EventHandlerTree) :
    (opened bits h).m_tree.size = h.m_tree.size + 1 := by
  simp [opened, _push, _stack_push, _save_loc, _enable__, Tree.size_append, Tree.size_modify]

theorem opened_type (bits : Nat) (h : EventHandlerTree) (j : Nat) :
    (opened bits h).m_tree.type j =
      if j = h.m_curr.node_id ∧ j < h.m_tree.size then h.m_tree.type j ||| bits else h.m_tree.type j := by
  simp only [opened, _push, _stack_push, _save_loc, _enable__, Tree.type_append]
  simp only [Tree.type, Tree.get_modify, Tree.size_modify]
  by_cases hj : j = h.m_curr.node_id
  · subst hj
    by_cases hlt : h.m_curr.node_id < h.m_tree.size
    · simp [hlt]
    · simp [hlt]
  · simp [hj]

/-- The links an `opened` reads are those of the tree before it. -/
theorem opened_last_child_aux (bits : Nat) (h : EventHandlerTree) (i : Nat) :
    (_save_loc (_enable__ bits h)).m_tree.last_child i = h.m_tree.last_child i := by
  simp only [_save_loc, _enable__, Tree.last_child, Tree.get_modify, Tree.size_modify]
  by_cases hi : i = h.m_curr.node_id ∧ h.m_curr.node_id < h.m_tree.size
  · simp [hi]
  · simp [hi]

/-- A value-opening event leaves alone every node other than the current node, its last
child and the new node. -/
theorem opened_get_other (bits : Nat) (h : EventHandlerTree) (j : Nat)
    (h1 : j ≠ h.m_curr.node_id) (h2 : j ≠ h.m_tree.size)
    (h3 : h.m_tree.last_child h.m_curr.node_id ≠ some j) :
    (opened bits h).m_tree.get j = h.m_tree.get j := by
  have haux := opened_last_child_aux bits h h.m_curr.node_id
  simp only [opened, _push, _stack_push]
  rw [Tree.get_append]
  have hc : (_save_loc (_enable__ bits h)).m_curr.node_id = h.m_curr.node_id := rfl
  have hs : (_save_loc (_enable__ bits h)).m_tree.size = h.m_tree.size := by
    simp [_save_loc, _enable__, Tree.size_modify]
  have hg : (_save_loc (_enable__ bits h)).m_tree.get j = h.m_tree.get j := by
    simp [_save_loc, _enable__, Tree.get_modify, h1]
  simp only [hc, hs, haux, hg, h1, h2, h3, false_and, if_false]

/-- The node a value-opening event appends has no children. -/
theorem opened_last_child_new (bits : Nat) (h : EventHandlerTree)
    (hlive : h.m_curr.node_id < h.m_tree.size) :
    (opened bits h).m_tree.last_child h.m_tree.size = none := by
  have haux := opened_last_child_aux bits h h.m_curr.node_id
  simp only [opened, _push, _stack_push, Tree.last_child] at haux ⊢
  rw [Tree.get_append]
  have hc : (_save_loc (_enable__ bits h)).m_curr.node_id = h.m_curr.node_id := rfl
  have hs : (_save_loc (_enable__ bits h)).m_tree.size = h.m_tree.size := by
    simp [_save_loc, _enable__, Tree.size_modify]
  have hne : ¬ h.m_tree.size = h.m_curr.node_id := by omega
  simp only [hc, hs, hne, false_and, if_false, if_true]
  split_ifs <;> rfl

theorem opened_parent_new (bits : Nat) (h : EventHandlerTree)
    (hlive : h.m_curr.node_id < h.m_tree.size) :
    (opened bits h).m_tree.parent h.m_tree.size = some h.m_curr.node_id := by
  simp only [opened, _push, _stack_push, Tree.parent]
  rw [Tree.get_append]
  have hc : (_save_loc (_enable__ bits h)).m_curr.node_id = h.m_curr.node_id := rfl
  have hs : (_save_loc (_enable__ bits h)).m_tree.size = h.m_tree.size := by
    simp [_save_loc, _enable__, Tree.size_modify]
  have hne : ¬ h.m_tree.size = h.m_curr.node_id := by omega
  simp only [hc, hs, hne, false_and, if_false, if_true]
  split_ifs <;> rfl

theorem opened_first_child_curr (bits : Nat) (h : EventHandlerTree)
    (hlive : h.m_curr.node_id < h.m_tree.size)
    (hleaf : h.m_tree.first_child h.m_curr.node_id = none) :
    (opened bits h).m_tree.first_child h.m_curr.node_id = some h.m_tree.size := by
  simp only [opened, _push, _stack_push, Tree.first_child] at hleaf ⊢
  rw [Tree.get_append]
  have hc : (_save_loc (_enable__ bits h)).m_curr.node_id = h.m_curr.node_id := rfl
  have hs : (_save_loc (_enable__ bits h)).m_tree.size = h.m_tree.size := by
    simp [_save_loc, _enable__, Tree.size_modify]
  have hne : ¬ h.m_curr.node_id = h.m_tree.size := by omega
  have hlt : h.m_curr.node_id < h.m_tree.size + 1 := by omega
  have hg : ((_save_loc (_enable__ bits h)).m_tree.get h.m_curr.node_id).m_first_child = none := by
    simp only [_save_loc, _enable__, Tree.get_modify, Tree.size_modify, hlive, and_self, if_true]
    exact hleaf
  simp only [hc, hs, hne, hlt, and_self, if_false, if_true]
  split_ifs with h1 h2 h3
  · simp only [hg] at h2; exact absurd h2 (by simp)
  · rfl
  · exact absurd h3 (by simp [hg])
  · rfl

/-- The end event matching a value-opening event is a `_pop`. -/
theorem step_closing (env : Env) (h : EventHandlerTree) (e : Event) :
    h.step env e.closing = h._pop := by
  cases e <;> rfl

/-- What `actually_val_is_first_key_of_new_map_flow` returns when its checks pass: the value
bits are cleared on the current node, a flow map is opened on it, and the new node receives
the shifted type and the captured value, tag and anchor as its key, key tag and key
anchor. -/
theorem actually_val_is_first_key_eq (h : EventHandlerTree) (p : ParserState)
    (rest : List ParserState)
    (hlive : h.m_curr.node_id < h.m_tree.size)
    (hpar : h.m_lower = p :: rest)
    (hseq : h.m_tree.is_seq p.node_id = true)
    (hcont : h.m_tree.is_container h.m_curr.node_id = false)
    (hkey : h.m_tree.has_key h.m_curr.node_id = false) :
    h.actually_val_is_first_key_of_new_map_flow = .ok
      { opened (MAP ||| FLOW_SL) (_disable__ (_VALMASK ||| VAL_STYLE) h) with
        m_tree := (opened (MAP ||| FLOW_SL) (_disable__ (_VALMASK ||| VAL_STYLE) h)).m_tree.modify
          (opened (MAP ||| FLOW_SL) (_disable__ (_VALMASK ||| VAL_STYLE) h)).m_curr.node_id
          (fun n => { n with m_type := shifted_key_type (h.m_tree.type h.m_curr.node_id),
                             m_key := (h.m_tree.get h.m_curr.node_id).m_val,
                             m_key_tag := (h.m_tree.get h.m_curr.node_id).m_val_tag,
                             m_key_anchor := (h.m_tree.get h.m_curr.node_id).m_val_anchor }) } := by
  have hchk : _has_any__ VAL (_disable__ (_VALMASK ||| VAL_STYLE) h) = false := by
    simp only [_has_any__, _disable__, Tree.type, Tree.get_modify, hlive, and_self, if_true]
    simp [andNot_valmask_and_val]
  have hpar2 : h.m_parent = some p := by simp [m_parent, hpar]
  unfold actually_val_is_first_key_of_new_map_flow
  simp only [hcont, hkey, hpar2, hseq, begin_map_val_flow_eq, hchk, Outcome.andThen]
  rfl

end EventHandlerTree

/-! ### Errors of the structural events -/

namespace EventHandlerTree

/-- C4 (container-as-key rejection): in every handler state each of `begin_map_key_flow`,
`begin_map_key_block`, `begin_seq_key_flow`, `begin_seq_key_block` and
`actually_val_is_first_key_of_new_map_block` raises the fatal error "ryml trees cannot
handle containers as keys", and the state in which the error is raised is the state the
call started from: neither the tree nor the level stack has changed. -/
theorem c4_container_as_key_rejected (env : Env) (h : EventHandlerTree) :
    h.step env .begin_map_key_flow = .fail (.err containers_as_keys) h ∧
    h.step env .begin_map_key_block = .fail (.err containers_as_keys) h ∧
    h.step env .begin_seq_key_flow = .fail (.err containers_as_keys) h ∧
    h.step env .begin_seq_key_block = .fail (.err containers_as_keys) h ∧
    h.step env .actually_val_is_first_key_of_new_map_block = .fail (.err containers_as_keys) h :=
  ⟨rfl, rfl, rfl, rfl, rfl⟩

/-- C5 (single-value guard for scalars): for each of the four value-opening events
(`begin_map_val_flow`, `begin_map_val_block`, `begin_seq_val_flow`, `begin_seq_val_block`),
when the current node has the value-present bit the event fails its check and the state at
the failure is the state the call started from (tree and level stack untouched); when the
bit is not set the event returns normally. -/
theorem c5_single_value_guard (env : Env) (h : EventHandlerTree) (e : Event)
    (he : e.opens_value = true) :
    (h.m_tree.type h.m_curr.node_id &&& VAL ≠ 0 → h.step env e = .fail .check h) ∧
    (h.m_tree.type h.m_curr.node_id &&& VAL = 0 → (h.step env e).isOk = true) := by
  rw [step_opens_value env h e he]
  constructor
  · intro hv; simp [hv]
  · intro hv; simp [hv, Outcome.isOk]

/-- Witness of C5: a root holding a plain scalar rejects `begin_map_val_flow` unchanged, and
the untyped root of the empty tree accepts `begin_seq_val_block`. -/
theorem c5_single_value_guard_witness :
    (on_scalar.m_tree.type on_scalar.m_curr.node_id &&& VAL ≠ 0 ∧
      on_scalar.step Env.plain .begin_map_val_flow = .fail .check on_scalar) ∧
    (start.m_tree.type start.m_curr.node_id &&& VAL = 0 ∧
      (start.step Env.plain .begin_seq_val_block).isOk = true) :=
  ⟨⟨by decide, (c5_single_value_guard Env.plain on_scalar .begin_map_val_flow rfl).1 (by decide)⟩,
   ⟨by decide, (c5_single_value_guard Env.plain start .begin_seq_val_block rfl).2 (by decide)⟩⟩

/-- C6, counterexample: after a reset onto the empty tree, `begin_map_val_flow` issued
twice in succession returns normally both times; the second call does not fail. -/
theorem c6_second_opening_succeeds_counterexample :
    ∃ h1 h2, start.step Env.plain .begin_map_val_flow = .ok h1 ∧
      h1.step Env.plain .begin_map_val_flow = .ok h2 :=
  ⟨_, _, rfl, rfl⟩

/-- C6, amended: when a value-opening event has returned normally from a state whose
current node is live, a value-opening event issued right after it returns normally too.
The first event left the handler on a freshly appended node without type, so the second
opens a nested container there: that node's type becomes exactly the requested container
and style bits, one frame and one node are added, the frames already on the stack stay as
they were, and every other node that existed keeps all its fields. -/
theorem c6_second_opening_nests (env : Env) (h h1 : EventHandlerTree) (e1 e2 : Event)
    (he1 : e1.opens_value = true) (he2 : e2.opens_value = true)
    (hlive : h.m_curr.node_id < h.m_tree.size)
    (h1ok : h.step env e1 = .ok h1) :
    ∃ h2, h1.step env e2 = .ok h2 ∧
      h1.m_curr.node_id = h.m_tree.size ∧
      h1.m_tree.type h1.m_curr.node_id = NOTYPE ∧
      h2.m_tree.type h1.m_curr.node_id = e2.opening_bits ∧
      h2.m_lower = h1.m_curr :: h1.m_lower ∧
      h2.m_tree.size = h1.m_tree.size + 1 ∧
      ∀ j, j < h1.m_tree.size → j ≠ h1.m_curr.node_id → h2.m_tree.get j = h1.m_tree.get j := by
  rw [step_opens_value env h e1 he1] at h1ok
  split_ifs at h1ok with hv
  simp only [Outcome.ok.injEq] at h1ok
  subst h1ok
  have hcur : (opened e1.opening_bits h).m_curr.node_id = h.m_tree.size := by
    rw [opened_curr]
  have hty : (opened e1.opening_bits h).m_tree.type h.m_tree.size = NOTYPE := by
    rw [opened_type]
    have : ¬ h.m_tree.size < h.m_tree.size := Nat.lt_irrefl _
    simp only [this, and_false, if_false]
    simp [Tree.type, Tree.get_of_size_le, NOTYPE]
  have hsz := opened_size e1.opening_bits h
  have hlast := opened_last_child_new e1.opening_bits h hlive
  have hz : NOTYPE &&& VAL = 0 := by decide
  refine ⟨opened e2.opening_bits (opened e1.opening_bits h), ?_, hcur, ?_, ?_, ?_, ?_, ?_⟩
  · rw [step_opens_value env _ e2 he2, hcur, hty]
    simp [hz]
  · rw [hcur, hty]
  · rw [opened_type, hcur, hsz, hty]
    simp [NOTYPE]
  · rw [opened_lower]
  · rw [opened_size]
  · intro j hj hne
    rw [hcur] at hne
    apply opened_get_other
    · rw [hcur]; exact hne
    · rw [hsz]; omega
    · rw [hcur, hlast]; simp

/-- Witness of C6 (amended): the two events of the counterexample, from the reset state. -/
theorem c6_second_opening_nests_witness :
    ∃ h2, (opened (MAP ||| FLOW_SL) start).step Env.plain .begin_seq_val_block = .ok h2 ∧
      (opened (MAP ||| FLOW_SL) start).m_curr.node_id = start.m_tree.size ∧
      (opened (MAP ||| FLOW_SL) start).m_tree.type (opened (MAP ||| FLOW_SL) start).m_curr.node_id = NOTYPE ∧
      h2.m_tree.type (opened (MAP ||| FLOW_SL) start).m_curr.node_id = SEQ ||| BLOCK ∧
      h2.m_lower = (opened (MAP ||| FLOW_SL) start).m_curr :: (opened (MAP ||| FLOW_SL) start).m_lower ∧
      h2.m_tree.size = (opened (MAP ||| FLOW_SL) start).m_tree.size + 1 ∧
      ∀ j, j < (opened (MAP ||| FLOW_SL) start).m_tree.size →
        j ≠ (opened (MAP ||| FLOW_SL) start).m_curr.node_id →
        h2.m_tree.get j = (opened (MAP ||| FLOW_SL) start).m_tree.get j :=
  c6_second_opening_nests Env.plain start (opened (MAP ||| FLOW_SL) start)
    .begin_map_val_flow .begin_seq_val_block rfl rfl (by decide) rfl

/-- C7, counterexample: after `begin_map_val_flow`, `end_map` on the empty tree the handler
is back on the root, which is a map; `begin_seq_val_flow` on it returns normally and the
root ends with both the map bit and the seq bit. -/
theorem c7_map_then_seq_counterexample :
    on_empty_map.m_curr.node_id = 0 ∧ on_empty_map.m_tree.type 0 &&& MAP ≠ 0 ∧
    ∃ h2, on_empty_map.step Env.plain .begin_seq_val_flow = .ok h2 ∧
      h2.m_tree.type 0 &&& MAP ≠ 0 ∧ h2.m_tree.type 0 &&& SEQ ≠ 0 :=
  ⟨by decide, by decide, _, rfl, by decide, by decide⟩

/-- C7, amended: on a live current node that is already a map or a sequence, a
value-opening event fails (structural error, state unchanged) exactly when the node has
the value-present bit. Without that bit the event returns normally, the requested
container and style bits are added to the type the node already had, and one node and one
frame are pushed; so a map that receives a sequence-opening event, or a sequence that
receives a map-opening event, ends with both the map bit and the seq bit. -/
theorem c7_container_reopened (env : Env) (h : EventHandlerTree) (e : Event)
    (he : e.opens_value = true)
    (hlive : h.m_curr.node_id < h.m_tree.size)
    (_hcont : h.m_tree.type h.m_curr.node_id &&& (MAP ||| SEQ) ≠ 0) :
    (h.m_tree.type h.m_curr.node_id &&& VAL ≠ 0 → h.step env e = .fail .check h) ∧
    (h.m_tree.type h.m_curr.node_id &&& VAL = 0 →
      ∃ h1, h.step env e = .ok h1 ∧
        h1.m_tree.type h.m_curr.node_id = h.m_tree.type h.m_curr.node_id ||| e.opening_bits ∧
        h1.m_tree.size = h.m_tree.size + 1 ∧
        h1.m_lower = h.m_curr :: h.m_lower ∧
        (h.m_tree.type h.m_curr.node_id &&& MAP ≠ 0 → e.opening_bits &&& SEQ ≠ 0 →
          h1.m_tree.type h.m_curr.node_id &&& MAP ≠ 0 ∧ h1.m_tree.type h.m_curr.node_id &&& SEQ ≠ 0) ∧
        (h.m_tree.type h.m_curr.node_id &&& SEQ ≠ 0 → e.opening_bits &&& MAP ≠ 0 →
          h1.m_tree.type h.m_curr.node_id &&& MAP ≠ 0 ∧ h1.m_tree.type h.m_curr.node_id &&& SEQ ≠ 0)) := by
  rw [step_opens_value env h e he]
  constructor
  · intro hv; simp [hv]
  · intro hv
    have hty : (opened e.opening_bits h).m_tree.type h.m_curr.node_id =
        h.m_tree.type h.m_curr.node_id ||| e.opening_bits := by
      rw [opened_type]; simp [hlive]
    refine ⟨opened e.opening_bits h, by simp [hv], hty, opened_size _ _, opened_lower _ _, ?_, ?_⟩
    · intro hm hs
      rw [hty]
      exact ⟨or_and_ne_zero_of_left hm, or_and_ne_zero_of_right hs⟩
    · intro hs hm
      rw [hty]
      exact ⟨or_and_ne_zero_of_right hm, or_and_ne_zero_of_left hs⟩

/-- Witness of C7 (amended): the root of the counterexample, a map without the
value-present bit, receiving `begin_seq_val_flow`. -/
theorem c7_container_reopened_witness :
    on_empty_map.m_curr.node_id < on_empty_map.m_tree.size ∧
    on_empty_map.m_tree.type on_empty_map.m_curr.node_id &&& (MAP ||| SEQ) ≠ 0 ∧
    on_empty_map.m_tree.type on_empty_map.m_curr.node_id &&& VAL = 0 ∧
    ∃ h1, on_empty_map.step Env.plain .begin_seq_val_flow = .ok h1 ∧
      h1.m_tree.type on_empty_map.m_curr.node_id =
        on_empty_map.m_tree.type on_empty_map.m_curr.node_id ||| (SEQ ||| FLOW_SL) ∧
      h1.m_tree.type on_empty_map.m_curr.node_id &&& MAP ≠ 0 ∧
      h1.m_tree.type on_empty_map.m_curr.node_id &&& SEQ ≠ 0 := by
  refine ⟨by decide, by decide, by decide, ?_⟩
  obtain ⟨h1, hs, hty, -, -, hboth, -⟩ :=
    (c7_container_reopened Env.plain on_empty_map .begin_seq_val_flow rfl (by decide) (by decide)).2
      (by decide)
  exact ⟨h1, hs, hty, hboth (by decide) (by decide)⟩

end EventHandlerTree

/-! ### Key conversion -/

namespace EventHandlerTree

/-- C3 (key conversion): in a state whose current node is live, is not a container, has no
key and no children, and whose parent frame is positioned on a sequence node (the node the
current node was appended under), `actually_val_is_first_key_of_new_map_flow` returns
normally; the current node is then the freshly appended node (identifier: the old size),
whose parent is the original node and which is the original node's first child. With `T`
the original node's type bits, the new node's type is exactly the key-present flag together
with the key flag of every value flag present in `T` (`converted_key_type`), it has no
value-side bit and no container bit, and its key, key tag and key anchor are the original
node's value, value tag and value anchor. -/
theorem c3_key_conversion (h : EventHandlerTree) (p : ParserState) (rest : List ParserState)
    (hlive : h.m_curr.node_id < h.m_tree.size)
    (hpar : h.m_lower = p :: rest)
    (hseq : h.m_tree.is_seq p.node_id = true)
    (hcont : h.m_tree.is_container h.m_curr.node_id = false)
    (hkey : h.m_tree.has_key h.m_curr.node_id = false)
    (hleaf : h.m_tree.first_child h.m_curr.node_id = none) :
    ∃ h1, h.actually_val_is_first_key_of_new_map_flow = .ok h1 ∧
      h1.m_curr.node_id = h.m_tree.size ∧
      h1.m_tree.size = h.m_tree.size + 1 ∧
      h1.m_tree.parent h.m_tree.size = some h.m_curr.node_id ∧
      h1.m_tree.first_child h.m_curr.node_id = some h.m_tree.size ∧
      h1.m_tree.type h.m_tree.size = converted_key_type (h.m_tree.type h.m_curr.node_id) ∧
      h1.m_tree.type h.m_tree.size &&& (_VALMASK ||| VAL_STYLE ||| MAP ||| SEQ) = 0 ∧
      (h1.m_tree.get h.m_tree.size).m_key = (h.m_tree.get h.m_curr.node_id).m_val ∧
      (h1.m_tree.get h.m_tree.size).m_key_tag = (h.m_tree.get h.m_curr.node_id).m_val_tag ∧
      (h1.m_tree.get h.m_tree.size).m_key_anchor = (h.m_tree.get h.m_curr.node_id).m_val_anchor := by
  have hstep := actually_val_is_first_key_eq h p rest hlive hpar hseq hcont hkey
  have hne : ¬ h.m_tree.size = h.m_curr.node_id := by omega
  have hdsz : (_disable__ (_VALMASK ||| VAL_STYLE) h).m_tree.size = h.m_tree.size := by
    simp [_disable__, Tree.size_modify]
  have hdc : (_disable__ (_VALMASK ||| VAL_STYLE) h).m_curr = h.m_curr := rfl
  have hocur := opened_curr (MAP ||| FLOW_SL) (_disable__ (_VALMASK ||| VAL_STYLE) h)
  have hosz := opened_size (MAP ||| FLOW_SL) (_disable__ (_VALMASK ||| VAL_STYLE) h)
  rw [hdsz] at hosz
  rw [hdsz, hdc] at hocur
  have hlive2 : (_disable__ (_VALMASK ||| VAL_STYLE) h).m_curr.node_id <
      (_disable__ (_VALMASK ||| VAL_STYLE) h).m_tree.size := by rw [hdsz]; exact hlive
  have hdfc : (_disable__ (_VALMASK ||| VAL_STYLE) h).m_tree.first_child h.m_curr.node_id = none := by
    simp only [_disable__, Tree.first_child, Tree.get_modify, hlive, and_self, if_true]
    exact hleaf
  have hnewpar := opened_parent_new (MAP ||| FLOW_SL) _ hlive2
  have hfirst := opened_first_child_curr (MAP ||| FLOW_SL) _ hlive2 hdfc
  rw [hdsz] at hnewpar hfirst
  rw [hdc] at hnewpar hfirst
  have hget : ∀ f : NodeData → NodeData,
      ((opened (MAP ||| FLOW_SL) (_disable__ (_VALMASK ||| VAL_STYLE) h)).m_tree.modify
        (opened (MAP ||| FLOW_SL) (_disable__ (_VALMASK ||| VAL_STYLE) h)).m_curr.node_id f).get
          h.m_tree.size =
        f ((opened (MAP ||| FLOW_SL) (_disable__ (_VALMASK ||| VAL_STYLE) h)).m_tree.get h.m_tree.size) := by
    intro f
    rw [Tree.get_modify, hocur, hosz]
    simp
  refine ⟨_, hstep, ?_, ?_, ?_, ?_, ?_, ?_, ?_, ?_, ?_⟩
  · exact congrArg ParserState.node_id hocur
  · simp only [Tree.size_modify]; exact hosz
  · simp only [Tree.parent, hget]
    exact hnewpar
  · have hne2 : ¬ h.m_curr.node_id = h.m_tree.size := by omega
    simp only [Tree.first_child, Tree.get_modify, hocur, hne2, false_and, if_false]
    exact hfirst
  · simp only [Tree.type, hget]
    exact shifted_key_type_eq_converted _
  · simp only [Tree.type, hget]
    exact shifted_key_type_clean _
  · simp only [hget]
  · simp only [hget]
  · simp only [hget]

/-- Witness of C3: a sequence value with type bits value-present, plain style and
tag-present becomes a key with key-present, key-plain style and key-tag-present, the tag
text unchanged. -/
theorem c3_key_conversion_witness :
    on_tagged_seq_value.m_tree.type on_tagged_seq_value.m_curr.node_id = VAL ||| VAL_PLAIN ||| VALTAG ∧
    ∃ h1, on_tagged_seq_value.actually_val_is_first_key_of_new_map_flow = .ok h1 ∧
      h1.m_curr.node_id = 2 ∧
      h1.m_tree.first_child 1 = some 2 ∧
      h1.m_tree.type 2 = KEY ||| KEY_PLAIN ||| KEYTAG ∧
      (h1.m_tree.get 2).m_key = { str := 100, len := 1 } ∧
      (h1.m_tree.get 2).m_key_tag = { str := 200, len := 5 } := by
  refine ⟨by decide, ?_⟩
  obtain ⟨h1, hs, hc, -, -, hf, hty, -, hk, ht, -⟩ :=
    c3_key_conversion on_tagged_seq_value root_frame [] (by decide) (by decide) (by decide)
      (by decide) (by decide) (by decide)
  exact ⟨h1, hs, hc, hf, hty, hk, ht⟩

end EventHandlerTree

/-! ### Speculative cleanup -/

namespace EventHandlerTree

end EventHandlerTree

/-! ### The flow-sequence scenario -/

namespace EventHandlerTree

theorem flow_seq_step1 : begin_seq_val_flow start = .ok in_flow_seq := by decide

theorem flow_seq_step2 (x : csubstr) : set_val_scalar_plain x in_flow_seq = .ok (in_flow_seq_val x) := by
  simp [set_val_scalar_plain, in_flow_seq, in_flow_seq_val, set_val, _enable__, Tree.modify, Tree.get]

theorem flow_seq_step3 (x : csubstr) :
    actually_val_is_first_key_of_new_map_flow (in_flow_seq_val x) = .ok (in_flow_seq_map x) := by
  have h1 : (in_flow_seq_val x).m_tree.is_container (in_flow_seq_val x).m_curr.node_id = false := by
    simp [in_flow_seq_val, in_flow_seq, Tree.is_container, Tree.type, Tree.get]; decide
  have h2 : (in_flow_seq_val x).m_tree.has_key (in_flow_seq_val x).m_curr.node_id = false := by
    simp [in_flow_seq_val, in_flow_seq, Tree.has_key, Tree.type, Tree.get]; decide
  have h3 : (in_flow_seq_val x).m_tree.is_seq root_frame.node_id = true := by
    simp [in_flow_seq_val, in_flow_seq, Tree.is_seq, Tree.type, Tree.get, root_frame]; decide
  rw [actually_val_is_first_key_eq (in_flow_seq_val x) root_frame [] (show 1 < 2 by decide) rfl h3 h1 h2]
  simp [in_flow_seq_val, in_flow_seq, in_flow_seq_map, flow_seq_map_tree, opened, _push, _stack_push,
    _save_loc, _enable__, _disable__, Tree.modify, Tree.get,
    Tree._append_child__unprotected, Tree.modifyOpt, Tree.last_child, Tree.size, Tree.type, root_frame]

theorem flow_seq_step4 (x y : csubstr) :
    set_val_scalar_plain y (in_flow_seq_map x) =
      .ok { in_flow_seq_map x with m_tree := flow_seq_map_tree x y flow_seq_pair_type } := by
  simp [set_val_scalar_plain, in_flow_seq_map, flow_seq_map_tree, flow_seq_pair_type, set_val, _enable__,
    Tree.modify, Tree.get]

theorem flow_seq_pair_type_ne : flow_seq_pair_type ≠ NOTYPE :=
  or_ne_zero_of_right (by decide)

/-- A `_pop` on the tree of the scenario, whose tail node is typed and has a parent. -/
theorem flow_seq_pop (x y : csubstr) (ty : Nat) (hty : ty ≠ NOTYPE) (c p : ParserState)
    (rest : List ParserState) :
    _pop { m_curr := c, m_lower := p :: rest, m_tree := flow_seq_map_tree x y ty } =
      .ok { m_curr := p, m_lower := rest, m_tree := flow_seq_map_tree x y ty } := by
  have h1 : (flow_seq_map_tree x y ty).type 2 ≠ NOTYPE := hty
  have h2 : (flow_seq_map_tree x y ty).has_parent 2 = true := rfl
  have h3 : (flow_seq_map_tree x y ty).size = 3 := rfl
  simp only [_pop, _remove_speculative_with_parent, h3]
  simp [h1, h2, Outcome.andThen, _stack_pop]

theorem run_cons_ok (env : Env) (h h1 : EventHandlerTree) (e : Event) (es : List Event)
    (hs : h.step env e = .ok h1) : h.run env (e :: es) = h1.run env es := by
  simp only [run, hs, Outcome.andThen]

theorem flow_seq_run1 (env : Env) (x y : csubstr) :
    run env start [.begin_seq_val_flow, .set_val_scalar_plain x,
      .actually_val_is_first_key_of_new_map_flow, .set_val_scalar_plain y, .end_map, .end_seq] =
    run env in_flow_seq [.set_val_scalar_plain x,
      .actually_val_is_first_key_of_new_map_flow, .set_val_scalar_plain y, .end_map, .end_seq] :=
  run_cons_ok env _ _ _ _ flow_seq_step1

theorem flow_seq_run2 (env : Env) (x y : csubstr) :
    run env in_flow_seq [.set_val_scalar_plain x,
      .actually_val_is_first_key_of_new_map_flow, .set_val_scalar_plain y, .end_map, .end_seq] =
    run env (in_flow_seq_val x) [
      .actually_val_is_first_key_of_new_map_flow, .set_val_scalar_plain y, .end_map, .end_seq] :=
  run_cons_ok env _ _ _ _ (flow_seq_step2 x)

theorem flow_seq_run3 (env : Env) (x y : csubstr) :
    run env (in_flow_seq_val x) [
      .actually_val_is_first_key_of_new_map_flow, .set_val_scalar_plain y, .end_map, .end_seq] =
    run env (in_flow_seq_map x) [.set_val_scalar_plain y, .end_map, .end_seq] :=
  run_cons_ok env _ _ _ _ (flow_seq_step3 x)

theorem flow_seq_run4 (env : Env) (x y : csubstr) :
    run env (in_flow_seq_map x) [.set_val_scalar_plain y, .end_map, .end_seq] =
    run env { in_flow_seq_map x with m_tree := flow_seq_map_tree x y flow_seq_pair_type } [.end_map, .end_seq] :=
  run_cons_ok env _ _ _ _ (flow_seq_step4 x y)

theorem flow_seq_run5 (env : Env) (x y : csubstr) :
    run env { in_flow_seq_map x with m_tree := flow_seq_map_tree x y flow_seq_pair_type } [.end_map, .end_seq] =
    run env { m_curr := { flags := RUNK ||| RTOP, level := 1, node_id := 1 }, m_lower := [root_frame], m_tree := flow_seq_map_tree x y flow_seq_pair_type } [.end_seq] :=
  run_cons_ok env _ _ _ _ (flow_seq_pop x y _ flow_seq_pair_type_ne _ _ _)

theorem flow_seq_run6 (env : Env) (x y : csubstr) :
    run env { m_curr := { flags := RUNK ||| RTOP, level := 1, node_id := 1 }, m_lower := [root_frame], m_tree := flow_seq_map_tree x y flow_seq_pair_type } [.end_seq] =
    run env (flow_seq_done x y) [] :=
  run_cons_ok env _ _ _ _ (flow_seq_pop x y _ flow_seq_pair_type_ne _ _ _)

/-- The whole flow-sequence scenario, event by event. -/
theorem flow_seq_run (env : Env) (x y : csubstr) :
    run env start [.begin_seq_val_flow, .set_val_scalar_plain x,
      .actually_val_is_first_key_of_new_map_flow, .set_val_scalar_plain y, .end_map, .end_seq] =
      .ok (flow_seq_done x y) :=
  (flow_seq_run1 env x y).trans <| (flow_seq_run2 env x y).trans <| (flow_seq_run3 env x y).trans <|
    (flow_seq_run4 env x y).trans <| (flow_seq_run5 env x y).trans <| (flow_seq_run6 env x y).trans rfl

/-- C2 (flow sequence holding one map): the reset onto the empty tree returns the state
`start`, and from it, for all views `x` and `y`,
the events `begin_seq_val_flow`, `set_val_scalar_plain x`,
`actually_val_is_first_key_of_new_map_flow`, `set_val_scalar_plain y`, `end_map`, `end_seq`
return normally and leave a tree of three nodes: the root is a sequence whose only child is
node 1, node 1 is a map whose only child is node 2, and node 2 has a key, which is `x`, and
a value, which is `y`, and no children. No node has type NOTYPE, and the level stack is
back to the single root frame. -/
theorem c2_flow_seq_of_map (env : Env) (x y : csubstr) :
    EventHandlerTree.reset {} Tree.empty 0 = .ok start ∧
    ∃ h, run env start [.begin_seq_val_flow, .set_val_scalar_plain x,
        .actually_val_is_first_key_of_new_map_flow, .set_val_scalar_plain y, .end_map, .end_seq] = .ok h ∧
      h.m_tree.size = 3 ∧
      h.m_tree.is_seq 0 = true ∧ h.m_tree.children 0 = [1] ∧
      h.m_tree.is_map 1 = true ∧ h.m_tree.children 1 = [2] ∧
      h.m_tree.has_key 2 = true ∧ (h.m_tree.get 2).m_key = x ∧
      h.m_tree.type 2 &&& VAL ≠ 0 ∧ (h.m_tree.get 2).m_val = y ∧
      h.m_tree.children 2 = [] ∧
      (∀ j, j < h.m_tree.size → h.m_tree.type j ≠ NOTYPE) ∧
      h.m_curr = root_frame ∧ h.m_lower = [] := by
  have t0 : ∀ v ty, (flow_seq_map_tree x v ty).type 0 = NOTYPE ||| (SEQ ||| FLOW_SL) := fun _ _ => rfl
  have t1 : ∀ v ty, (flow_seq_map_tree x v ty).type 1 =
      andNot (NOTYPE ||| (VAL ||| VAL_PLAIN)) (_VALMASK ||| VAL_STYLE) ||| (MAP ||| FLOW_SL) := fun _ _ => rfl
  have t2 : ∀ v ty, (flow_seq_map_tree x v ty).type 2 = ty := fun _ _ => rfl
  refine ⟨init_eq_start, flow_seq_done x y, flow_seq_run env x y, rfl, ?_, rfl, ?_, rfl, ?_, rfl, ?_, rfl, rfl, ?_, rfl, rfl⟩
  · simp only [Tree.is_seq, flow_seq_done, t0]; decide
  · simp only [Tree.is_map, flow_seq_done, t1]; decide
  · simp only [Tree.has_key, flow_seq_done, t2]; decide
  · simp only [flow_seq_done, t2]; decide
  · intro j hj
    have hj3 : j < 3 := hj
    interval_cases j
    · simp only [flow_seq_done, t0]; decide
    · simp only [flow_seq_done, t1]; decide
    · simp only [flow_seq_done, t2]; decide

end EventHandlerTree

/-! ### The block-map scenario -/

namespace EventHandlerTree

theorem building_init : Building [] (opened (MAP ||| BLOCK) start) where
  size := rfl
  curr := rfl
  lower := rfl
  root := rfl
  done := by intro i p hp; simp at hp
  fresh := rfl

/-- The two scalar setters on a fresh current node. -/
theorem building_set (ps : List (csubstr × csubstr)) (h : EventHandlerTree) (k v : csubstr)
    (hb : Building ps h) :
    Filled (ps ++ [(k, v)]) { root_frame with level := 1, node_id := ps.length + 1 } [root_frame]
      (_enable__ (VAL ||| VAL_PLAIN) (set_val (_enable__ (KEY ||| KEY_PLAIN) (set_key h k)) v)) := by
  have hc : h.m_curr.node_id = ps.length + 1 := by rw [hb.curr]
  have hlt : ps.length + 1 < h.m_tree.size := by rw [hb.size]; omega
  have hget : ∀ j, (_enable__ (VAL ||| VAL_PLAIN) (set_val (_enable__ (KEY ||| KEY_PLAIN)
      (set_key h k)) v)).m_tree.get j =
      if j = ps.length + 1 then
        { h.m_tree.get (ps.length + 1) with
          m_type := (h.m_tree.get (ps.length + 1)).m_type ||| (KEY ||| KEY_PLAIN) ||| (VAL ||| VAL_PLAIN),
          m_key := k, m_val := v }
      else h.m_tree.get j := by
    intro j
    simp only [_enable__, set_val, set_key, Tree.get_modify, Tree.size_modify, hc, hlt, and_true]
    by_cases hj : j = ps.length + 1
    · simp [hj]
    · simp [hj]
  constructor
  · simp only [_enable__, set_val, set_key, Tree.size_modify, hb.size, List.length_append,
      List.length_singleton]
  · exact hb.curr
  · exact hb.lower
  · rw [hget]
    simp only [List.length_append, List.length_singleton]
    have : ¬ 0 = ps.length + 1 := by omega
    simp only [this, if_false]
    exact hb.root
  · intro i p hp
    rw [hget]
    simp only [List.length_append, List.length_singleton]
    by_cases hi : i < ps.length
    · have h1 : ¬ i + 1 = ps.length + 1 := by omega
      rw [List.getElem?_append_left hi] at hp
      simp only [h1, if_false]
      exact hb.done i p hp
    · rw [List.getElem?_append_right (by omega)] at hp
      have hi2 : i = ps.length := by
        by_contra hne
        have : i - ps.length ≠ 0 := by omega
        obtain ⟨m, hm⟩ := Nat.exists_eq_succ_of_ne_zero this
        rw [hm] at hp
        simp at hp
      subst hi2
      simp only [Nat.sub_self, List.getElem?_cons_zero, Option.some.injEq] at hp
      subst hp
      simp only [if_true, hb.fresh, pair_node]
      by_cases h0 : ps.length = 0
      · simp [h0]
      · simp [h0]

/-- Source `add_sibling` once the last pair has been set. -/
theorem filled_sibling (qs : List (csubstr × csubstr)) (h : EventHandlerTree) (hne : qs ≠ [])
    (hf : Filled qs { root_frame with level := 1, node_id := qs.length } [root_frame] h) :
    ∃ h1, h.add_sibling = .ok h1 ∧ Building qs h1 := by
  have hlen : 0 < qs.length := List.length_pos.mpr hne
  have hpar : h.m_parent = some root_frame := by simp [m_parent, hf.lower]
  have hch : h.m_tree.has_children root_frame.node_id = true := by
    simp [Tree.has_children, Tree.first_child, root_frame, hf.root, block_map_root]
  have hstep : h.add_sibling = .ok (_set_state_curr
      { h with m_tree := (h.m_tree._append_child__unprotected 0).1 }
      (h.m_tree._append_child__unprotected 0).2) := by
    unfold add_sibling
    simp only [hpar, hch]
    rfl
  have hlast : h.m_tree.last_child 0 = some qs.length := by
    simp [Tree.last_child, hf.root, block_map_root]
  have hget : ∀ j, (h.m_tree._append_child__unprotected 0).1.get j =
      if j = 0 then block_map_root (qs.length + 1)
      else if j = qs.length + 1 then { m_parent := some 0, m_prev_sibling := some qs.length }
      else if j = qs.length then { h.m_tree.get j with m_next_sibling := some (qs.length + 1) }
      else h.m_tree.get j := by
    intro j
    rw [Tree.get_append]
    simp only [hlast, hf.size, Option.some.injEq]
    by_cases h0 : j = 0
    · subst h0
      have e1 : ¬ 0 = qs.length + 1 := by omega
      have e2 : ¬ qs.length = 0 := by omega
      simp [e1, e2, hf.root, block_map_root]
    · by_cases h1 : j = qs.length + 1
      · subst h1
        simp
      · by_cases h2 : j = qs.length
        · subst h2
          have e4 : qs.length < qs.length + 1 + 1 := by omega
          simp [h0, e4]
        · have e3 : ¬ qs.length = j := fun e => h2 e.symm
          simp [h0, h1, h2, e3]
  refine ⟨_, hstep, ?_⟩
  constructor
  · simp only [_set_state_curr, Tree.size_append, hf.size]
  · simp only [_set_state_curr, Tree.snd_append, hf.size, hf.curr]
  · exact hf.lower
  · simp only [_set_state_curr, hget, if_true]
  · intro i p hp
    have hi : i < qs.length := by
      by_contra hge
      rw [List.getElem?_eq_none (by omega)] at hp
      simp at hp
    have e0 : ¬ i + 1 = 0 := by omega
    have e1 : ¬ i + 1 = qs.length + 1 := by omega
    simp only [_set_state_curr, hget, e0, e1, if_false]
    by_cases h2 : i + 1 = qs.length
    · simp only [h2, if_true]
      rw [← h2, hf.done i p hp]
      simp [pair_node, h2]
    · simp only [h2, if_false]
      rw [hf.done i p hp]
      simp [h2]
  · have e0 : ¬ qs.length + 1 = 0 := by omega
    have e1 : ¬ qs.length = 0 := by omega
    simp only [_set_state_curr, hget, e0, e1, if_false, if_true]

/-- The type of a node holding a plain key and a plain value is not `NOTYPE`. -/
theorem pair_type_ne : NOTYPE ||| (KEY ||| KEY_PLAIN) ||| (VAL ||| VAL_PLAIN) ≠ NOTYPE :=
  or_ne_zero_of_right (by decide)

/-- Source `end_map` once the last pair has been set: nothing is removed, one frame is popped. -/
theorem filled_end (qs : List (csubstr × csubstr)) (h : EventHandlerTree) (hne : qs ≠ [])
    (hf : Filled qs { root_frame with level := 1, node_id := qs.length } [root_frame] h) :
    ∃ h1, h._pop = .ok h1 ∧ Filled qs root_frame [] h1 := by
  have hlen : 0 < qs.length := List.length_pos.mpr hne
  obtain ⟨p, hp⟩ : ∃ p, qs[qs.length - 1]? = some p := by
    rw [List.getElem?_eq_getElem (by omega)]
    exact ⟨_, rfl⟩
  have htail := hf.done (qs.length - 1) p hp
  have he : qs.length - 1 + 1 = qs.length := by omega
  rw [he] at htail
  have hsz0 : ¬ h.m_tree.size = 0 := by rw [hf.size]; omega
  have hsz1 : h.m_tree.size - 1 = qs.length := by rw [hf.size]; omega
  have hpar : h.m_tree.has_parent qs.length = true := by
    simp [Tree.has_parent, Tree.parent, htail, pair_node]
  have hty : h.m_tree.type qs.length ≠ NOTYPE := by
    simp only [Tree.type, htail, pair_node]
    exact pair_type_ne
  have hrem : h._remove_speculative_with_parent = .ok h := by
    unfold _remove_speculative_with_parent
    simp only [hsz0, if_false, hsz1, hpar, hty]
    rfl
  have hpop : h._pop = .ok { h with m_curr := root_frame, m_lower := [] } := by
    unfold _pop
    rw [hrem]
    simp only [Outcome.andThen, _stack_pop, hf.lower]
  exact ⟨_, hpop, ⟨hf.size, rfl, rfl, hf.root, hf.done⟩⟩

theorem run_set_pair (env : Env) (h : EventHandlerTree) (k v : csubstr) (es : List Event) :
    h.run env (.set_key_scalar_plain k :: .set_val_scalar_plain v :: es) =
      (_enable__ (VAL ||| VAL_PLAIN) (set_val (_enable__ (KEY ||| KEY_PLAIN) (set_key h k)) v)).run env es :=
  rfl

/-- The scalar events of the remaining pairs and the closing `end_map`, from a state in
which the earlier pairs are committed and the handler is on a fresh node. -/
theorem block_map_run_rest (env : Env) (rest : List (csubstr × csubstr)) :
    ∀ (ps : List (csubstr × csubstr)) (h : EventHandlerTree), rest ≠ [] → Building ps h →
      ∃ h1, h.run env (pair_events rest ++ [.end_map]) = .ok h1 ∧
        Filled (ps ++ rest) root_frame [] h1 := by
  induction rest with
  | nil => intro ps h hne; exact absurd rfl hne
  | cons p tl ih =>
    intro ps h _ hb
    have hset := building_set ps h p.1 p.2 hb
    have hlen : (ps ++ [(p.1, p.2)]).length = ps.length + 1 := by simp
    rw [← hlen] at hset
    have hne1 : ps ++ [(p.1, p.2)] ≠ [] := by simp
    cases tl with
    | nil =>
      obtain ⟨h1, hpop, hfin⟩ := filled_end _ _ hne1 hset
      refine ⟨h1, ?_, ?_⟩
      · show h.run env [.set_key_scalar_plain p.1, .set_val_scalar_plain p.2, .end_map] = .ok h1
        rw [run_set_pair, run_cons_ok env _ h1 .end_map [] hpop]
        rfl
      · exact hfin
    | cons q r =>
      obtain ⟨h1, hsib, hb1⟩ := filled_sibling _ _ hne1 hset
      obtain ⟨h2, hrun, hfin⟩ := ih (ps ++ [(p.1, p.2)]) h1 (by simp) hb1
      refine ⟨h2, ?_, ?_⟩
      · show h.run env (.set_key_scalar_plain p.1 :: .set_val_scalar_plain p.2 :: .add_sibling ::
            (pair_events (q :: r) ++ [.end_map])) = .ok h2
        rw [run_set_pair, run_cons_ok env _ h1 .add_sibling _ hsib]
        exact hrun
      · have : ps ++ p :: q :: r = ps ++ [(p.1, p.2)] ++ q :: r := by simp
        rw [this]
        exact hfin

/-- Following the sibling links from the `i`-th child visits the children `i, i+1, ...`
up to the last one. -/
theorem filled_siblings_from (qs : List (csubstr × csubstr)) (c : ParserState)
    (l : List ParserState) (h : EventHandlerTree) (hf : Filled qs c l h) :
    ∀ (k i fuel : Nat), 1 ≤ i → i + k = qs.length → k < fuel →
      h.m_tree.siblings_from fuel (some i) = List.range' i (k + 1) := by
  intro k
  induction k with
  | zero =>
    intro i fuel hi hik hfuel
    obtain ⟨f, rfl⟩ : ∃ f, fuel = f + 1 := ⟨fuel - 1, by omega⟩
    obtain ⟨p, hp⟩ : ∃ p, qs[i - 1]? = some p := by
      rw [List.getElem?_eq_getElem (by omega)]
      exact ⟨_, rfl⟩
    have hnode := hf.done (i - 1) p hp
    have he : i - 1 + 1 = i := by omega
    rw [he] at hnode
    have hlast : i = qs.length := by omega
    have hnext : h.m_tree.next_sibling i = none := by
      rw [Tree.next_sibling, hnode]
      simp only [pair_node, hlast, if_true]
    simp only [Tree.siblings_from, hnext, List.range']
    cases f <;> rfl
  | succ k ih =>
    intro i fuel hi hik hfuel
    obtain ⟨f, rfl⟩ : ∃ f, fuel = f + 1 := ⟨fuel - 1, by omega⟩
    obtain ⟨p, hp⟩ : ∃ p, qs[i - 1]? = some p := by
      rw [List.getElem?_eq_getElem (by omega)]
      exact ⟨_, rfl⟩
    have hnode := hf.done (i - 1) p hp
    have he : i - 1 + 1 = i := by omega
    rw [he] at hnode
    have hlast : ¬ i = qs.length := by omega
    have e2 : i - 1 + 2 = i + 1 := by omega
    have hnext : h.m_tree.next_sibling i = some (i + 1) := by
      rw [Tree.next_sibling, hnode]
      simp only [pair_node, hlast, if_false, e2]
    simp only [Tree.siblings_from, hnext]
    rw [ih (i + 1) f (by omega) (by omega) (by omega)]
    rfl

theorem block_root_type_eq : NOTYPE ||| (MAP ||| BLOCK) = MAP ||| BLOCK := by decide

theorem pair_type_eq :
    NOTYPE ||| (KEY ||| KEY_PLAIN) ||| (VAL ||| VAL_PLAIN) = KEY ||| KEY_PLAIN ||| VAL ||| VAL_PLAIN := by
  decide

/-- C1 (block map of pairs): the reset onto the empty tree returns the state `start`, and
from it, for every non-empty list of (key, value) views, the events `begin_map_val_block`, then `set_key_scalar_plain`, `set_val_scalar_plain`
for each pair with `add_sibling` between consecutive pairs, then `end_map`, return normally.
The tree then has one node per pair besides the root; the root's type is exactly the block
map bits; its children, read along the sibling links, are the nodes 1, 2, ... in the order
of the pairs; the child for the pair number `i` has the root as parent, that pair's key and
value, and exactly the key-present, plain-key, value-present and plain-value bits; no node
has type NOTYPE; and the level stack is back to the single root frame. -/
theorem c1_block_map (env : Env) (pairs : List (csubstr × csubstr)) (hne : pairs ≠ []) :
    EventHandlerTree.reset {} Tree.empty 0 = .ok start ∧
    ∃ h, start.run env (block_map_events pairs) = .ok h ∧
      h.m_tree.size = pairs.length + 1 ∧
      h.m_tree.type 0 = MAP ||| BLOCK ∧
      h.m_tree.children 0 = List.range' 1 pairs.length ∧
      (∀ i (hi : i < pairs.length),
        h.m_tree.parent (i + 1) = some 0 ∧
        (h.m_tree.get (i + 1)).m_key = pairs[i].1 ∧
        (h.m_tree.get (i + 1)).m_val = pairs[i].2 ∧
        h.m_tree.type (i + 1) = KEY ||| KEY_PLAIN ||| VAL ||| VAL_PLAIN) ∧
      (∀ j, j < h.m_tree.size → h.m_tree.type j ≠ NOTYPE) ∧
      h.m_curr = root_frame ∧ h.m_lower = [] := by
  obtain ⟨h, hrun, hf⟩ := block_map_run_rest env pairs [] _ hne building_init
  rw [List.nil_append] at hf
  have hlen : 0 < pairs.length := List.length_pos.mpr hne
  have hnodes : ∀ i (hi : i < pairs.length),
      h.m_tree.get (i + 1) =
        pair_node (i + 1) pairs[i] (if i + 1 = pairs.length then none else some (i + 2)) :=
    fun i hi => hf.done i _ (List.getElem?_eq_getElem hi)
  refine ⟨init_eq_start, h, ?_, hf.size, ?_, ?_, ?_, ?_, hf.curr, hf.lower⟩
  · show start.run env (.begin_map_val_block :: (pair_events pairs ++ [.end_map])) = .ok h
    rw [run_cons_ok env start (opened (MAP ||| BLOCK) start) .begin_map_val_block _ rfl]
    exact hrun
  · simp only [Tree.type, hf.root, block_map_root]
    exact block_root_type_eq
  · simp only [Tree.children, Tree.first_child, hf.root, block_map_root, hf.size]
    have := filled_siblings_from pairs _ _ h hf (pairs.length - 1) 1 (pairs.length + 1)
      (Nat.le_refl 1) (by omega) (by omega)
    rw [this]
    congr 1
    omega
  · intro i hi
    refine ⟨?_, ?_, ?_, ?_⟩
    · rw [Tree.parent, hnodes i hi]; rfl
    · rw [hnodes i hi]; rfl
    · rw [hnodes i hi]; rfl
    · rw [Tree.type, hnodes i hi]; exact pair_type_eq
  · intro j hj
    rw [hf.size] at hj
    by_cases h0 : j = 0
    · subst h0
      simp only [Tree.type, hf.root, block_map_root]
      exact or_ne_zero_of_right (by decide)
    · obtain ⟨i, rfl⟩ : ∃ i, j = i + 1 := ⟨j - 1, by omega⟩
      simp only [Tree.type, hnodes i (by omega), pair_node]
      exact pair_type_ne


/-- Witness of C1: the pairs ("a","1"), ("b","2"), as the views at the addresses 100, 300, 200
and 400, give a root map with the two children 1 and 2, holding a->1 and b->2 in that
order. -/
theorem c1_block_map_witness :
    ∃ h, start.run Env.plain (block_map_events
        [({ str := 100, len := 1 }, { str := 300, len := 1 }),
         ({ str := 200, len := 1 }, { str := 400, len := 1 })]) = .ok h ∧
      h.m_tree.type 0 = MAP ||| BLOCK ∧
      h.m_tree.children 0 = [1, 2] ∧
      (h.m_tree.get 1).m_key = { str := 100, len := 1 } ∧ (h.m_tree.get 1).m_val = { str := 300, len := 1 } ∧
      (h.m_tree.get 2).m_key = { str := 200, len := 1 } ∧ (h.m_tree.get 2).m_val = { str := 400, len := 1 } := by
  obtain ⟨-, h, hr, -, hty, hch, hkv, -, -, -⟩ := c1_block_map Env.plain
    [({ str := 100, len := 1 }, { str := 300, len := 1 }),
     ({ str := 200, len := 1 }, { str := 400, len := 1 })] (by simp)
  exact ⟨h, hr, hty, hch, (hkv 0 (by decide)).2.1, (hkv 0 (by decide)).2.2.1,
    (hkv 1 (by decide)).2.1, (hkv 1 (by decide)).2.2.1⟩

end EventHandlerTree

/-! ### Tail-only speculation -/

namespace Tree

theorem type_modify (t : Tree) (i : Nat) (f : NodeData → NodeData) (j : Nat) :
    (t.modify i f).type j = if j = i ∧ i < t.size then (f (t.get i)).m_type else t.type j := by
  unfold type
  rw [get_modify]
  split_ifs <;> rfl

theorem type_modifyOpt_same (t : Tree) (i : Option Nat) (f : NodeData → NodeData)
    (hf : ∀ n, (f n).m_type = n.m_type) (j : Nat) :
    (t.modifyOpt i f).type j = t.type j := by
  unfold type
  rw [get_modifyOpt]
  split_ifs
  · exact hf _
  · rfl

theorem type_modifyOpt (t : Tree) (i : Option Nat) (f : NodeData → NodeData) (j : Nat) :
    (t.modifyOpt i f).type j =
      if i = some j ∧ j < t.size then (f (t.get j)).m_type else t.type j := by
  unfold type
  rw [get_modifyOpt]
  split_ifs <;> rfl

theorem get_map (t : Tree) (g : NodeData → NodeData) (j : Nat) :
    Tree.get { t with m_buf := t.m_buf.map g } j = if j < t.size then g (t.get j) else {} := by
  unfold get size
  simp only [List.getD_eq_getElem?_getD, List.getElem?_map]
  by_cases hj : j < t.m_buf.length
  · simp [hj, List.getElem?_eq_getElem hj]
  · simp [hj, List.getElem?_eq_none (Nat.le_of_not_lt hj)]

theorem type_of_size_le (t : Tree) (j : Nat) (h : t.size ≤ j) : t.type j = NOTYPE := by
  unfold type
  rw [get_of_size_le t j h]

theorem andNot_or_doc_seq_ne_zero (x : Nat) : andNot (x ||| DOC) SEQ ≠ 0 := by
  intro h0
  have : (andNot (x ||| DOC) SEQ).testBit 4 = false := by rw [h0]; simp
  have hD : DOC = 2 ^ 4 := by decide
  have hS : SEQ = 2 ^ 3 := by decide
  unfold andNot at this
  rw [hD, hS] at this
  simp only [Nat.testBit_xor, Nat.testBit_and, Nat.testBit_or, Nat.testBit_two_pow] at this
  simp at this

theorem stream_ne_zero : STREAM ≠ NOTYPE := by decide

/-- Converting the root to a stream leaves no new untyped node: a node without type after
the conversion is a node other than the root that had no type before it. -/
theorem set_root_as_stream_types (t : Tree) :
    t.size ≤ t.set_root_as_stream.size ∧
    ∀ j, j < t.set_root_as_stream.size → t.set_root_as_stream.type j = NOTYPE →
      j < t.size ∧ j ≠ 0 ∧ t.type j = NOTYPE := by
  unfold set_root_as_stream
  simp only [root_id]
  by_cases hs : t.is_stream 0 = true
  · simp only [hs, if_true]
    refine ⟨Nat.le_refl _, fun j hj hty => ⟨hj, ?_, hty⟩⟩
    intro h0
    subst h0
    simp only [is_stream, decide_eq_true_eq] at hs
    rw [hty] at hs
    exact absurd hs (by decide)
  · simp only [hs, if_false]
    by_cases hc : t.has_children 0 = true
    · simp only [hc, Bool.not_true, Bool.false_eq_true, if_false]
      have hlive : 0 < t.size := by
        by_contra hz
        have := get_of_size_le t 0 (by omega)
        simp [has_children, first_child, this] at hc
      constructor
      · simp only [size_modify, size_modifyOpt, _copy_props_wo_key, size_append]
        simp [size]
      · intro j hj hty
        simp only [size_modify, size_modifyOpt, _copy_props_wo_key, size_append] at hj
        have hsz : Tree.size { t with m_buf := t.m_buf.map (fun n =>
            if n.m_parent = some 0 then { n with m_parent := some t.size } else n) } = t.size := by
          simp [size]
        rw [hsz] at hj
        rw [type_modify] at hty
        by_cases h0 : j = 0
        · subst h0
          simp only [size_modify, size_modifyOpt, _copy_props_wo_key, size_append, hsz] at hty
          have : 0 < t.size + 1 := by omega
          simp only [this, and_self, if_true] at hty
          exact absurd hty stream_ne_zero
        · simp only [h0, false_and, if_false] at hty
          rw [type_modifyOpt] at hty
          have hty2 : ∀ u : Tree, (if t.last_child 0 = some j ∧ j < u.size then
              ({ u.get j with m_next_sibling := none } : NodeData).m_type else u.type j) = u.type j := by
            intro u; split_ifs <;> rfl
          rw [hty2, type_modify] at hty
          by_cases hn : j = t.size
          · subst hn
            simp only [size_modify, size_modifyOpt, _copy_props_wo_key, size_append, hsz, true_and,
              Nat.lt_succ_self, if_true] at hty
            exact absurd hty (or_ne_zero_of_right (by decide))
          · simp only [hn, false_and, if_false] at hty
            unfold _copy_props_wo_key at hty
            rw [type_modify] at hty
            simp only [snd_append, hsz, hn, false_and, if_false, type_append] at hty
            have hj2 : j < t.size := by omega
            refine ⟨hj2, h0, ?_⟩
            simp only [type, get_map, hj2, if_true] at hty
            split_ifs at hty <;> exact hty
    · simp only [hc, Bool.not_false, if_true, Bool.false_eq_true]
      by_cases hv : t.is_val 0 = true
      · simp only [hv, if_true, if_false, reduceIte]
        have hlive : 0 < t.size := by
          by_contra hz
          have := type_of_size_le t 0 (by omega)
          simp only [is_val, this, decide_eq_true_eq] at hv
          exact absurd hv (by decide)
        have hsz0 : (t.modify 0 (fun n => { n with m_type := n.m_type ||| SEQ })).size = t.size :=
          size_modify _ _ _
        constructor
        · simp only [size_modify, _copy_props_wo_key, size_append]
          omega
        · intro j hj hty
          simp only [size_modify, _copy_props_wo_key, size_append] at hj
          rw [type_modify] at hty
          by_cases h0 : j = 0
          · subst h0
            simp only [size_modify, _copy_props_wo_key, size_append] at hty
            have : 0 < t.size + 1 := by omega
            simp only [this, and_self, if_true] at hty
            exact absurd hty stream_ne_zero
          · simp only [h0, false_and, if_false] at hty
            rw [type_modify] at hty
            by_cases hn : j = t.size
            · subst hn
              simp only [size_modify, _copy_props_wo_key, size_append, snd_append, true_and,
                Nat.lt_succ_self, if_true] at hty
              exact absurd hty (andNot_or_doc_seq_ne_zero _)
            · simp only [snd_append, hsz0, hn, false_and, if_false] at hty
              unfold _copy_props_wo_key at hty
              rw [type_modify] at hty
              simp only [snd_append, hsz0, hn, false_and, if_false, type_append] at hty
              rw [type_modify] at hty
              simp only [h0, false_and, if_false] at hty
              exact ⟨by omega, h0, hty⟩
      · simp only [hv, if_false, if_true, Bool.false_eq_true, reduceIte]
        refine ⟨by rw [size_modify], ?_⟩
        intro j hj hty
        rw [size_modify] at hj
        rw [type_modify] at hty
        by_cases h0 : j = 0
        · subst h0
          simp only [hj, and_self, if_true] at hty
          exact absurd hty stream_ne_zero
        · simp only [h0, false_and, if_false] at hty
          exact ⟨hj, h0, hty⟩

end Tree

namespace EventHandlerTree

theorem grows_refl (h : EventHandlerTree) : grows h h := ⟨rfl, rfl, rfl, fun _ hj => hj⟩

theorem grows_trans {h h1 h2 : EventHandlerTree} (a : grows h h1) (b : grows h1 h2) : grows h h2 :=
  ⟨b.1.trans a.1, b.2.1.trans a.2.1, b.2.2.1.trans a.2.2.1, fun j hj => a.2.2.2 j (b.2.2.2 j hj)⟩

/-- A write to one node that clears no type. -/
theorem grows_modify (h : EventHandlerTree) (i : Nat) (f : NodeData → NodeData)
    (hf : ∀ n, (f n).m_type = NOTYPE → n.m_type = NOTYPE) :
    grows h { h with m_tree := h.m_tree.modify i f } := by
  refine ⟨rfl, rfl, Tree.size_modify _ _ _, ?_⟩
  intro j hj
  rw [Tree.type_modify] at hj
  split_ifs at hj with hc
  · rw [hc.1]; exact hf _ hj
  · exact hj

theorem or_eq_zero_left {a b : Nat} (h : a ||| b = NOTYPE) : a = NOTYPE := by
  by_contra hne
  exact or_ne_zero_of_left hne h

theorem grows_enable (bits : Nat) (h : EventHandlerTree) : grows h (_enable__ bits h) :=
  grows_modify h _ _ (fun _ hn => or_eq_zero_left hn)

theorem grows_set_key (h : EventHandlerTree) (s : csubstr) : grows h (h.set_key s) :=
  grows_modify h _ _ (fun _ hn => hn)

theorem grows_set_val (h : EventHandlerTree) (s : csubstr) : grows h (h.set_val s) :=
  grows_modify h _ _ (fun _ hn => hn)

/-- The scalar, anchor, reference, tag and directive events, and the stream events, only
write node fields and set type bits. -/
theorem grows_of_setter (env : Env) (h h1 : EventHandlerTree) (e : Event)
    (hs : h.step env e = .ok h1)
    (he : match e with
      | .begin_stream | .end_stream
      | .set_key_scalar_plain _ | .set_val_scalar_plain _
      | .set_key_scalar_dquoted _ | .set_val_scalar_dquoted _
      | .set_key_scalar_squoted _ | .set_val_scalar_squoted _
      | .set_key_scalar_literal _ | .set_val_scalar_literal _
      | .set_key_scalar_folded _ | .set_val_scalar_folded _
      | .mark_key_scalar_unfiltered | .mark_val_scalar_unfiltered
      | .set_key_anchor _ | .set_val_anchor _ | .set_key_ref _ | .set_val_ref _
      | .set_key_tag _ | .set_val_tag _ | .add_directive _ => True
      | _ => False) :
    grows h h1 := by
  cases e <;> simp only at he
  case begin_stream => cases hs; exact grows_refl _
  case end_stream => cases hs; exact grows_refl _
  case set_key_scalar_plain s => cases hs; exact grows_trans (grows_set_key h s) (grows_enable _ _)
  case set_val_scalar_plain s => cases hs; exact grows_trans (grows_set_val h s) (grows_enable _ _)
  case set_key_scalar_dquoted s => cases hs; exact grows_trans (grows_set_key h s) (grows_enable _ _)
  case set_val_scalar_dquoted s => cases hs; exact grows_trans (grows_set_val h s) (grows_enable _ _)
  case set_key_scalar_squoted s => cases hs; exact grows_trans (grows_set_key h s) (grows_enable _ _)
  case set_val_scalar_squoted s => cases hs; exact grows_trans (grows_set_val h s) (grows_enable _ _)
  case set_key_scalar_literal s => cases hs; exact grows_trans (grows_set_key h s) (grows_enable _ _)
  case set_val_scalar_literal s => cases hs; exact grows_trans (grows_set_val h s) (grows_enable _ _)
  case set_key_scalar_folded s => cases hs; exact grows_trans (grows_set_key h s) (grows_enable _ _)
  case set_val_scalar_folded s => cases hs; exact grows_trans (grows_set_val h s) (grows_enable _ _)
  case mark_key_scalar_unfiltered => cases hs; exact grows_enable _ _
  case mark_val_scalar_unfiltered => cases hs; exact grows_enable _ _
  case set_key_anchor s =>
    simp only [step, set_key_anchor] at hs
    split_ifs at hs
    cases hs
    exact grows_trans (grows_enable _ _) (grows_modify _ _ _ (fun _ hn => hn))
  case set_val_anchor s =>
    simp only [step, set_val_anchor] at hs
    split_ifs at hs
    cases hs
    exact grows_trans (grows_enable _ _) (grows_modify _ _ _ (fun _ hn => hn))
  case set_key_ref s =>
    simp only [step, set_key_ref] at hs
    split_ifs at hs
    cases hs
    exact grows_trans (grows_trans (grows_enable (KEY ||| KEYREF) h)
      (grows_modify _ _ (fun n => { n with m_key_anchor := s.sub 1 }) (fun _ hn => hn)))
      (grows_set_key _ s)
  case set_val_ref s =>
    simp only [step, set_val_ref] at hs
    split_ifs at hs
    cases hs
    exact grows_trans (grows_trans (grows_enable (VAL ||| VALREF) h)
      (grows_modify _ _ (fun n => { n with m_val_anchor := s.sub 1 }) (fun _ hn => hn)))
      (grows_set_val _ s)
  case set_key_tag s =>
    cases hs
    exact grows_trans (grows_enable _ _) (grows_modify _ _ _ (fun _ hn => hn))
  case set_val_tag s =>
    cases hs
    exact grows_trans (grows_enable _ _) (grows_modify _ _ _ (fun _ hn => hn))
  case add_directive s =>
    simp only [step, add_directive, add_tag_directive] at hs
    split_ifs at hs <;> cases hs <;> exact ⟨rfl, rfl, rfl, fun _ hj => hj⟩

theorem tail_only_of_grows {h h1 : EventHandlerTree} (g : grows h h1)
    (hi : h.tail_only_speculative) : h1.tail_only_speculative := by
  intro j hj hty
  rw [g.2.2.1] at hj ⊢
  rw [g.1]
  exact hi j hj (g.2.2.2 j hty)

theorem tail_only_of_all_typed {h : EventHandlerTree} (ha : h.m_tree.all_typed) :
    h.tail_only_speculative :=
  fun j hj hty => absurd hty (ha j hj)

theorem all_typed_of_tail_only_curr {h : EventHandlerTree} (hi : h.tail_only_speculative)
    (hc : h.m_tree.type h.m_curr.node_id ≠ NOTYPE) : h.m_tree.all_typed := by
  intro j hj hty
  have := (hi j hj hty).2
  rw [this] at hc
  exact hc hty

/-- A value-opening event keeps the invariant: the only untyped node is the new tail, on
which the new frame is positioned. -/
theorem tail_only_opened (bits : Nat) (hb : bits ≠ 0) (h : EventHandlerTree)
    (hi : h.tail_only_speculative) : (opened bits h).tail_only_speculative := by
  intro j hj hty
  rw [opened_size] at hj ⊢
  rw [opened_type] at hty
  rw [opened_curr]
  by_cases hjs : j = h.m_tree.size
  · exact ⟨by rw [hjs], hjs.symm⟩
  · have hlt : j < h.m_tree.size := by omega
    exfalso
    split_ifs at hty with hc
    · exact or_ne_zero_of_right hb hty
    · have := (hi j hlt hty).2
      exact hc ⟨this.symm, hlt⟩

/-- After `_remove_speculative_with_parent` no live node is untyped. -/
theorem all_typed_remove_with_parent {h h1 : EventHandlerTree} (hi : h.tail_only_speculative)
    (hs : h._remove_speculative_with_parent = .ok h1) : h1.m_tree.all_typed := by
  unfold _remove_speculative_with_parent at hs
  by_cases h0 : h.m_tree.size = 0
  · simp only [h0, if_true] at hs; cases hs
  simp only [h0, if_false] at hs
  by_cases hp : h.m_tree.has_parent (h.m_tree.size - 1) = true
  swap
  · simp only [hp, Bool.not_false, if_true] at hs; cases hs
  simp only [hp, Bool.not_true, Bool.false_eq_true, if_false] at hs
  by_cases hty : h.m_tree.type (h.m_tree.size - 1) = NOTYPE
  · simp only [hty, if_true] at hs
    cases hs
    have hone : h.m_tree.size - 1 + 1 = h.m_tree.size := by omega
    intro j hj
    rw [Tree.size_remove_tail _ _ hone] at hj
    rw [Tree.type_remove_tail _ _ hone j hj]
    intro hz
    have := (hi j (by omega) hz).1
    omega
  · simp only [hty, if_false] at hs
    cases hs
    intro j hj hz
    have := (hi j hj hz).1
    have hj2 : j = h.m_tree.size - 1 := by omega
    rw [hj2] at hz
    exact hty hz

theorem all_typed_pop {h h1 : EventHandlerTree} (hi : h.tail_only_speculative)
    (hs : h._pop = .ok h1) : h1.m_tree.all_typed := by
  unfold _pop at hs
  cases hr : h._remove_speculative_with_parent with
  | fail e h2 => rw [hr] at hs; cases hs
  | ok h2 =>
    rw [hr] at hs
    have ha := all_typed_remove_with_parent hi hr
    simp only [Outcome.andThen, _stack_pop] at hs
    split at hs
    · cases hs
    · cases hs; exact ha

/-- Source `_remove_speculative` either changes nothing or leaves no live node untyped; it does not
touch the frames. -/
theorem remove_speculative_cases {h h1 : EventHandlerTree} (hi : h.tail_only_speculative)
    (hs : h._remove_speculative = .ok h1) :
    h1.tail_only_speculative ∧ h1.m_curr = h.m_curr ∧ h1.m_lower = h.m_lower := by
  unfold _remove_speculative at hs
  by_cases h0 : h.m_tree.size = 0
  · simp only [h0, if_true] at hs; cases hs
  simp only [h0, if_false] at hs
  by_cases hc : (h.m_tree.has_parent (h.m_tree.size - 1) &&
      decide (h.m_tree.type (h.m_tree.size - 1) = NOTYPE)) = true
  · simp only [hc, if_true] at hs
    cases hs
    refine ⟨tail_only_of_all_typed ?_, rfl, rfl⟩
    have hone : h.m_tree.size - 1 + 1 = h.m_tree.size := by omega
    intro j hj
    show (h.m_tree.remove (h.m_tree.size - 1)).type j ≠ NOTYPE
    have hj' : j < h.m_tree.size - 1 := by
      have := Tree.size_remove_tail _ _ hone
      exact this ▸ hj
    rw [Tree.type_remove_tail _ _ hone j hj']
    intro hz
    have := (hi j (by omega) hz).1
    omega
  · simp only [hc, if_false] at hs
    cases hs
    exact ⟨hi, rfl, rfl⟩

/-- A push from a tree without untyped node keeps the invariant, and typing the new node
leaves no untyped node. -/
theorem push_of_all_typed {h : EventHandlerTree} (ha : h.m_tree.all_typed) :
    (_push h).tail_only_speculative ∧ (_enable__ DOC (_push h)).m_tree.all_typed ∧
      (_push h).m_tree.has_parent ((_push h).m_tree.size - 1) = true ∧
      (_push h).m_tree.type ((_push h).m_tree.size - 1) = NOTYPE := by
  have hsz : (_push h).m_tree.size = h.m_tree.size + 1 := by
    simp [_push, _stack_push, Tree.size_append]
  have hc : (_push h).m_curr.node_id = h.m_tree.size := by
    simp [_push, _stack_push, Tree.snd_append]
  have hty : ∀ j, (_push h).m_tree.type j = h.m_tree.type j := by
    intro j; simp [_push, _stack_push, Tree.type_append]
  refine ⟨?_, ?_, ?_, ?_⟩
  · intro j hj hz
    rw [hsz] at hj ⊢
    rw [hty] at hz
    rw [hc]
    by_cases hjs : j = h.m_tree.size
    · exact ⟨by rw [hjs], hjs.symm⟩
    · exact absurd hz (ha j (by omega))
  · intro j hj
    simp only [_enable__, Tree.size_modify, Tree.type_modify, hsz, hc] at hj ⊢
    by_cases hjs : j = h.m_tree.size
    · simp only [hjs, Nat.lt_succ_self, and_self, if_true]
      exact or_ne_zero_of_right (by decide)
    · simp only [hjs, false_and, if_false, hty]
      exact ha j (by omega)
  · rw [hsz]
    simp only [Nat.add_sub_cancel, Tree.has_parent, Tree.parent, _push, _stack_push]
    rw [Tree.get_append]
    simp only [if_true]
    split_ifs <;> rfl
  · rw [hsz, hty]
    exact Tree.type_of_size_le _ _ (by omega)

theorem andNot_val_ne_zero_of_doc {t : Nat} (h : t &&& DOC ≠ 0) : andNot t VAL ≠ NOTYPE := by
  intro h0
  apply h
  have hD : DOC = 2 ^ 4 := by decide
  have hV : VAL = 2 ^ 1 := by decide
  have hb : (andNot t VAL).testBit 4 = false := by rw [h0]; simp [NOTYPE]
  unfold andNot at hb
  rw [hV] at hb
  simp only [Nat.testBit_xor, Nat.testBit_and, Nat.testBit_two_pow] at hb
  have ht : t.testBit 4 = false := by simpa using hb
  rw [hD]
  by_contra hne
  have h4 := (and_two_pow_ne_zero t 4).mp hne
  rw [ht] at h4
  exact absurd h4 (by simp)

/-- After `_set_root_as_stream` no live node is untyped, and the current frame is on the
root. -/
theorem all_typed_set_root_as_stream {h h1 : EventHandlerTree} (hi : h.tail_only_speculative)
    (hs : h._set_root_as_stream = .ok h1) :
    h1.m_tree.all_typed ∧ h1.m_curr.node_id = 0 := by
  unfold _set_root_as_stream at hs
  by_cases hn : h.m_curr.node_id = 0
  swap
  · simp only [hn, ne_eq, not_false_eq_true, if_true] at hs; cases hs
  simp only [hn, ne_eq, not_true_eq_false, if_false, Tree.root_id] at hs
  -- the tree handed to the conversion has no untyped node other than the root
  have hpre : ∀ t1 : Tree, t1.size = h.m_tree.size →
      (∀ j, j ≠ 0 → t1.type j = h.m_tree.type j) →
      ∀ j, j < t1.set_root_as_stream.size → t1.set_root_as_stream.type j ≠ NOTYPE := by
    intro t1 hsz hty j hj hz
    obtain ⟨hj1, hj0, hz1⟩ := (Tree.set_root_as_stream_types t1).2 j hj hz
    rw [hty j hj0] at hz1
    rw [hsz] at hj1
    have := (hi j hj1 hz1).2
    rw [hn] at this
    exact hj0 this.symm
  by_cases hack : (!h.m_tree.has_children 0 && !h.m_tree.is_val 0) = true
  · simp only [hack, if_true] at hs
    have ha := hpre (h.m_tree.modify 0 (fun n => { n with m_type := n.m_type ||| VAL }))
      (Tree.size_modify _ _ _)
      (fun j hj0 => by rw [Tree.type_modify]; simp [hj0])
    generalize (h.m_tree.modify 0 (fun n => { n with m_type := n.m_type ||| VAL })).set_root_as_stream
      = T2 at hs ha
    split_ifs at hs with c1 c2
    split at hs
    · cases hs
    · rename_i first hfirst
      split_ifs at hs with c3
      cases hs
      refine ⟨?_, rfl⟩
      intro j hj
      simp only [_set_state_curr, Tree.size_modify, Tree.type_modify] at hj ⊢
      split_ifs with hc
      · have hdoc : T2.is_doc first = true := by
          rcases Bool.eq_false_or_eq_true (T2.is_doc first) with hd | hd
          · exact hd
          · rw [hd] at c3; exact absurd rfl c3
        simp only [Tree.is_doc, decide_eq_true_eq] at hdoc
        exact andNot_val_ne_zero_of_doc hdoc
      · exact ha j hj
  · simp only [hack, if_false, Bool.false_eq_true] at hs
    have ha := hpre h.m_tree rfl (fun _ _ => rfl)
    generalize h.m_tree.set_root_as_stream = T2 at hs ha
    split_ifs at hs with c1 c2
    split at hs
    · cases hs
    · split_ifs at hs with c3
      cases hs
      exact ⟨fun j hj => ha j hj, rfl⟩

/-- Source `add_sibling` on a typed current node keeps the invariant. -/
theorem tail_only_add_sibling {h h1 : EventHandlerTree} (hi : h.tail_only_speculative)
    (hc : h.m_tree.type h.m_curr.node_id ≠ NOTYPE) (hs : h.add_sibling = .ok h1) :
    h1.tail_only_speculative := by
  have ha := all_typed_of_tail_only_curr hi hc
  unfold add_sibling at hs
  split at hs
  · cases hs
  · split_ifs at hs
    cases hs
    intro j hj hz
    simp only [_set_state_curr, Tree.size_append, Tree.type_append, Tree.snd_append] at hj hz ⊢
    by_cases hjs : j = h.m_tree.size
    · exact ⟨by rw [hjs], hjs.symm⟩
    · exact absurd hz (ha j (by omega))

theorem shifted_key_type_ne_zero (T : Nat) : shifted_key_type T ≠ NOTYPE :=
  or_ne_zero_of_right (by decide)

/-- Source `actually_val_is_first_key_of_new_map_flow` leaves no live node untyped. -/
theorem all_typed_actually_flow {h h1 : EventHandlerTree} (hi : h.tail_only_speculative)
    (hs : h.actually_val_is_first_key_of_new_map_flow = .ok h1) : h1.m_tree.all_typed := by
  unfold actually_val_is_first_key_of_new_map_flow at hs
  dsimp only at hs
  by_cases c1 : h.m_tree.is_container h.m_curr.node_id = true
  · simp only [c1, if_true] at hs; cases hs
  simp only [c1, if_false, Bool.false_eq_true] at hs
  cases hp : h.m_parent with
  | none => rw [hp] at hs; cases hs
  | some p =>
    rw [hp] at hs
    dsimp only at hs
    by_cases c2 : (!h.m_tree.is_seq p.node_id) = true
    · simp only [c2, if_true] at hs; cases hs
    simp only [c2, if_false, Bool.false_eq_true] at hs
    by_cases c3 : h.m_tree.has_key h.m_curr.node_id = true
    · simp only [c3, if_true] at hs; cases hs
    simp only [c3, if_false, Bool.false_eq_true] at hs
    rw [begin_map_val_flow_eq] at hs
    by_cases c4 : _has_any__ VAL (_disable__ (_VALMASK ||| VAL_STYLE) h) = true
    · simp only [c4, if_true, Outcome.andThen] at hs; cases hs
    simp only [c4, if_false, Bool.false_eq_true, Outcome.andThen] at hs
    cases hs
    intro j hj
    have hdsz : (_disable__ (_VALMASK ||| VAL_STYLE) h).m_tree.size = h.m_tree.size :=
      Tree.size_modify _ _ _
    have hdc : (_disable__ (_VALMASK ||| VAL_STYLE) h).m_curr = h.m_curr := rfl
    simp only [Tree.size_modify, Tree.type_modify, opened_size, opened_curr, opened_type,
      hdsz, hdc] at hj ⊢
    by_cases hjs : j = h.m_tree.size
    · simp only [hjs, Nat.lt_succ_self, and_self, if_true]
      exact shifted_key_type_ne_zero _
    · have hlt : j < h.m_tree.size := by omega
      simp only [hjs, false_and, if_false]
      split_ifs with hjc
      · exact or_ne_zero_of_right (by decide)
      · intro hz
        simp only [_disable__, Tree.type_modify] at hz
        split_ifs at hz with hjc2
        · exact hjc ⟨hjc2.1, hlt⟩
        · exact hjc ⟨((hi j hlt hz).2).symm, hlt⟩

/-- Every event that returns normally keeps the invariant, `add_sibling` being issued on a
typed current node. -/
theorem tail_only_step (env : Env) (h h1 : EventHandlerTree) (e : Event)
    (hi : h.tail_only_speculative)
    (hg : e = .add_sibling → h.m_tree.type h.m_curr.node_id ≠ NOTYPE)
    (hs : h.step env e = .ok h1) : h1.tail_only_speculative := by
  cases e
  case begin_doc =>
    simp only [step, begin_doc] at hs
    split_ifs at hs
    · cases hr : h._set_root_as_stream with
      | fail e h2 => rw [hr] at hs; cases hs
      | ok h2 =>
        rw [hr] at hs
        cases hs
        exact tail_only_of_all_typed (push_of_all_typed (all_typed_set_root_as_stream hi hr).1).2.1
    · cases hs; exact hi
  case end_doc =>
    simp only [step, end_doc] at hs
    split_ifs at hs
    · cases hr : h._remove_speculative with
      | fail e h2 => rw [hr] at hs; cases hs
      | ok h2 =>
        rw [hr] at hs
        exact tail_only_of_all_typed (all_typed_pop (remove_speculative_cases hi hr).1 hs)
    · cases hs; exact hi
  case begin_doc_expl =>
    simp only [step, begin_doc_expl, Tree.root_id] at hs
    split_ifs at hs with c0 c1
    · cases hr : h._set_root_as_stream with
      | fail e h2 => rw [hr] at hs; cases hs
      | ok h2 =>
        rw [hr] at hs
        have ha2 := (all_typed_set_root_as_stream hi hr).1
        simp only [Outcome.andThen] at hs
        split at hs
        · cases hs
        · split_ifs at hs with c2 c3 c4
          · cases hs
            exact tail_only_of_all_typed (push_of_all_typed ha2).2.1
          · have hp := push_of_all_typed ha2
            cases hr2 : (_push h2)._remove_speculative with
            | fail e h3 => rw [hr2] at hs; cases hs
            | ok h3 =>
              rw [hr2] at hs
              simp only [Outcome.andThen] at hs
              split at hs
              · cases hs
              · cases hs
                -- the speculative node of the push has been removed
                have h3typed : h3.m_tree.all_typed := by
                  unfold _remove_speculative at hr2
                  have hsz : ¬ (_push h2).m_tree.size = 0 := by
                    simp [_push, _stack_push, Tree.size_append]
                  simp only [hsz, if_false, hp.2.2.1, hp.2.2.2, decide_True, Bool.and_self,
                    if_true] at hr2
                  cases hr2
                  have hone : (_push h2).m_tree.size - 1 + 1 = (_push h2).m_tree.size := by omega
                  intro j hj
                  have hj' : j < (_push h2).m_tree.size - 1 :=
                    (Tree.size_remove_tail _ _ hone) ▸ hj
                  show ((_push h2).m_tree.remove ((_push h2).m_tree.size - 1)).type j ≠ NOTYPE
                  rw [Tree.type_remove_tail _ _ hone j hj']
                  intro hz
                  have := (hp.1 j (by omega) hz).1
                  omega
                exact tail_only_of_grows (grows_enable _ _)
                  (@tail_only_of_all_typed (h3._set_state_curr _) h3typed)
    · cases hs
      have hroot : h.m_tree.type h.m_curr.node_id ≠ NOTYPE := by
        intro hz
        have c1' : h.m_tree.is_stream 0 = true := by
          rcases Bool.eq_false_or_eq_true (h.m_tree.is_stream 0) with hd | hd
          · exact hd
          · exfalso; simp [hd] at c1
        simp only [Tree.is_stream, decide_eq_true_eq] at c1'
        have c0' : h.m_curr.node_id = 0 := by
          by_contra hne
          exact c0 (fun e => hne e.symm)
        rw [c0'] at hz
        rw [hz] at c1'
        exact absurd c1' (by decide)
      exact tail_only_of_all_typed (push_of_all_typed (all_typed_of_tail_only_curr hi hroot)).2.1
  case end_doc_expl =>
    simp only [step, end_doc_expl] at hs
    cases hr : h._remove_speculative with
    | fail e h2 => rw [hr] at hs; cases hs
    | ok h2 =>
      rw [hr] at hs
      simp only [Outcome.andThen] at hs
      have h2i := (remove_speculative_cases hi hr).1
      split_ifs at hs
      · exact tail_only_of_all_typed (all_typed_pop h2i hs)
      · cases hs; exact h2i
  case begin_map_key_flow => cases hs
  case begin_map_key_block => cases hs
  case begin_seq_key_flow => cases hs
  case begin_seq_key_block => cases hs
  case actually_val_is_first_key_of_new_map_block => cases hs
  case begin_map_val_flow =>
    rw [step_opens_value env h .begin_map_val_flow rfl] at hs
    split_ifs at hs
    cases hs
    exact tail_only_opened _ (by decide) h hi
  case begin_map_val_block =>
    rw [step_opens_value env h .begin_map_val_block rfl] at hs
    split_ifs at hs
    cases hs
    exact tail_only_opened _ (by decide) h hi
  case begin_seq_val_flow =>
    rw [step_opens_value env h .begin_seq_val_flow rfl] at hs
    split_ifs at hs
    cases hs
    exact tail_only_opened _ (by decide) h hi
  case begin_seq_val_block =>
    rw [step_opens_value env h .begin_seq_val_block rfl] at hs
    split_ifs at hs
    cases hs
    exact tail_only_opened _ (by decide) h hi
  case end_map => exact tail_only_of_all_typed (all_typed_pop hi hs)
  case end_seq => exact tail_only_of_all_typed (all_typed_pop hi hs)
  case add_sibling => exact tail_only_add_sibling hi (hg rfl) hs
  case actually_val_is_first_key_of_new_map_flow =>
    exact tail_only_of_all_typed (all_typed_actually_flow hi hs)
  all_goals exact tail_only_of_grows (grows_of_setter env h h1 _ hs trivial) hi

theorem tail_only_start : start.tail_only_speculative := by
  intro j hj _
  have hj1 : j < 1 := hj
  have hj0 : j = 0 := by omega
  subst hj0
  exact ⟨rfl, rfl⟩

/-- C9, counterexample: after a reset onto the empty tree, `begin_seq_val_flow` followed by
`add_sibling` returns normally and leaves three nodes, of which node 1 has type NOTYPE
although it is not the tail-most node (that is node 2). -/
theorem c9_add_sibling_counterexample :
    ∃ h, start.run Env.plain [.begin_seq_val_flow, .add_sibling] = .ok h ∧
      h.m_tree.size = 3 ∧ h.m_tree.type 1 = NOTYPE ∧ 1 + 1 ≠ h.m_tree.size :=
  ⟨_, rfl, by decide, by decide, by decide⟩

/-- C9 (tail-only speculation), amended: in every state reached from the reset state by
events that all return normally, `add_sibling` being issued only when the current node has
some type bit, every live node of type NOTYPE is the most recently appended node
(identifier size - 1), and it is the node the current frame is positioned on; no earlier
node is left without type bits. The decisions on documents and the acceptance of
directives are arbitrary (`env`). -/
theorem c9_tail_only_speculation (env : Env) (h : EventHandlerTree) (hr : Reachable env h) :
    ∀ j, j < h.m_tree.size → h.m_tree.type j = NOTYPE →
      j + 1 = h.m_tree.size ∧ h.m_curr.node_id = j := by
  induction hr with
  | start => exact tail_only_start
  | step h0 h1 e _ hg hs ih => exact tail_only_step env h0 h1 e ih hg hs

/-- Witness of C9 (amended): the state after `begin_seq_val_flow` on the reset state is
reachable; its only untyped node is the tail-most node 1. -/
theorem c9_tail_only_speculation_witness :
    Reachable Env.plain (opened (SEQ ||| FLOW_SL) start) ∧
    (opened (SEQ ||| FLOW_SL) start).m_tree.type 1 = NOTYPE ∧
    ∀ j, j < (opened (SEQ ||| FLOW_SL) start).m_tree.size →
      (opened (SEQ ||| FLOW_SL) start).m_tree.type j = NOTYPE →
      j + 1 = (opened (SEQ ||| FLOW_SL) start).m_tree.size ∧
        (opened (SEQ ||| FLOW_SL) start).m_curr.node_id = j :=
  ⟨Reachable.step start _ .begin_seq_val_flow Reachable.start (fun e => by cases e) rfl,
   by decide,
   c9_tail_only_speculation Env.plain _
     (Reachable.step start _ .begin_seq_val_flow Reachable.start (fun e => by cases e) rfl)⟩

end EventHandlerTree

/-! ### Arena relocation -/

namespace EventHandlerTree

theorem alloc_arena_tree (env : Env) (h : EventHandlerTree) (len : Nat) :
    (h.alloc_arena env len).2.1.m_tree = (h.m_tree.alloc_arena env.arena_reserve env.mem len).2.1 := by
  unfold alloc_arena
  dsimp only
  split_ifs <;> rfl

theorem alloc_arena_mem (env : Env) (h : EventHandlerTree) (len : Nat) :
    (h.alloc_arena env len).1 = (h.m_tree.alloc_arena env.arena_reserve env.mem len).1 := by
  unfold alloc_arena
  dsimp only
  split_ifs <;> rfl

theorem alloc_arena_out (env : Env) (h : EventHandlerTree) (len : Nat) :
    (h.alloc_arena env len).2.2 = (h.m_tree.alloc_arena env.arena_reserve env.mem len).2.2 := by
  unfold alloc_arena
  dsimp only
  split_ifs <;> rfl

theorem tree_alloc_arena_out_len (reserve : csubstr → Nat → csubstr) (m : Mem) (t : Tree) (sz : Nat) :
    (t.alloc_arena reserve m sz).2.2.len = sz := rfl

/-- When the allocation moves the arena, the bytes in use have been copied to the new
base. -/
theorem tree_alloc_arena_moved (reserve : csubstr → Nat → csubstr) (m : Mem) (t : Tree) (sz : Nat)
    (hmoved : (t.alloc_arena reserve m sz).2.1.arena.str ≠ t.arena.str) :
    (t.alloc_arena reserve m sz).1 =
      Tree.copy_arena m t.arena.str (t.alloc_arena reserve m sz).2.1.arena.str t.arena.len := by
  unfold Tree.alloc_arena at hmoved ⊢
  by_cases hg : sz > t.m_arena.len - t.m_arena_pos
  · simp only [hg, if_true, Tree.arena]
  · simp only [hg, if_false, Tree.arena] at hmoved
    exact absurd rfl hmoved

/-- A view inside the old bounds denotes, once rebased, the same bytes in the memory after
the copy. -/
theorem relocated_text (m : Mem) (prev curr s : csubstr) (hin : prev.is_super s = true) :
    (_stack_relocate_to_new_arena s prev curr).text (Tree.copy_arena m prev.str curr.str prev.len) =
      s.text m := by
  simp only [csubstr.is_super, Bool.and_eq_true, decide_eq_true_eq] at hin
  unfold csubstr.text _stack_relocate_to_new_arena Tree.copy_arena
  apply List.map_congr_left
  intro i hi
  rw [List.mem_range] at hi
  have hi' : i < s.len := hi
  have h1 : curr.str ≤ curr.str + (s.str - prev.str) + i := by omega
  have h2 : curr.str + (s.str - prev.str) + i < curr.str + prev.len := by omega
  simp only [h1, h2, and_self, if_true]
  congr 1
  omega

/-- C10 (arena relocation): for every call `alloc_arena(len, relocated)`: when the view
`*relocated` lay inside the arena's bounds before the call and the call changed the
arena's base address, then after the call `*relocated` starts at the new base plus its old
offset from the old base, has the same length, and denotes in the memory after the call
the bytes it denoted before; when `*relocated` did not lie inside the old bounds, or the
base address did not change, `*relocated` is left as it was. In every case the view
returned has length `len`. -/
theorem c10_arena_relocation (env : Env) (h : EventHandlerTree) (len : Nat) (relocated : csubstr) :
    (h.m_tree.arena.is_super relocated = true →
      (h.alloc_arena_relocating env len relocated).h.m_tree.arena.str ≠ h.m_tree.arena.str →
        (h.alloc_arena_relocating env len relocated).relocated.str =
          (h.alloc_arena_relocating env len relocated).h.m_tree.arena.str +
            (relocated.str - h.m_tree.arena.str) ∧
        (h.alloc_arena_relocating env len relocated).relocated.len = relocated.len ∧
        (h.alloc_arena_relocating env len relocated).relocated.text
            (h.alloc_arena_relocating env len relocated).mem = relocated.text env.mem) ∧
    ((h.m_tree.arena.is_super relocated = false ∨
      (h.alloc_arena_relocating env len relocated).h.m_tree.arena.str = h.m_tree.arena.str) →
        (h.alloc_arena_relocating env len relocated).relocated = relocated) ∧
    (h.alloc_arena_relocating env len relocated).out.len = len := by
  have hout : (h.alloc_arena_relocating env len relocated).out.len = len := by
    unfold alloc_arena_relocating
    dsimp only
    split_ifs <;> simp only [alloc_arena_out, tree_alloc_arena_out_len]
  have htree : (h.alloc_arena_relocating env len relocated).h.m_tree =
      (h.m_tree.alloc_arena env.arena_reserve env.mem len).2.1 := by
    unfold alloc_arena_relocating
    dsimp only
    split_ifs <;> simp only [alloc_arena_tree]
  have hmem : (h.alloc_arena_relocating env len relocated).mem =
      (h.m_tree.alloc_arena env.arena_reserve env.mem len).1 := by
    unfold alloc_arena_relocating
    dsimp only
    split_ifs <;> simp only [alloc_arena_mem]
  refine ⟨?_, ?_, hout⟩
  · intro hin hmoved
    rw [htree] at hmoved
    have hrel : (h.alloc_arena_relocating env len relocated).relocated =
        _stack_relocate_to_new_arena relocated h.m_tree.arena
          (h.m_tree.alloc_arena env.arena_reserve env.mem len).2.1.arena := by
      unfold alloc_arena_relocating
      dsimp only
      simp only [hin, Bool.not_true, Bool.false_eq_true, if_false, alloc_arena_tree, hmoved, ne_eq,
        not_false_eq_true, if_true]
    rw [hrel, htree, hmem]
    refine ⟨rfl, rfl, ?_⟩
    rw [tree_alloc_arena_moved _ _ _ _ hmoved]
    exact relocated_text env.mem _ _ _ hin
  · intro hcase
    unfold alloc_arena_relocating
    dsimp only
    rcases hcase with hout' | hsame
    · simp only [hout', Bool.not_false, if_true]
    · rw [htree] at hsame
      split_ifs with c1 c2
      · rfl
      · rw [alloc_arena_tree] at c2
        exact absurd hsame c2
      · rfl


/-- Witness of C10: an arena of 8 bytes at address 1000 with 6 bytes in use, a request for 5
bytes (the arena moves to address 2008). The view of 3 bytes at 1002 is rebased to 2010 and
denotes the same bytes; the view of 3 bytes at 5000, outside the arena, is left as it
was. -/
theorem c10_arena_relocation_witness :
    (with_arena.m_tree.arena.is_super { str := 1002, len := 3 } = true ∧
      (with_arena.alloc_arena_relocating Env.patterned 5 { str := 1002, len := 3 }).h.m_tree.arena.str = 2008 ∧
      (with_arena.alloc_arena_relocating Env.patterned 5 { str := 1002, len := 3 }).relocated.str = 2010 ∧
      (with_arena.alloc_arena_relocating Env.patterned 5 { str := 1002, len := 3 }).relocated.text
        (with_arena.alloc_arena_relocating Env.patterned 5 { str := 1002, len := 3 }).mem =
        csubstr.text Env.patterned.mem { str := 1002, len := 3 }) ∧
    (with_arena.m_tree.arena.is_super { str := 5000, len := 3 } = false ∧
      (with_arena.alloc_arena_relocating Env.patterned 5 { str := 5000, len := 3 }).relocated =
        { str := 5000, len := 3 }) ∧
    (with_arena.alloc_arena_relocating Env.patterned 5 { str := 1002, len := 3 }).out.len = 5 :=
  ⟨⟨by decide, by decide,
    ((c10_arena_relocation Env.patterned with_arena 5 { str := 1002, len := 3 }).1
      (by decide) (by decide)).1,
    ((c10_arena_relocation Env.patterned with_arena 5 { str := 1002, len := 3 }).1
      (by decide) (by decide)).2.2⟩,
   ⟨by decide,
    (c10_arena_relocation Env.patterned with_arena 5 { str := 5000, len := 3 }).2.1
      (Or.inl (by decide))⟩,
   (c10_arena_relocation Env.patterned with_arena 5 { str := 1002, len := 3 }).2.2⟩

end EventHandlerTree
/-! ### Reference setters and directives -/

namespace EventHandlerTree
open Tree

/-- The text of a view without its first character is the tail of the text of the view. -/
theorem text_sub_one (m : Mem) (r : csubstr) :
    (r.sub 1).text m = (r.text m).tail := by
  obtain ⟨s, n⟩ := r
  cases n with
  | zero => simp [csubstr.text, csubstr.sub]
  | succ k =>
    simp only [csubstr.text, csubstr.sub, List.range_succ_eq_map, List.map_cons, List.tail_cons,
      List.map_map, Nat.add_sub_cancel]
    apply List.map_congr_left
    intro i _
    simp only [Function.comp, Nat.succ_eq_add_one]
    congr 1
    omega

/-- What `set_val_ref` does once its assertion on the sigil has passed. -/
theorem set_val_ref_eq (env : Env) (h : EventHandlerTree) (r : csubstr)
    (hsigil : r.begins_with env.mem 42 = true) :
    h.set_val_ref env r = .ok (set_val
      { _enable__ (VAL ||| VALREF) h with
        m_tree := (_enable__ (VAL ||| VALREF) h).m_tree.modify h.m_curr.node_id
          (fun n => { n with m_val_anchor := r.sub 1 }) } r) := by
  unfold set_val_ref
  rw [hsigil]
  rfl

/-- What `set_key_ref` does once its assertion on the sigil has passed. -/
theorem set_key_ref_eq (env : Env) (h : EventHandlerTree) (r : csubstr)
    (hsigil : r.begins_with env.mem 42 = true) :
    h.set_key_ref env r = .ok (set_key
      { _enable__ (KEY ||| KEYREF) h with
        m_tree := (_enable__ (KEY ||| KEYREF) h).m_tree.modify h.m_curr.node_id
          (fun n => { n with m_key_anchor := r.sub 1 }) } r) := by
  unfold set_key_ref
  rw [hsigil]
  rfl

/-- C11 (reference setters do not dereference): for every alias view `r` that begins with
the sigil `*` (byte 42) and every state whose current node is live, `set_val_ref r` returns
normally; the current node is as before except that its value is `r` itself (sigil
included), its value anchor is `r` without its first character (one address further, one
byte shorter, the text being the tail of the text of `r`) and its type has the
value-present and value-reference bits added; every other node is unchanged, the number of
nodes is unchanged and the frames of the level stack are unchanged. `set_key_ref r` does
the same on the key side (key, key anchor, key-present and key-reference bits). -/
theorem c11_reference_setters (env : Env) (h : EventHandlerTree) (r : csubstr)
    (hsigil : r.begins_with env.mem 42 = true)
    (hlive : h.m_curr.node_id < h.m_tree.size) :
    (∃ h1, h.set_val_ref env r = .ok h1 ∧
      h1.m_curr = h.m_curr ∧ h1.m_lower = h.m_lower ∧ h1.m_tree.size = h.m_tree.size ∧
      h1.m_tree.get h.m_curr.node_id =
        { h.m_tree.get h.m_curr.node_id with
          m_type := h.m_tree.type h.m_curr.node_id ||| (VAL ||| VALREF),
          m_val := r,
          m_val_anchor := { str := r.str + 1, len := r.len - 1 } } ∧
      (∀ j, j ≠ h.m_curr.node_id → h1.m_tree.get j = h.m_tree.get j)) ∧
    (∃ h1, h.set_key_ref env r = .ok h1 ∧
      h1.m_curr = h.m_curr ∧ h1.m_lower = h.m_lower ∧ h1.m_tree.size = h.m_tree.size ∧
      h1.m_tree.get h.m_curr.node_id =
        { h.m_tree.get h.m_curr.node_id with
          m_type := h.m_tree.type h.m_curr.node_id ||| (KEY ||| KEYREF),
          m_key := r,
          m_key_anchor := { str := r.str + 1, len := r.len - 1 } } ∧
      (∀ j, j ≠ h.m_curr.node_id → h1.m_tree.get j = h.m_tree.get j)) ∧
    csubstr.text env.mem { str := r.str + 1, len := r.len - 1 } = (r.text env.mem).tail := by
  refine ⟨⟨_, set_val_ref_eq env h r hsigil, rfl, rfl, ?_, ?_, ?_⟩,
          ⟨_, set_key_ref_eq env h r hsigil, rfl, rfl, ?_, ?_, ?_⟩, text_sub_one env.mem r⟩
  · simp only [set_val, _enable__, size_modify]
  · simp only [set_val, _enable__, get_modify, size_modify, hlive, and_self, if_true, Tree.type,
      csubstr.sub]
  · intro j hj
    simp only [set_val, _enable__, get_modify, size_modify, hj, false_and, if_false]
  · simp only [set_key, _enable__, size_modify]
  · simp only [set_key, _enable__, get_modify, size_modify, hlive, and_self, if_true, Tree.type,
      csubstr.sub]
  · intro j hj
    simp only [set_key, _enable__, get_modify, size_modify, hj, false_and, if_false]

/-- Witness of C11: on the untyped root of the empty tree, with the bytes 42 (`*`), 43, 44
at the addresses 42 to 44, the alias view of these three bytes is stored whole as the value
(respectively key), the anchor is the view of the last two bytes, and the type is exactly
value-present and value-reference (respectively key-present and key-reference). -/
theorem c11_reference_setters_witness :
    csubstr.begins_with Env.patterned.mem { str := 42, len := 3 } 42 = true ∧
    (∃ h1, start.set_val_ref Env.patterned { str := 42, len := 3 } = .ok h1 ∧
      h1.m_tree.get 0 = { m_type := VAL ||| VALREF, m_val := { str := 42, len := 3 },
                          m_val_anchor := { str := 43, len := 2 } }) ∧
    (∃ h1, start.set_key_ref Env.patterned { str := 42, len := 3 } = .ok h1 ∧
      h1.m_tree.get 0 = { m_type := KEY ||| KEYREF, m_key := { str := 42, len := 3 },
                          m_key_anchor := { str := 43, len := 2 } }) ∧
    csubstr.text Env.patterned.mem { str := 43, len := 2 } = [43, 44] := by
  have w := c11_reference_setters Env.patterned start { str := 42, len := 3 } (by decide) (by decide)
  obtain ⟨⟨a, ha, -, -, -, hg, -⟩, ⟨b, hb, -, -, -, hk, -⟩, ht⟩ := w
  exact ⟨by decide, ⟨a, ha, hg.trans (by decide)⟩, ⟨b, hb, hk.trans (by decide)⟩, ht.trans (by decide)⟩

/-- A view that starts with a text starts with the first character of that text. -/
theorem begins_with_of_begins_with_str (m : Mem) (d : csubstr) (c : Nat) (rest : List Nat)
    (hd : d.begins_with_str m (c :: rest) = true) : d.begins_with m c = true := by
  simp only [csubstr.begins_with_str, csubstr.begins_with, Bool.and_eq_true, decide_eq_true_eq,
    List.length_cons, List.range_succ_eq_map, List.map_cons, List.cons.injEq] at hd ⊢
  obtain ⟨hlen, hfirst, -⟩ := hd
  exact ⟨by omega, by simpa using hfirst⟩

/-- C12 (directive handling): for every directive view that begins with `%` (byte 37) but
not with the text `%TAG` (a `%YAML` directive or any unrecognized one), `add_directive`
returns normally and the handler state, tree (nodes and tag table) and level stack, is the
one the call started from. A directive that begins with `%TAG` is passed to the tag
registration of the tree (`add_tag_directive`): when the registration reports success
`add_directive` returns normally with the tree the registration left, and when it reports
failure `add_directive` fails its check, the level stack being unchanged in both cases. -/
theorem c12_add_directive (env : Env) (h : EventHandlerTree) (d : csubstr) :
    (d.begins_with env.mem 37 = true → d.begins_with_str env.mem [37, 84, 65, 71] = false →
      h.add_directive env d = .ok h) ∧
    (d.begins_with_str env.mem [37, 84, 65, 71] = true →
      ((add_tag_directive env h.m_tree d).1 = true →
        h.add_directive env d = .ok { h with m_tree := (add_tag_directive env h.m_tree d).2 }) ∧
      ((add_tag_directive env h.m_tree d).1 = false →
        h.add_directive env d =
          .fail .check { h with m_tree := (add_tag_directive env h.m_tree d).2 })) := by
  refine ⟨fun hp ht => ?_, fun ht => ?_⟩
  · unfold add_directive
    simp only [hp, ht, Bool.not_true, Bool.false_eq_true, if_false, ite_self]
  · have hp := begins_with_of_begins_with_str env.mem d 37 [84, 65, 71] ht
    refine ⟨fun hr => ?_, fun hr => ?_⟩
    · unfold add_directive
      simp only [hp, ht, hr, Bool.not_true, Bool.false_eq_true, if_false, if_true]
    · unfold add_directive
      simp only [hp, ht, hr, Bool.not_true, Bool.false_eq_true, if_false, if_true]

/-- Witness of C12: a `%YAML` directive leaves the reset state as it is; a `%TAG` directive
is appended to the empty tag table; the same directive is refused, with a failed check,
when the tag table already holds four directives. -/
theorem c12_add_directive_witness :
    (csubstr.begins_with Env.directives.mem { str := 600, len := 9 } 37 = true ∧
      csubstr.begins_with_str Env.directives.mem { str := 600, len := 9 } [37, 84, 65, 71] = false ∧
      start.add_directive Env.directives { str := 600, len := 9 } = .ok start) ∧
    (csubstr.begins_with_str Env.directives.mem { str := 500, len := 20 } [37, 84, 65, 71] = true ∧
      start.add_directive Env.directives { str := 500, len := 20 } =
        .ok { start with m_tree := { Tree.empty with m_tag_directives := [{ str := 500, len := 20 }] } }) ∧
    (csubstr.begins_with_str Env.directives.mem { str := 500, len := 20 } [37, 84, 65, 71] = true ∧
      with_full_tag_table.add_directive Env.directives { str := 500, len := 20 } =
        .fail .check with_full_tag_table) :=
  ⟨⟨by decide, by decide,
     (c12_add_directive Env.directives start { str := 600, len := 9 }).1 (by decide) (by decide)⟩,
   ⟨by decide,
     ((c12_add_directive Env.directives start { str := 500, len := 20 }).2 (by decide)).1 (by decide)⟩,
   ⟨by decide,
     ((c12_add_directive Env.directives with_full_tag_table { str := 500, len := 20 }).2
       (by decide)).2 (by decide)⟩⟩

end EventHandlerTree

/-! ### Explicit document start on a stream root -/

namespace EventHandlerTree
open Tree

/-- No chain starts at `NONE`. -/
theorem siblings_from_none (t : Tree) (f : Nat) : t.siblings_from f none = [] := by
  cases f <;> rfl

/-- A chain starts with its first node and goes on with the node after it. -/
theorem siblings_from_some (t : Tree) (f c : Nat) :
    t.siblings_from (f + 1) (some c) = c :: t.siblings_from f (t.next_sibling c) := rfl

/-- Appending at the end of a sibling chain: when `t1` has the next-sibling links of `t` except
that the node `l`, which ended the chain in `t`, is followed by `n`, itself followed by
nothing, a chain of `t` that ends at `l` is in `t1` the same chain followed by `n`. -/
theorem siblings_from_extend (t t1 : Tree) (n l : Nat)
    (hnext : ∀ j, j < n → j ≠ l → t1.next_sibling j = t.next_sibling j)
    (hl : t1.next_sibling l = some n) (hn : t1.next_sibling n = none)
    (hend : t.next_sibling l = none) :
    ∀ (f c : Nat), (t.siblings_from f (some c)).getLast? = some l →
      (∀ x ∈ t.siblings_from f (some c), x < n) →
      t1.siblings_from (f + 1) (some c) = t.siblings_from f (some c) ++ [n] := by
  intro f
  induction f with
  | zero => intro c hlast _; simp [siblings_from] at hlast
  | succ f ih =>
    intro c hlast hb
    rw [siblings_from_some t f] at hlast hb ⊢
    rw [siblings_from_some t1 (f + 1)]
    by_cases hc : c = l
    · subst hc
      rw [hend, siblings_from_none, hl]
      cases f with
      | zero => simp [siblings_from]
      | succ f => rw [siblings_from_some, hn, siblings_from_none]; rfl
    · have hcn : c < n := hb c (List.mem_cons_self _ _)
      rw [hnext c hcn hc]
      cases hnx : t.next_sibling c with
      | none =>
        rw [hnx, siblings_from_none] at hlast
        simp at hlast
        exact absurd hlast hc
      | some c1 =>
        rw [hnx] at hlast hb
        have hlast1 : (t.siblings_from f (some c1)).getLast? = some l := by
          cases hs : t.siblings_from f (some c1) with
          | nil =>
            rw [hs] at hlast
            simp at hlast
            exact absurd hlast hc
          | cons b r =>
            rw [hs, List.getLast?_cons_cons] at hlast
            exact hlast
        rw [ih c1 hlast1 (fun x hx => hb x (List.mem_cons_of_mem _ hx))]
        rfl

/-- The tree after `_push` and `_enable_(DOC)`: a node is appended under the node of the current
frame and the document bit is set on it. -/
theorem push_doc_tree (h : EventHandlerTree) :
    (_enable__ DOC h._push).m_tree =
      ((h.m_tree._append_child__unprotected h.m_curr.node_id).1).modify h.m_tree.size
        (fun n => { n with m_type := n.m_type ||| DOC }) := rfl

/-- The nodes that existed before `_push`, `_enable_(DOC)` issued on the root frame: only links
to the new node are written. -/
theorem push_doc_get_old (h : EventHandlerTree) (hroot : h.m_curr.node_id = 0) (j : Nat)
    (hj : j < h.m_tree.size) :
    (_enable__ DOC h._push).m_tree.get j =
      { h.m_tree.get j with
        m_next_sibling :=
          if h.m_tree.last_child 0 = some j then some h.m_tree.size
          else (h.m_tree.get j).m_next_sibling,
        m_first_child :=
          if j = 0 then
            (if (h.m_tree.get j).m_first_child.isSome then (h.m_tree.get j).m_first_child
             else some h.m_tree.size)
          else (h.m_tree.get j).m_first_child,
        m_last_child := if j = 0 then some h.m_tree.size else (h.m_tree.get j).m_last_child } := by
  have hne : j ≠ h.m_tree.size := Nat.ne_of_lt hj
  rw [push_doc_tree, get_modify, hroot]
  simp only [hne, false_and, if_false, get_append]
  have hj1 : j < h.m_tree.size + 1 := by omega
  by_cases hl : h.m_tree.last_child 0 = some j <;> by_cases h0 : j = 0
  · subst h0; simp [hl]
  · simp [hl, h0, hj1]
  · subst h0; simp [hl]
  · simp [hl, h0]

/-- The node appended by `_push`, `_enable_(DOC)` issued on the root frame. -/
theorem push_doc_get_new (h : EventHandlerTree) (hroot : h.m_curr.node_id = 0)
    (hpos : 0 < h.m_tree.size) :
    (_enable__ DOC h._push).m_tree.type h.m_tree.size = DOC ∧
    (_enable__ DOC h._push).m_tree.parent h.m_tree.size = some 0 := by
  have hne : h.m_tree.size ≠ 0 := by omega
  rw [push_doc_tree, hroot]
  constructor
  · rw [type_modify]
    simp only [size_append, true_and, Nat.lt_succ_self, if_true]
    have ht : ((h.m_tree._append_child__unprotected 0).1.get h.m_tree.size).m_type = NOTYPE := by
      have := type_append h.m_tree 0 h.m_tree.size
      rw [type_of_size_le h.m_tree _ (Nat.le_refl _)] at this
      exact this
    rw [ht]
    decide
  · simp only [Tree.parent, get_modify, size_append, true_and, Nat.lt_succ_self, if_true,
      get_append, hne, false_and, if_false]
    split_ifs <;> rfl

/-- The node appended by `_push`, `_enable_(DOC)` is followed by no sibling. -/
theorem push_doc_next_new (h : EventHandlerTree) (hroot : h.m_curr.node_id = 0)
    (hpos : 0 < h.m_tree.size) (hl : h.m_tree.last_child 0 ≠ some h.m_tree.size) :
    (_enable__ DOC h._push).m_tree.next_sibling h.m_tree.size = none := by
  have hne : h.m_tree.size ≠ 0 := by omega
  rw [push_doc_tree, hroot]
  simp only [Tree.next_sibling, get_modify, size_append, true_and, Nat.lt_succ_self, if_true,
    get_append, hne, false_and, if_false, hl]

/-- On a root frame whose root is a stream, `begin_doc_expl` takes the branch that pushes. -/
theorem begin_doc_expl_of_stream (h : EventHandlerTree) (hroot : h.m_curr.node_id = h.m_tree.root_id)
    (hstream : h.m_tree.is_stream h.m_tree.root_id = true) :
    h.begin_doc_expl = .ok (_enable__ DOC h._push) := by
  unfold begin_doc_expl
  simp only [hroot, ne_eq, not_true_eq_false, if_false, hstream, Bool.not_true, Bool.false_eq_true]

/-- A stream node is a live node. -/
theorem size_pos_of_is_stream (t : Tree) (i : Nat) (hs : t.is_stream i = true) : i < t.size := by
  by_contra hlt
  have h0 : t.type i = NOTYPE := type_of_size_le t i (Nat.le_of_not_lt hlt)
  unfold is_stream at hs
  rw [h0] at hs
  revert hs
  decide

/-- C13 (no reconversion of a stream root): in every state whose current frame is positioned
on the root and whose root is already a stream, `begin_doc_expl` returns normally and
appends exactly one node: the number of nodes grows by one, the new node (identifier: the
old size) has exactly the document bit as its type, has the root as parent and is the last
child of the root; the current frame is positioned on it, the former current frame is now
the frame below, and the stack depth has grown by one. Every node that existed before keeps
its type (the root stays the stream it was) and all its contents; the only writes to
existing nodes are the links to the new node: the next-sibling link of the former last
child of the root, the last-child link of the root, and the first-child link of a root that
had no child. The order under the root is unchanged: when the children list of the root
ends at the root's last child, which has no next sibling, and holds live nodes only, the
children of the root afterwards are the former children followed by the new node. -/
theorem c13_stream_root_not_reconverted (h : EventHandlerTree)
    (hroot : h.m_curr.node_id = h.m_tree.root_id)
    (hstream : h.m_tree.is_stream h.m_tree.root_id = true) :
    ∃ h1, h.begin_doc_expl = .ok h1 ∧
      h1.m_tree.size = h.m_tree.size + 1 ∧
      h1.m_curr.node_id = h.m_tree.size ∧
      h1.m_lower = h.m_curr :: h.m_lower ∧
      h1.depth = h.depth + 1 ∧
      h1.m_tree.type h.m_tree.size = DOC ∧
      h1.m_tree.parent h.m_tree.size = some h.m_tree.root_id ∧
      h1.m_tree.last_child h.m_tree.root_id = some h.m_tree.size ∧
      (∀ j, j < h.m_tree.size → h1.m_tree.type j = h.m_tree.type j) ∧
      (∀ j, j < h.m_tree.size →
        h1.m_tree.get j =
          { h.m_tree.get j with
            m_next_sibling :=
              if h.m_tree.last_child h.m_tree.root_id = some j then some h.m_tree.size
              else (h.m_tree.get j).m_next_sibling,
            m_first_child :=
              if j = h.m_tree.root_id then
                (if (h.m_tree.get j).m_first_child.isSome then (h.m_tree.get j).m_first_child
                 else some h.m_tree.size)
              else (h.m_tree.get j).m_first_child,
            m_last_child :=
              if j = h.m_tree.root_id then some h.m_tree.size
              else (h.m_tree.get j).m_last_child }) ∧
      ((h.m_tree.children h.m_tree.root_id).getLast? = h.m_tree.last_child h.m_tree.root_id →
        (∀ x ∈ h.m_tree.children h.m_tree.root_id, x < h.m_tree.size) →
        (∀ l, h.m_tree.last_child h.m_tree.root_id = some l → h.m_tree.next_sibling l = none) →
        h1.m_tree.children h.m_tree.root_id =
          h.m_tree.children h.m_tree.root_id ++ [h.m_tree.size]) := by
  have hpos : 0 < h.m_tree.size := size_pos_of_is_stream _ _ hstream
  have hroot0 : h.m_curr.node_id = 0 := hroot
  have hold := push_doc_get_old h hroot0
  obtain ⟨hty, hpar⟩ := push_doc_get_new h hroot0 hpos
  have hsize : (_enable__ DOC h._push).m_tree.size = h.m_tree.size + 1 := by
    rw [push_doc_tree, size_modify, size_append]
  have hg0 := hold 0 hpos
  refine ⟨_, begin_doc_expl_of_stream h hroot hstream, hsize, rfl, rfl, rfl, hty, hpar, ?_, ?_, hold, ?_⟩
  · show ((_enable__ DOC h._push).m_tree.get 0).m_last_child = _
    rw [hg0]
    rfl
  · intro j hj
    show ((_enable__ DOC h._push).m_tree.get j).m_type = _
    rw [hold j hj]
    rfl
  · intro hlast hbound hend
    show Tree.siblings_from _ _ ((_enable__ DOC h._push).m_tree.get 0).m_first_child = _
    rw [hsize, hg0]
    show Tree.siblings_from _ _ (if (h.m_tree.get 0).m_first_child.isSome then
      (h.m_tree.get 0).m_first_child else some h.m_tree.size) = _
    have hch : h.m_tree.children h.m_tree.root_id =
        h.m_tree.siblings_from h.m_tree.size (h.m_tree.get 0).m_first_child := rfl
    rw [hch] at hlast hbound ⊢
    cases hfc : (h.m_tree.get 0).m_first_child with
    | none =>
      rw [hfc, siblings_from_none] at hlast
      have hl0 : h.m_tree.last_child 0 ≠ some h.m_tree.size := by
        have : h.m_tree.last_child 0 = none := hlast.symm
        rw [this]; exact fun hx => Option.noConfusion hx
      simp only [Option.isSome_none, Bool.false_eq_true, if_false, siblings_from_none,
        List.nil_append]
      rw [siblings_from_some, push_doc_next_new h hroot0 hpos hl0, siblings_from_none]
    | some c =>
      rw [hfc] at hlast hbound
      simp only [Option.isSome_some, if_true]
      obtain ⟨k, hk⟩ : ∃ k, h.m_tree.size = k + 1 := ⟨h.m_tree.size - 1, by omega⟩
      have hnonempty : h.m_tree.siblings_from h.m_tree.size (some c) ≠ [] := by
        rw [hk, siblings_from_some]; exact List.cons_ne_nil _ _
      obtain ⟨l, hl⟩ : ∃ l, h.m_tree.last_child h.m_tree.root_id = some l := by
        cases hx : h.m_tree.last_child h.m_tree.root_id with
        | none =>
          rw [hx] at hlast
          exact absurd (List.getLast?_eq_none_iff.mp hlast) hnonempty
        | some l => exact ⟨l, rfl⟩
      rw [hl] at hlast
      have hlmem : l ∈ h.m_tree.siblings_from h.m_tree.size (some c) :=
        List.mem_of_getLast?_eq_some hlast
      have hlt : l < h.m_tree.size := hbound l hlmem
      have hl0 : h.m_tree.last_child 0 = some l := hl
      refine siblings_from_extend h.m_tree _ h.m_tree.size l ?_ ?_ ?_ (hend l hl)
        h.m_tree.size c hlast hbound
      · intro j hj hjl
        show ((_enable__ DOC h._push).m_tree.get j).m_next_sibling = _
        rw [hold j hj]
        have : h.m_tree.last_child 0 ≠ some j := by
          rw [hl0]; intro hx; exact hjl (Option.some.inj hx).symm
        simp only [this, if_false]
        rfl
      · show ((_enable__ DOC h._push).m_tree.get l).m_next_sibling = _
        rw [hold l hlt]
        simp only [hl0, if_true]
      · apply push_doc_next_new h hroot0 hpos
        rw [hl0]
        intro hx
        have := Option.some.inj hx
        omega

/-- Witness of C13: on a stream root holding one document with a plain scalar, a second
`begin_doc_expl` leaves the root a stream and the first document as it was, and appends
node 2, typed as a document, after node 1. -/
theorem c13_stream_root_not_reconverted_witness :
    on_stream_root.m_curr.node_id = on_stream_root.m_tree.root_id ∧
    on_stream_root.m_tree.is_stream on_stream_root.m_tree.root_id = true ∧
    on_stream_root.m_tree.children 0 = [1] ∧
    ∃ h1, on_stream_root.begin_doc_expl = .ok h1 ∧
      h1.m_tree.size = 3 ∧ h1.m_curr.node_id = 2 ∧ h1.depth = 2 ∧
      h1.m_tree.type 0 = STREAM ∧ h1.m_tree.type 1 = (VAL ||| VAL_PLAIN ||| DOC) ∧
      h1.m_tree.type 2 = DOC ∧ h1.m_tree.children 0 = [1, 2] := by
  refine ⟨by decide, by decide, by decide, ?_⟩
  obtain ⟨h1, hs, hsz, hc, -, hd, hty, -, -, htypes, -, hch⟩ :=
    c13_stream_root_not_reconverted on_stream_root (by decide) (by decide)
  exact ⟨h1, hs, hsz, hc, hd, (htypes 0 (by decide)).trans (by decide),
    (htypes 1 (by decide)).trans (by decide), hty,
    (hch (by decide) (by decide) (by decide)).trans (by decide)⟩

end EventHandlerTree

/-! ### Implicit documents around an empty input -/

namespace EventHandlerTree
open Tree

/-- A tree whose live stream nodes are the root alone has no other stream node. -/
theorem stream_only_root (t : Tree) (hall : ∀ j, j < t.size → t.is_stream j = true → j = 0) :
    ∀ j, t.is_stream j = true → j = 0 :=
  fun j hj => hall j (size_pos_of_is_stream t j hj) hj

/-- An implicit `begin_doc` that pushes, on the reset state. -/
theorem begin_doc_start_pushing (env : Env)
    (hpush : env._stack_should_push_on_begin_doc start = true) :
    start.begin_doc env = .ok doc_pushed := by
  unfold begin_doc
  rw [hpush]
  decide

/-- An implicit `begin_doc` that does not push changes nothing. -/
theorem begin_doc_start_not_pushing (env : Env)
    (hpush : env._stack_should_push_on_begin_doc start = false) :
    start.begin_doc env = .ok start := by
  unfold begin_doc
  rw [hpush]
  rfl

/-- An implicit `end_doc` that pops: speculative removal, then `_pop`. -/
theorem end_doc_popping (env : Env) (h : EventHandlerTree)
    (hpop : env._stack_should_pop_on_end_doc h = true) :
    h.end_doc env = (h._remove_speculative).andThen _pop := by
  unfold end_doc
  rw [hpop]
  rfl

/-- An implicit `end_doc` that does not pop changes nothing. -/
theorem end_doc_not_popping (env : Env) (h : EventHandlerTree)
    (hpop : env._stack_should_pop_on_end_doc h = false) :
    h.end_doc env = .ok h := by
  unfold end_doc
  rw [hpop]
  rfl

/-- C14 (document promotion around an empty input): after a reset onto the empty tree, for
either outcome of the should-push decision of `begin_doc` and either outcome of the
should-pop decision of `end_doc`, the decisions being those of a matching pair (the pop is
decided only if `begin_doc` has pushed, as the level-stack discipline has it), `begin_doc`
followed by `end_doc` raises no error, and in the tree they leave every stream-typed node
is the root: at most one node is a stream. -/
theorem c14_empty_input_documents (env : Env)
    (hsym : env._stack_should_push_on_begin_doc start = false →
      env._stack_should_pop_on_end_doc start = false) :
    EventHandlerTree.reset {} Tree.empty 0 = .ok start ∧
    ∃ h1 h2, start.begin_doc env = .ok h1 ∧ h1.end_doc env = .ok h2 ∧
      ∀ j, h2.m_tree.is_stream j = true → j = h2.m_tree.root_id := by
  refine ⟨by decide, ?_⟩
  cases hpush : env._stack_should_push_on_begin_doc start with
  | false =>
    refine ⟨start, start, begin_doc_start_not_pushing env hpush,
      end_doc_not_popping env start (hsym hpush), ?_⟩
    exact stream_only_root _ (by decide)
  | true =>
    cases hpop : env._stack_should_pop_on_end_doc doc_pushed with
    | false =>
      refine ⟨doc_pushed, doc_pushed, begin_doc_start_pushing env hpush,
        end_doc_not_popping env doc_pushed hpop, ?_⟩
      exact stream_only_root _ (by decide)
    | true =>
      refine ⟨doc_pushed, doc_popped, begin_doc_start_pushing env hpush,
        (end_doc_popping env doc_pushed hpop).trans (by decide), ?_⟩
      exact stream_only_root _ (by decide)

/-- Witness of C14: both decisions holding, `begin_doc` pushes and `end_doc` pops without an
error, and the only stream node left is the root; neither decision holding, nothing
happens and the tree, left as it was, has no stream node but possibly the root. -/
theorem c14_empty_input_documents_witness :
    (((Env.deciding true true)._stack_should_push_on_begin_doc start = false →
      (Env.deciding true true)._stack_should_pop_on_end_doc start = false) ∧
     (EventHandlerTree.reset {} Tree.empty 0 = .ok start ∧
      ∃ h1 h2, start.begin_doc (Env.deciding true true) = .ok h1 ∧
       h1.end_doc (Env.deciding true true) = .ok h2 ∧
       ∀ j, h2.m_tree.is_stream j = true → j = h2.m_tree.root_id)) ∧
    ((Env.plain._stack_should_push_on_begin_doc start = false →
      Env.plain._stack_should_pop_on_end_doc start = false) ∧
     (EventHandlerTree.reset {} Tree.empty 0 = .ok start ∧
      ∃ h1 h2, start.begin_doc Env.plain = .ok h1 ∧ h1.end_doc Env.plain = .ok h2 ∧
       ∀ j, h2.m_tree.is_stream j = true → j = h2.m_tree.root_id)) :=
  ⟨⟨by decide, c14_empty_input_documents (Env.deciding true true) (by decide)⟩,
   ⟨by decide, c14_empty_input_documents Env.plain (by decide)⟩⟩

end EventHandlerTree

/-! ### Resetting the handler onto a node -/

namespace EventHandlerTree
open Tree

/-- C15, counterexample: a reset onto the untyped child of a sequence root returns normally
with the current frame on that child and the flags `USTY`, not `RUNK|RTOP`. -/
theorem c15_untyped_child_counterexample :
    Tree.seq_with_child.type 1 = NOTYPE ∧
    ∃ h1, EventHandlerTree.reset {} Tree.seq_with_child 1 = .ok h1 ∧
      h1.m_curr.node_id = 1 ∧ h1.m_curr.flags = USTY ∧ h1.m_curr.flags ≠ RUNK ||| RTOP :=
  ⟨by decide, (EventHandlerTree.reset {} Tree.seq_with_child 1).state, by decide, by decide,
    by decide, by decide⟩

/-- The flags `_reset_parser_state` adds to a frame, by the type of the node, and the error it
raises for the other types, the frame being then positioned on the node already. -/
theorem reset_parser_state_cases (t : Tree) (st : ParserState) (parse_root node : Nat) :
    (t.type node = NOTYPE → t.is_root parse_root = true →
      _reset_parser_state t st parse_root node =
        .ok { st with node_id := node, flags := st.flags ||| (RUNK ||| RTOP) }) ∧
    (t.type node = NOTYPE → t.is_root parse_root = false →
      _reset_parser_state t st parse_root node =
        .ok { st with node_id := node, flags := st.flags ||| USTY }) ∧
    (t.type node &&& MAP ≠ 0 →
      _reset_parser_state t st parse_root node =
        .ok { st with node_id := node,
                      flags := with_doc_flag (t.type node) (st.flags ||| (RMAP ||| USTY)) }) ∧
    (t.type node &&& MAP = 0 → t.type node &&& SEQ ≠ 0 →
      _reset_parser_state t st parse_root node =
        .ok { st with node_id := node,
                      flags := with_doc_flag (t.type node) (st.flags ||| (RSEQ ||| USTY)) }) ∧
    (t.type node &&& MAP = 0 → t.type node &&& SEQ = 0 → t.type node &&& KEY ≠ 0 →
      _reset_parser_state t st parse_root node =
        .ok { st with node_id := node,
                      flags := with_doc_flag (t.type node) (st.flags ||| USTY) }) ∧
    (t.type node ≠ NOTYPE → t.type node &&& MAP = 0 → t.type node &&& SEQ = 0 →
      t.type node &&& KEY = 0 →
      _reset_parser_state t st parse_root node =
        .error (.err "cannot append to node", { st with node_id := node })) := by
  have hz : ∀ m : Nat, NOTYPE &&& m = 0 := fun m => Nat.zero_and m
  refine ⟨?_, ?_, ?_, ?_, ?_, ?_⟩
  · intro h0 hr
    simp [_reset_parser_state, h0, hr, is_doc, hz]
  · intro h0 hr
    simp [_reset_parser_state, h0, hr, is_doc, hz]
  · intro hm
    have hne : t.type node ≠ NOTYPE := by
      intro h0; rw [h0, hz] at hm; exact hm rfl
    by_cases hd : t.type node &&& DOC = 0 <;>
      simp [_reset_parser_state, hne, is_map, hm, is_doc, hd, with_doc_flag]
  · intro hm hs
    have hne : t.type node ≠ NOTYPE := by
      intro h0; rw [h0, hz] at hs; exact hs rfl
    by_cases hd : t.type node &&& DOC = 0 <;>
      simp [_reset_parser_state, hne, is_map, hm, is_seq, hs, is_doc, hd, with_doc_flag]
  · intro hm hs hk
    have hne : t.type node ≠ NOTYPE := by
      intro h0; rw [h0, hz] at hk; exact hk rfl
    by_cases hd : t.type node &&& DOC = 0 <;>
      simp [_reset_parser_state, hne, is_map, hm, is_seq, hs, has_key, hk, is_doc, hd, with_doc_flag]
  · intro hne hm hs hk
    simp [_reset_parser_state, hne, is_map, hm, is_seq, hs, has_key, hk]

/-- A reset onto a node beyond the capacity of the tree fails its check. -/
theorem reset_beyond_capacity (h : EventHandlerTree) (tree : Tree) (id : Nat)
    (hcap : ¬ id < tree.capacity) : EventHandlerTree.reset h tree id = .fail .check h := by
  unfold EventHandlerTree.reset
  simp only [hcap, not_false_eq_true, if_true]

/-- A reset onto a node without key whose parent is a map is refused. -/
theorem reset_keyless_in_map (h : EventHandlerTree) (tree : Tree) (id p : Nat)
    (hcap : id < tree.capacity) (hp : tree.parent id = some p)
    (hm : tree.is_map p = true) (hk : tree.has_key id = false) :
    EventHandlerTree.reset h tree id =
      .fail (.err "destination node belongs to a map and has no key") h := by
  have hroot : tree.is_root id = false := by simp [is_root, hp]
  unfold EventHandlerTree.reset
  simp only [hcap, not_true_eq_false, if_false, hroot, hp, hm, hk, Bool.not_false, Bool.and_self,
    if_true]

/-- A reset onto a root: one frame, set from the root node. -/
theorem reset_root (h : EventHandlerTree) (tree : Tree) (id : Nat) (hcap : id < tree.capacity)
    (hroot : tree.is_root id = true) :
    EventHandlerTree.reset h tree id =
      match _reset_parser_state tree {} id tree.root_id with
      | .error e => .fail e.1 { m_curr := e.2, m_lower := [], m_tree := tree, m_id := id }
      | .ok st => .ok { m_curr := st, m_lower := [], m_tree := tree, m_id := id } := by
  unfold EventHandlerTree.reset
  simp only [hcap, not_true_eq_false, if_false, hroot, Bool.not_true, Bool.false_and,
    Bool.false_eq_true, if_true]

/-- A reset onto a node with a parent, the check on a map parent having passed: the frame of
the parent is set first, then the frame of the node. -/
theorem reset_child (h : EventHandlerTree) (tree : Tree) (id p : Nat) (hcap : id < tree.capacity)
    (hp : tree.parent id = some p) (hk : tree.is_map p = true → tree.has_key id = true) :
    EventHandlerTree.reset h tree id =
      match _reset_parser_state tree {} id p with
      | .error e => .fail e.1 { m_curr := {}, m_lower := [e.2], m_tree := tree, m_id := id }
      | .ok stp =>
        match _reset_parser_state tree {} id id with
        | .error e => .fail e.1 { m_curr := e.2, m_lower := [stp], m_tree := tree, m_id := id }
        | .ok st => .ok { m_curr := st, m_lower := [stp], m_tree := tree, m_id := id } := by
  have hroot : tree.is_root id = false := by simp [is_root, hp]
  have hcond : (tree.is_map p && !tree.has_key id) = false := by
    cases hm : tree.is_map p with
    | false => rfl
    | true => rw [hk hm]; rfl
  unfold EventHandlerTree.reset
  simp only [hcap, not_true_eq_false, if_false, hroot, hp, Bool.not_false, Bool.true_and, hcond,
    Bool.false_eq_true, Option.getD_some]

/-- C15 (root initialization), amended: a reset of the handler onto the node `id` first makes
two checks: a node beyond the capacity of the tree fails the capacity check, and a node
without key whose parent is a map is refused with "destination node belongs to a map and
has no key", the handler being unchanged in both cases. Past these checks the reset
positions the current frame on `id` and gives it flags computed from the type the node
has: no type gives `RUNK|RTOP` when the node is the root of the tree and `USTY` alone when
it is not; a map type gives `RMAP|USTY`; a sequence type (that is not also a map) gives
`RSEQ|USTY`; a key without a container type gives `USTY` alone; in these three cases a node
with the document bit additionally gets `RDOC`; every other type (a value alone, a document
alone) makes the reset fail with the error "cannot append to node", the frame being
positioned on the node already and no flag added. For a root the stack is that single
frame. For a node with a parent the frame of the parent is set first, by the same rule on
the type of the parent (`_reset_parser_state`, the destination not being the root of the
tree): when that fails the reset fails with its error, and when it returns the frame
`stp` the stack is the frame of the node over `stp`. The rule itself, for any frame, is the
first part of the statement. -/
theorem c15_reset_flags (h : EventHandlerTree) (tree : Tree) (id : Nat) :
    (∀ (st : ParserState) (parse_root node : Nat),
      (tree.type node = NOTYPE → tree.is_root parse_root = true →
        _reset_parser_state tree st parse_root node =
          .ok { st with node_id := node, flags := st.flags ||| (RUNK ||| RTOP) }) ∧
      (tree.type node = NOTYPE → tree.is_root parse_root = false →
        _reset_parser_state tree st parse_root node =
          .ok { st with node_id := node, flags := st.flags ||| USTY }) ∧
      (tree.type node &&& MAP ≠ 0 →
        _reset_parser_state tree st parse_root node =
          .ok { st with node_id := node,
                        flags := with_doc_flag (tree.type node) (st.flags ||| (RMAP ||| USTY)) }) ∧
      (tree.type node &&& MAP = 0 → tree.type node &&& SEQ ≠ 0 →
        _reset_parser_state tree st parse_root node =
          .ok { st with node_id := node,
                        flags := with_doc_flag (tree.type node) (st.flags ||| (RSEQ ||| USTY)) }) ∧
      (tree.type node &&& MAP = 0 → tree.type node &&& SEQ = 0 → tree.type node &&& KEY ≠ 0 →
        _reset_parser_state tree st parse_root node =
          .ok { st with node_id := node,
                        flags := with_doc_flag (tree.type node) (st.flags ||| USTY) }) ∧
      (tree.type node ≠ NOTYPE → tree.type node &&& MAP = 0 → tree.type node &&& SEQ = 0 →
        tree.type node &&& KEY = 0 →
        _reset_parser_state tree st parse_root node =
          .error (.err "cannot append to node", { st with node_id := node }))) ∧
    (¬ id < tree.capacity → EventHandlerTree.reset h tree id = .fail .check h) ∧
    (id < tree.capacity → ∀ p, tree.parent id = some p → tree.is_map p = true →
      tree.has_key id = false →
      EventHandlerTree.reset h tree id =
        .fail (.err "destination node belongs to a map and has no key") h) ∧
    (id < tree.capacity → tree.is_root id = true → id = tree.root_id →
      (tree.type id = NOTYPE →
        EventHandlerTree.reset h tree id = .ok (placed tree id [] (RUNK ||| RTOP))) ∧
      (tree.type id &&& MAP ≠ 0 →
        EventHandlerTree.reset h tree id =
          .ok (placed tree id [] (with_doc_flag (tree.type id) (RMAP ||| USTY)))) ∧
      (tree.type id &&& MAP = 0 → tree.type id &&& SEQ ≠ 0 →
        EventHandlerTree.reset h tree id =
          .ok (placed tree id [] (with_doc_flag (tree.type id) (RSEQ ||| USTY)))) ∧
      (tree.type id &&& MAP = 0 → tree.type id &&& SEQ = 0 → tree.type id &&& KEY ≠ 0 →
        EventHandlerTree.reset h tree id =
          .ok (placed tree id [] (with_doc_flag (tree.type id) USTY))) ∧
      (tree.type id ≠ NOTYPE → tree.type id &&& MAP = 0 → tree.type id &&& SEQ = 0 →
        tree.type id &&& KEY = 0 →
        EventHandlerTree.reset h tree id =
          .fail (.err "cannot append to node") (placed tree id [] 0))) ∧
    (id < tree.capacity → ∀ p, tree.parent id = some p →
      (tree.is_map p = true → tree.has_key id = true) →
      (∀ e stp, _reset_parser_state tree {} id p = .error (e, stp) →
        EventHandlerTree.reset h tree id =
          .fail e { m_curr := {}, m_lower := [stp], m_tree := tree, m_id := id }) ∧
      (∀ stp, _reset_parser_state tree {} id p = .ok stp →
        (tree.type id = NOTYPE →
          EventHandlerTree.reset h tree id = .ok (placed tree id [stp] USTY)) ∧
        (tree.type id &&& MAP ≠ 0 →
          EventHandlerTree.reset h tree id =
            .ok (placed tree id [stp] (with_doc_flag (tree.type id) (RMAP ||| USTY)))) ∧
        (tree.type id &&& MAP = 0 → tree.type id &&& SEQ ≠ 0 →
          EventHandlerTree.reset h tree id =
            .ok (placed tree id [stp] (with_doc_flag (tree.type id) (RSEQ ||| USTY)))) ∧
        (tree.type id &&& MAP = 0 → tree.type id &&& SEQ = 0 → tree.type id &&& KEY ≠ 0 →
          EventHandlerTree.reset h tree id =
            .ok (placed tree id [stp] (with_doc_flag (tree.type id) USTY))) ∧
        (tree.type id ≠ NOTYPE → tree.type id &&& MAP = 0 → tree.type id &&& SEQ = 0 →
          tree.type id &&& KEY = 0 →
          EventHandlerTree.reset h tree id =
            .fail (.err "cannot append to node") (placed tree id [stp] 0)))) := by
  have hz : ∀ f : Nat, ({} : ParserState).flags ||| f = f := fun f => Nat.zero_or f
  refine ⟨fun st parse_root node => reset_parser_state_cases tree st parse_root node,
    reset_beyond_capacity h tree id, fun hcap p hp hm hk => reset_keyless_in_map h tree id p hcap hp hm hk,
    ?_, ?_⟩
  · intro hcap hroot hid
    have hr := reset_root h tree id hcap hroot
    rw [← hid] at hr
    obtain ⟨c1, -, c3, c4, c5, c6⟩ := reset_parser_state_cases tree {} id id
    refine ⟨fun a => ?_, fun a => ?_, fun a b => ?_, fun a b c => ?_, fun a b c d => ?_⟩
    · rw [hr, c1 a hroot, hz]; rfl
    · rw [hr, c3 a, hz]; rfl
    · rw [hr, c4 a b, hz]; rfl
    · rw [hr, c5 a b c, hz]; rfl
    · rw [hr, c6 a b c d]; rfl
  · intro hcap p hp hk
    have hr := reset_child h tree id p hcap hp hk
    have hroot : tree.is_root id = false := by simp [is_root, hp]
    refine ⟨fun e stp hstp => ?_, fun stp hstp => ?_⟩
    · rw [hr, hstp]
    · rw [hstp] at hr
      obtain ⟨-, c2, c3, c4, c5, c6⟩ := reset_parser_state_cases tree {} id id
      refine ⟨fun a => ?_, fun a => ?_, fun a b => ?_, fun a b c => ?_, fun a b c d => ?_⟩
      · rw [hr, c2 a hroot, hz]; rfl
      · rw [hr, c3 a, hz]; rfl
      · rw [hr, c4 a b, hz]; rfl
      · rw [hr, c5 a b c, hz]; rfl
      · rw [hr, c6 a b c d]; rfl

/-- Witness of C15: the untyped root of the empty tree gets `RUNK|RTOP`; a root that is a
document holding a map gets `RMAP|USTY|RDOC`; a root that is a scalar value is refused with
"cannot append to node", the frame positioned on it; the untyped child of a sequence root
gets `USTY`, over the frame of the root with `RSEQ|USTY`; the keyless child of a map root is
refused with "destination node belongs to a map and has no key"; a node beyond the
capacity fails the check. -/
theorem c15_reset_flags_witness :
    EventHandlerTree.reset {} Tree.empty 0 = .ok (placed Tree.empty 0 [] (RUNK ||| RTOP)) ∧
    EventHandlerTree.reset {} Tree.doc_map 0 =
      .ok (placed Tree.doc_map 0 [] (RMAP ||| USTY ||| RDOC)) ∧
    EventHandlerTree.reset {} Tree.scalar_root 0 =
      .fail (.err "cannot append to node") (placed Tree.scalar_root 0 [] 0) ∧
    EventHandlerTree.reset {} Tree.seq_with_child 1 =
      .ok (placed Tree.seq_with_child 1 [{ flags := RSEQ ||| USTY, node_id := 0 }] USTY) ∧
    EventHandlerTree.reset {} Tree.map_with_keyless_child 1 =
      .fail (.err "destination node belongs to a map and has no key") {} ∧
    EventHandlerTree.reset {} Tree.empty 16 = .fail .check {} :=
  ⟨((c15_reset_flags {} Tree.empty 0).2.2.2.1 (by decide) (by decide) (by decide)).1 (by decide),
   (((c15_reset_flags {} Tree.doc_map 0).2.2.2.1 (by decide) (by decide) (by decide)).2.1
      (by decide)).trans (by decide),
   ((c15_reset_flags {} Tree.scalar_root 0).2.2.2.1 (by decide) (by decide) (by decide)).2.2.2.2
      (by decide) (by decide) (by decide) (by decide),
   (((c15_reset_flags {} Tree.seq_with_child 1).2.2.2.2 (by decide) 0 (by decide) (by decide)).2
      { flags := RSEQ ||| USTY, node_id := 0 } rfl).1 (by decide),
   (c15_reset_flags {} Tree.map_with_keyless_child 1).2.2.1 (by decide) 0 (by decide) (by decide)
      (by decide),
   (c15_reset_flags {} Tree.empty 16).2.1 (by decide)⟩

end EventHandlerTree

/-! ### Flow key disambiguation: containers -/

namespace EventHandlerTree
open Tree

/-- A map or a sequence is a container. -/
theorem is_container_of_map_or_seq (t : Tree) (i : Nat)
    (hc : t.is_map i = true ∨ t.is_seq i = true) : t.is_container i = true := by
  simp only [is_map, is_seq, is_container, decide_eq_true_eq] at hc ⊢
  rw [Nat.and_comm]
  rcases hc with hm | hs
  · exact or_and_ne_zero_of_left (by rw [Nat.and_comm]; exact hm)
  · exact or_and_ne_zero_of_right (by rw [Nat.and_comm]; exact hs)

/-- C16 (flow key disambiguation rejects containers): in every state whose current node is
a map or a sequence, `actually_val_is_first_key_of_new_map_flow` raises the fatal error
"ryml trees cannot handle containers as keys", and the state in which the error is raised
is the state the call started from: no type bit has been cleared, no node appended and no
frame pushed. -/
theorem c16_flow_key_rejects_container (h : EventHandlerTree)
    (hc : h.m_tree.is_map h.m_curr.node_id = true ∨ h.m_tree.is_seq h.m_curr.node_id = true) :
    h.actually_val_is_first_key_of_new_map_flow = .fail (.err containers_as_keys) h ∧
    containers_as_keys = "ryml trees cannot handle containers as keys" := by
  refine ⟨?_, rfl⟩
  unfold actually_val_is_first_key_of_new_map_flow
  simp only [is_container_of_map_or_seq _ _ hc, if_true]

/-- Witness of C16: on a root that is an empty flow map, and on the first child of a flow
sequence once a block sequence has been opened and closed on it, the event fails and the
state is unchanged. -/
theorem c16_flow_key_rejects_container_witness :
    (on_empty_map.m_tree.is_map on_empty_map.m_curr.node_id = true ∧
      on_empty_map.actually_val_is_first_key_of_new_map_flow =
        .fail (.err containers_as_keys) on_empty_map) ∧
    (on_nested_seq.m_tree.is_seq on_nested_seq.m_curr.node_id = true ∧
      on_nested_seq.m_lower ≠ [] ∧
      on_nested_seq.actually_val_is_first_key_of_new_map_flow =
        .fail (.err containers_as_keys) on_nested_seq) :=
  ⟨⟨by decide, (c16_flow_key_rejects_container on_empty_map (Or.inl (by decide))).1⟩,
   ⟨by decide, by decide, (c16_flow_key_rejects_container on_nested_seq (Or.inr (by decide))).1⟩⟩

end EventHandlerTree

/-! ### Explicit document start on an empty root -/

namespace EventHandlerTree
open Tree

/-- C18 (explicit document start on an empty root, the "tweak" path): the reset of a
handler, whatever its former state, onto the empty tree (a single root without type and
without children) returns the state `start`,
and `begin_doc_expl` issued there raises no error and returns the state `doc_tweaked`.
Its tree has exactly two nodes: the root, whose type is the stream type and whose children
are node 1 alone, and node 1, whose type is exactly the document bit and whose parent is
the root. The current frame is positioned on node 1, the level stack has depth two with
the root frame below, no node is left without type, and node 1 is the only document
node. -/
theorem c18_explicit_doc_on_empty_root (h0 : EventHandlerTree) :
    EventHandlerTree.reset h0 Tree.empty 0 = .ok start ∧
    (start.m_tree.size = 1 ∧ start.m_tree.type 0 = NOTYPE ∧ start.m_tree.has_children 0 = false) ∧
    start.begin_doc_expl = .ok doc_tweaked ∧
    doc_tweaked.m_tree.size = 2 ∧
    (doc_tweaked.m_tree.type 0 = STREAM ∧ doc_tweaked.m_tree.is_stream 0 = true) ∧
    doc_tweaked.m_tree.children 0 = [1] ∧
    (doc_tweaked.m_tree.type 1 = DOC ∧ doc_tweaked.m_tree.parent 1 = some 0 ∧
      doc_tweaked.m_tree.has_children 1 = false) ∧
    doc_tweaked.m_curr.node_id = 1 ∧
    (doc_tweaked.depth = 2 ∧ doc_tweaked.m_lower = [root_frame] ∧ root_frame.node_id = 0) ∧
    (∀ j, j < doc_tweaked.m_tree.size → doc_tweaked.m_tree.type j ≠ NOTYPE) ∧
    (List.range doc_tweaked.m_tree.size).filter (fun j => doc_tweaked.m_tree.is_doc j) = [1] := by
  refine ⟨(reset_root h0 Tree.empty 0 (by decide) (by decide)).trans rfl, by decide, by decide, by decide, by decide, by decide, by decide, by decide,
    by decide, by decide, by decide⟩

end EventHandlerTree

/-! ### Document end and scope close: speculative removal and pop -/

namespace Tree

/-- The nodes that stay when the tail-most node `i` is removed: every field is as before except
the links that pointed to `i`, which take over the links of `i`. -/
theorem get_remove_tail_links (t : Tree) (i : Nat) (hi : i + 1 = t.size) (j : Nat) (hj : j < i) :
    (t.remove i).get j =
      { t.get j with
        m_next_sibling :=
          if t.prev_sibling i = some j then t.next_sibling i else (t.get j).m_next_sibling,
        m_prev_sibling :=
          if t.next_sibling i = some j then t.prev_sibling i else (t.get j).m_prev_sibling,
        m_first_child :=
          if t.parent i = some j ∧ (t.get j).m_first_child = some i then t.next_sibling i
          else (t.get j).m_first_child,
        m_last_child :=
          if t.parent i = some j ∧ (t.get j).m_last_child = some i then t.prev_sibling i
          else (t.get j).m_last_child } := by
  rw [get_remove_tail t i hi j]
  simp only [hj, if_true, Tree.prev_sibling, Tree.next_sibling, Tree.parent]
  by_cases h1 : (t.get i).m_prev_sibling = some j <;>
  by_cases h2 : (t.get i).m_next_sibling = some j <;>
  by_cases h3 : (t.get i).m_parent = some j <;>
  simp only [h1, h2, h3, if_true, if_false, true_and, false_and]

end Tree

namespace EventHandlerTree
open Tree

/-- A tail-most node with a parent is a live node. -/
theorem size_ne_zero_of_has_parent (t : Tree) (hpar : t.has_parent (t.size - 1) = true) :
    t.size ≠ 0 := by
  intro h0
  have : t.get (t.size - 1) = {} := get_of_size_le _ _ (by omega)
  simp [Tree.has_parent, Tree.parent, this] at hpar

/-- Source `_pop` on a stack with a frame below the top and a tree whose tail-most node has a
parent: the tail-most node is removed when it has no type, and the top frame is removed. -/
theorem pop_eq (h : EventHandlerTree) (p : ParserState) (rest : List ParserState)
    (hlower : h.m_lower = p :: rest)
    (hpar : h.m_tree.has_parent (h.m_tree.size - 1) = true) :
    h._pop = .ok
      { h with m_curr := p, m_lower := rest,
               m_tree := if h.m_tree.type (h.m_tree.size - 1) = NOTYPE
                         then h.m_tree.remove (h.m_tree.size - 1) else h.m_tree } := by
  have hpos : h.m_tree.size ≠ 0 := size_ne_zero_of_has_parent _ hpar
  unfold _pop _remove_speculative_with_parent
  simp only [hpos, if_false, hpar, Bool.not_true, Bool.false_eq_true]
  by_cases hty : h.m_tree.type (h.m_tree.size - 1) = NOTYPE
  · simp only [hty, if_true, Outcome.andThen, _stack_pop, hlower]
  · simp only [hty, if_false, Outcome.andThen, _stack_pop, hlower]

/-- Source `_remove_speculative_with_parent` changes nothing when the tail-most node has a parent
and a type. -/
theorem remove_speculative_with_parent_typed (h : EventHandlerTree)
    (hpar : h.m_tree.has_parent (h.m_tree.size - 1) = true)
    (hty : h.m_tree.type (h.m_tree.size - 1) ≠ NOTYPE) :
    h._remove_speculative_with_parent = .ok h := by
  unfold _remove_speculative_with_parent
  simp only [size_ne_zero_of_has_parent _ hpar, if_false, hpar, Bool.not_true,
    Bool.false_eq_true, hty]

/-- Source `_remove_speculative` on a tree that is not empty. -/
theorem remove_speculative_eq (h : EventHandlerTree) (hpos : 0 < h.m_tree.size) :
    h._remove_speculative = .ok
      { h with m_tree :=
          if h.m_tree.has_parent (h.m_tree.size - 1) = true ∧
              h.m_tree.type (h.m_tree.size - 1) = NOTYPE
          then h.m_tree.remove (h.m_tree.size - 1) else h.m_tree } := by
  have h0 : h.m_tree.size ≠ 0 := by omega
  unfold _remove_speculative
  simp only [h0, if_false, Bool.and_eq_true, decide_eq_true_eq]
  split_ifs <;> rfl

/-- After the speculative removal, on a tree in which only the tail-most node may be untyped,
a tail-most node that has a parent has a type. -/
theorem tail_typed_after_removal (t : Tree) (htyped : t.typed_but_tail)
    (hpar : (if t.has_parent (t.size - 1) = true ∧ t.type (t.size - 1) = NOTYPE
              then t.remove (t.size - 1) else t).has_parent
            ((if t.has_parent (t.size - 1) = true ∧ t.type (t.size - 1) = NOTYPE
              then t.remove (t.size - 1) else t).size - 1) = true) :
    (if t.has_parent (t.size - 1) = true ∧ t.type (t.size - 1) = NOTYPE
      then t.remove (t.size - 1) else t).type
        ((if t.has_parent (t.size - 1) = true ∧ t.type (t.size - 1) = NOTYPE
          then t.remove (t.size - 1) else t).size - 1) ≠ NOTYPE := by
  by_cases hdel : t.has_parent (t.size - 1) = true ∧ t.type (t.size - 1) = NOTYPE
  · simp only [hdel, and_self, if_true] at hpar ⊢
    have hone : t.size - 1 + 1 = t.size := by
      have := size_ne_zero_of_has_parent t hdel.1; omega
    have hsz := size_remove_tail t _ hone
    have h1 := size_ne_zero_of_has_parent _ hpar
    rw [hsz] at h1 ⊢
    rw [type_remove_tail t _ hone _ (by omega)]
    exact htyped _ (by omega)
  · simp only [hdel, if_false] at hpar ⊢
    intro hty
    exact hdel ⟨hpar, hty⟩

/-- C19, counterexample: after `begin_seq_val_flow` on the reset state the tail-most node is
the untyped child of the root; `end_doc_expl`, the pop not being decided, deletes it, and
the root, another node, does not stay as it was: its first-child and last-child links,
which pointed to the deleted node, are cleared. -/
theorem c19_links_rewired_counterexample :
    start.begin_seq_val_flow = .ok in_flow_seq ∧
    in_flow_seq.m_tree.has_parent (in_flow_seq.m_tree.size - 1) = true ∧
    in_flow_seq.m_tree.type (in_flow_seq.m_tree.size - 1) = NOTYPE ∧
    (in_flow_seq.m_tree.first_child 0 = some 1 ∧ in_flow_seq.m_tree.last_child 0 = some 1) ∧
    ∃ h2, in_flow_seq.end_doc_expl Env.plain = .ok h2 ∧ h2.m_tree.size = 1 ∧
      h2.m_tree.first_child 0 = none ∧ h2.m_tree.last_child 0 = none ∧
      h2.m_tree.get 0 ≠ in_flow_seq.m_tree.get 0 :=
  ⟨by decide, by decide, by decide, by decide,
    (in_flow_seq.end_doc_expl Env.plain).state, by decide, by decide, by decide, by decide,
    by decide⟩

/-- C19 (`end_doc_expl` always runs speculative removal), amended: in every state whose tree
is not empty, in which every node other than the tail-most one has a type, and in which
the pop is decided only when there is a level to pop (a frame below the current one, the
tail-most node left by the speculative removal having a parent), `end_doc_expl` raises no
error. When the tail-most node has a parent and its type is `NOTYPE` that node is deleted
(one node less), whether or not the pop is decided; every other node keeps its type, key,
value, tags, anchors and parent, and the only links written are those that pointed to the
deleted node, which take over its own links. Otherwise (the tail-most node is the root or
has a type bit) the tree is unchanged: the root and a node with a type bit are never
deleted. The should-pop decision is taken on the state the speculative removal leaves: when
it holds exactly the top frame is removed, and when it does not hold the frames are
unchanged. -/
theorem c19_end_doc_expl (env : Env) (h : EventHandlerTree)
    (hpos : 0 < h.m_tree.size)
    (htyped : h.m_tree.typed_but_tail)
    (hdec : env._stack_should_pop_on_end_doc (h._remove_speculative).state = true →
      h.m_lower ≠ [] ∧
      (h._remove_speculative).state.m_tree.has_parent
        ((h._remove_speculative).state.m_tree.size - 1) = true) :
    ∃ h2, h.end_doc_expl env = .ok h2 ∧
      (h.m_tree.has_parent (h.m_tree.size - 1) = true →
        h.m_tree.type (h.m_tree.size - 1) = NOTYPE →
        h2.m_tree.size + 1 = h.m_tree.size ∧
        ∀ j, j + 1 < h.m_tree.size →
          h2.m_tree.get j =
            { h.m_tree.get j with
              m_next_sibling :=
                if h.m_tree.prev_sibling (h.m_tree.size - 1) = some j
                then h.m_tree.next_sibling (h.m_tree.size - 1)
                else (h.m_tree.get j).m_next_sibling,
              m_prev_sibling :=
                if h.m_tree.next_sibling (h.m_tree.size - 1) = some j
                then h.m_tree.prev_sibling (h.m_tree.size - 1)
                else (h.m_tree.get j).m_prev_sibling,
              m_first_child :=
                if h.m_tree.parent (h.m_tree.size - 1) = some j ∧
                    (h.m_tree.get j).m_first_child = some (h.m_tree.size - 1)
                then h.m_tree.next_sibling (h.m_tree.size - 1)
                else (h.m_tree.get j).m_first_child,
              m_last_child :=
                if h.m_tree.parent (h.m_tree.size - 1) = some j ∧
                    (h.m_tree.get j).m_last_child = some (h.m_tree.size - 1)
                then h.m_tree.prev_sibling (h.m_tree.size - 1)
                else (h.m_tree.get j).m_last_child }) ∧
      (¬ (h.m_tree.has_parent (h.m_tree.size - 1) = true ∧
          h.m_tree.type (h.m_tree.size - 1) = NOTYPE) → h2.m_tree = h.m_tree) ∧
      (env._stack_should_pop_on_end_doc (h._remove_speculative).state = true →
        h.m_lower = h2.m_curr :: h2.m_lower ∧ h2.depth + 1 = h.depth) ∧
      (env._stack_should_pop_on_end_doc (h._remove_speculative).state = false →
        h2.m_curr = h.m_curr ∧ h2.m_lower = h.m_lower) := by
  have hone : h.m_tree.size - 1 + 1 = h.m_tree.size := by omega
  have hrs := remove_speculative_eq h hpos
  have hexpl : h.end_doc_expl env =
      (h._remove_speculative).andThen (fun h1 =>
        if env._stack_should_pop_on_end_doc h1 then h1._pop else .ok h1) := rfl
  have htail := tail_typed_after_removal h.m_tree htyped
  obtain ⟨t1, ht1⟩ : ∃ t1 : Tree, t1 =
      (if h.m_tree.has_parent (h.m_tree.size - 1) = true ∧
          h.m_tree.type (h.m_tree.size - 1) = NOTYPE
        then h.m_tree.remove (h.m_tree.size - 1) else h.m_tree) := ⟨_, rfl⟩
  rw [← ht1] at hrs htail
  rw [hrs] at hdec
  rw [hexpl, hrs]
  simp only [Outcome.andThen, Outcome.state] at hdec ⊢
  have hdel : h.m_tree.has_parent (h.m_tree.size - 1) = true →
      h.m_tree.type (h.m_tree.size - 1) = NOTYPE →
      t1.size + 1 = h.m_tree.size ∧
      ∀ j, j + 1 < h.m_tree.size →
        t1.get j =
          { h.m_tree.get j with
            m_next_sibling :=
              if h.m_tree.prev_sibling (h.m_tree.size - 1) = some j
              then h.m_tree.next_sibling (h.m_tree.size - 1)
              else (h.m_tree.get j).m_next_sibling,
            m_prev_sibling :=
              if h.m_tree.next_sibling (h.m_tree.size - 1) = some j
              then h.m_tree.prev_sibling (h.m_tree.size - 1)
              else (h.m_tree.get j).m_prev_sibling,
            m_first_child :=
              if h.m_tree.parent (h.m_tree.size - 1) = some j ∧
                  (h.m_tree.get j).m_first_child = some (h.m_tree.size - 1)
              then h.m_tree.next_sibling (h.m_tree.size - 1)
              else (h.m_tree.get j).m_first_child,
            m_last_child :=
              if h.m_tree.parent (h.m_tree.size - 1) = some j ∧
                  (h.m_tree.get j).m_last_child = some (h.m_tree.size - 1)
              then h.m_tree.prev_sibling (h.m_tree.size - 1)
              else (h.m_tree.get j).m_last_child } := by
    intro hp hty
    rw [ht1]
    simp only [hp, hty, and_self, if_true]
    exact ⟨by rw [size_remove_tail _ _ hone]; exact hone,
      fun j hj => get_remove_tail_links _ _ hone j (by omega)⟩
  have hkeep : ¬ (h.m_tree.has_parent (h.m_tree.size - 1) = true ∧
      h.m_tree.type (h.m_tree.size - 1) = NOTYPE) → t1 = h.m_tree := by
    intro hnd
    rw [ht1]
    simp only [hnd, if_false]
  cases hpop : env._stack_should_pop_on_end_doc { h with m_tree := t1 } with
  | false =>
    simp only [Bool.false_eq_true, if_false]
    exact ⟨_, rfl, hdel, hkeep, (fun hx => by cases hx), fun _ => ⟨rfl, rfl⟩⟩
  | true =>
    simp only [if_true]
    obtain ⟨hne, hpar⟩ := hdec hpop
    obtain ⟨p, rest, hl⟩ : ∃ p rest, h.m_lower = p :: rest := by
      cases hx : h.m_lower with
      | nil => exact absurd hx hne
      | cons p rest => exact ⟨p, rest, rfl⟩
    have hty := htail hpar
    have hp : _pop { h with m_tree := t1 } =
        .ok { h with m_curr := p, m_lower := rest, m_tree := t1 } := by
      unfold _pop
      rw [remove_speculative_with_parent_typed _ hpar hty]
      simp only [Outcome.andThen, _stack_pop, hl]
    refine ⟨_, hp, hdel, hkeep, fun _ => ⟨hl, ?_⟩, fun hx => by cases hx⟩
    simp only [depth, hl, List.length_cons]

/-- Witness of C19: on the untyped first child of a flow sequence, the pop not decided,
`end_doc_expl` deletes the child and keeps the frames; on the document child of a stream
root, the pop decided, it deletes nothing and removes the top frame. -/
theorem c19_end_doc_expl_witness :
    (∃ h2, in_flow_seq.end_doc_expl Env.plain = .ok h2 ∧ h2.m_tree.size + 1 = 2 ∧
      h2.m_curr = in_flow_seq.m_curr ∧ h2.m_lower = in_flow_seq.m_lower ∧
      h2.m_tree.get 0 = { m_type := SEQ ||| FLOW_SL }) ∧
    (∃ h2, doc_tweaked.end_doc_expl (Env.deciding false true) = .ok h2 ∧
      h2.m_tree = doc_tweaked.m_tree ∧ doc_tweaked.m_lower = h2.m_curr :: h2.m_lower ∧
      h2.depth + 1 = doc_tweaked.depth) := by
  constructor
  · have htyped : in_flow_seq.m_tree.typed_but_tail := by
      intro j hj
      have h2 : in_flow_seq.m_tree.size = 2 := by decide
      have h0 : j = 0 := by omega
      subst h0
      decide
    obtain ⟨h2, hs, hdel, -, -, hno⟩ :=
      c19_end_doc_expl Env.plain in_flow_seq (by decide) htyped (fun hx => Bool.noConfusion hx)
    have hd := hdel (by decide) (by decide)
    exact ⟨h2, hs, hd.1, (hno rfl).1, (hno rfl).2, (hd.2 0 (by decide)).trans (by decide)⟩
  · have htyped : doc_tweaked.m_tree.typed_but_tail := by
      intro j hj
      have h2 : doc_tweaked.m_tree.size = 2 := by decide
      have h0 : j = 0 := by omega
      subst h0
      decide
    obtain ⟨h2, hs, -, hkeep, hpop, -⟩ :=
      c19_end_doc_expl (Env.deciding false true) doc_tweaked (by decide) htyped
        (fun _ => ⟨by decide, by decide⟩)
    exact ⟨h2, hs, hkeep (by decide), (hpop rfl).1, (hpop rfl).2⟩

/-- C20, counterexample: after `begin_seq_val_flow` on the reset state (two frames, the
tail-most node untyped with the root as parent), `end_seq` deletes the tail-most node and
the root, another node, does not stay as it was: its first-child and last-child links,
which pointed to the deleted node, are cleared. -/
theorem c20_links_rewired_counterexample :
    start.begin_seq_val_flow = .ok in_flow_seq ∧
    in_flow_seq.depth = 2 ∧
    in_flow_seq.m_tree.has_parent (in_flow_seq.m_tree.size - 1) = true ∧
    in_flow_seq.m_tree.type (in_flow_seq.m_tree.size - 1) = NOTYPE ∧
    (in_flow_seq.m_tree.first_child 0 = some 1 ∧ in_flow_seq.m_tree.last_child 0 = some 1) ∧
    ∃ h2, in_flow_seq.end_seq = .ok h2 ∧ h2.m_tree.size = 1 ∧
      h2.m_tree.first_child 0 = none ∧ h2.m_tree.last_child 0 = none ∧
      h2.m_tree.get 0 ≠ in_flow_seq.m_tree.get 0 :=
  ⟨by decide, by decide, by decide, by decide, by decide,
    in_flow_seq.end_seq.state, by decide, by decide, by decide, by decide, by decide⟩

/-- C20 (scope close never discards committed content), amended: in every state with a frame
below the current one and whose tail-most node has a parent, `end_map` and `end_seq` return
normally, both with the same state: the frame that was below is the current frame and the
frames below it are what remains (one frame less). When the type of the tail-most node is
not `NOTYPE` the tree is unchanged: a node with a type bit is never deleted. When it is
`NOTYPE` that node is deleted (one node less) and every other node keeps its type, key,
value, tags, anchors and parent; the only links written are those that pointed to the
deleted node (the next-sibling link of its previous sibling, the previous-sibling link of
its next sibling, the first-child and last-child links of its parent), which take over the
links of the deleted node. -/
theorem c20_scope_close (env : Env) (h : EventHandlerTree) (p : ParserState)
    (rest : List ParserState)
    (hlower : h.m_lower = p :: rest)
    (hpar : h.m_tree.has_parent (h.m_tree.size - 1) = true) :
    ∃ h2, h.step env .end_map = .ok h2 ∧ h.step env .end_seq = .ok h2 ∧
      h2.m_curr = p ∧ h2.m_lower = rest ∧ h2.depth + 1 = h.depth ∧
      (h.m_tree.type (h.m_tree.size - 1) ≠ NOTYPE → h2.m_tree = h.m_tree) ∧
      (h.m_tree.type (h.m_tree.size - 1) = NOTYPE →
        h2.m_tree.size + 1 = h.m_tree.size ∧
        ∀ j, j + 1 < h.m_tree.size →
          h2.m_tree.get j =
            { h.m_tree.get j with
              m_next_sibling :=
                if h.m_tree.prev_sibling (h.m_tree.size - 1) = some j
                then h.m_tree.next_sibling (h.m_tree.size - 1)
                else (h.m_tree.get j).m_next_sibling,
              m_prev_sibling :=
                if h.m_tree.next_sibling (h.m_tree.size - 1) = some j
                then h.m_tree.prev_sibling (h.m_tree.size - 1)
                else (h.m_tree.get j).m_prev_sibling,
              m_first_child :=
                if h.m_tree.parent (h.m_tree.size - 1) = some j ∧
                    (h.m_tree.get j).m_first_child = some (h.m_tree.size - 1)
                then h.m_tree.next_sibling (h.m_tree.size - 1)
                else (h.m_tree.get j).m_first_child,
              m_last_child :=
                if h.m_tree.parent (h.m_tree.size - 1) = some j ∧
                    (h.m_tree.get j).m_last_child = some (h.m_tree.size - 1)
                then h.m_tree.prev_sibling (h.m_tree.size - 1)
                else (h.m_tree.get j).m_last_child }) := by
  have hpos : h.m_tree.size ≠ 0 := size_ne_zero_of_has_parent _ hpar
  have hone : h.m_tree.size - 1 + 1 = h.m_tree.size := by omega
  refine ⟨_, pop_eq h p rest hlower hpar, pop_eq h p rest hlower hpar, rfl, rfl, ?_, ?_, ?_⟩
  · simp only [depth, hlower, List.length_cons]
  · intro hty
    simp only [hty, if_false]
  · intro hty
    simp only [hty, if_true]
    refine ⟨?_, fun j hj => ?_⟩
    · rw [size_remove_tail _ _ hone]; exact hone
    · exact get_remove_tail_links _ _ hone j (by omega)

/-- Witness of C20: on the untyped first child of a flow sequence `end_seq` removes the top
frame, deletes the child and leaves the root a childless flow sequence; once the child
holds a plain scalar, `end_seq` removes the top frame and leaves the tree as it is. -/
theorem c20_scope_close_witness :
    (in_flow_seq.m_lower = [root_frame] ∧
      in_flow_seq.m_tree.has_parent (in_flow_seq.m_tree.size - 1) = true ∧
      in_flow_seq.m_tree.type (in_flow_seq.m_tree.size - 1) = NOTYPE ∧
      ∃ h2, in_flow_seq.step Env.plain .end_seq = .ok h2 ∧ h2.m_curr = root_frame ∧
        h2.m_lower = [] ∧ h2.m_tree.size + 1 = in_flow_seq.m_tree.size ∧
        h2.m_tree.get 0 = { m_type := SEQ ||| FLOW_SL }) ∧
    ((in_flow_seq_val { str := 100, len := 1 }).m_tree.type
        ((in_flow_seq_val { str := 100, len := 1 }).m_tree.size - 1) ≠ NOTYPE ∧
      ∃ h2, (in_flow_seq_val { str := 100, len := 1 }).step Env.plain .end_seq = .ok h2 ∧
        h2.m_curr = root_frame ∧
        h2.m_tree = (in_flow_seq_val { str := 100, len := 1 }).m_tree) := by
  constructor
  · obtain ⟨h2, -, hs, hc, hl, -, -, hdel⟩ :=
      c20_scope_close Env.plain in_flow_seq root_frame [] (by decide) (by decide)
    exact ⟨by decide, by decide, by decide, h2, hs, hc, hl, (hdel (by decide)).1,
      ((hdel (by decide)).2 0 (by decide)).trans (by decide)⟩
  · obtain ⟨h2, -, hs, hc, -, -, hkeep, -⟩ :=
      c20_scope_close Env.plain (in_flow_seq_val { str := 100, len := 1 }) root_frame []
        (by decide) (by decide)
    exact ⟨by decide, h2, hs, hc, hkeep (by decide)⟩

end EventHandlerTree

/-! ### Scalar setters -/

/-- A word to which two sets of bits were added has the first set. -/
theorem or_or_and_left (T p s : Nat) : (T ||| (p ||| s)) &&& p = p := by
  apply Nat.eq_of_testBit_eq
  intro i
  simp only [Nat.testBit_and, Nat.testBit_or]
  cases T.testBit i <;> cases p.testBit i <;> cases s.testBit i <;> rfl

/-- A word to which two sets of bits were added has the second set. -/
theorem or_or_and_right (T p s : Nat) : (T ||| (p ||| s)) &&& s = s := by
  apply Nat.eq_of_testBit_eq
  intro i
  simp only [Nat.testBit_and, Nat.testBit_or]
  cases T.testBit i <;> cases p.testBit i <;> cases s.testBit i <;> rfl

/-- Adding bits to a word keeps the bits it had. -/
theorem or_and_self_left (T b : Nat) : (T ||| b) &&& T = T := by
  apply Nat.eq_of_testBit_eq
  intro i
  simp only [Nat.testBit_and, Nat.testBit_or]
  cases T.testBit i <;> cases b.testBit i <;> rfl

namespace EventHandlerTree
open Tree

/-- Each of the ten scalar setters writes the key or the value of the current node and then
enables its presence bit and its style bit. -/
theorem step_scalar_setter (env : Env) (h : EventHandlerTree) (e : Event) (key : Bool)
    (pres style : Nat) (s : csubstr) (he : e.scalar_setter = some (key, pres, style, s)) :
    h.step env e = .ok (_enable__ (pres ||| style) (if key then h.set_key s else h.set_val s)) := by
  cases e <;> first
    | exact Option.noConfusion he
    | (simp only [Event.scalar_setter, Option.some.injEq, Prod.mk.injEq] at he
       obtain ⟨rfl, rfl, rfl, rfl⟩ := he
       rfl)

/-- C22 (scalar setters write one field and one flag pair): for each of the ten scalar
setters (`Event.scalar_setter` lists them with their side, presence bit and style bit),
every string `s` and every state whose current node is live, the setter returns normally;
the current node is as before except that its key (for a key setter) or its value (for a
value setter) is `s` and that the presence bit and the style bit are added to its type: both
are set afterwards and every bit the type had stays set. The field of the other side, the
tags, the anchors and the links of the node are unchanged, every other node is unchanged,
the number of nodes is unchanged and the frames of the level stack are unchanged. -/
theorem c22_scalar_setters (env : Env) (h : EventHandlerTree) (e : Event) (key : Bool)
    (pres style : Nat) (s : csubstr)
    (he : e.scalar_setter = some (key, pres, style, s))
    (hlive : h.m_curr.node_id < h.m_tree.size) :
    ∃ h1, h.step env e = .ok h1 ∧
      h1.m_curr = h.m_curr ∧ h1.m_lower = h.m_lower ∧ h1.m_tree.size = h.m_tree.size ∧
      h1.m_tree.get h.m_curr.node_id =
        (if key then
          { h.m_tree.get h.m_curr.node_id with
            m_type := h.m_tree.type h.m_curr.node_id ||| (pres ||| style), m_key := s }
         else
          { h.m_tree.get h.m_curr.node_id with
            m_type := h.m_tree.type h.m_curr.node_id ||| (pres ||| style), m_val := s }) ∧
      h1.m_tree.type h.m_curr.node_id &&& pres = pres ∧
      h1.m_tree.type h.m_curr.node_id &&& style = style ∧
      h1.m_tree.type h.m_curr.node_id &&& h.m_tree.type h.m_curr.node_id =
        h.m_tree.type h.m_curr.node_id ∧
      (∀ j, j ≠ h.m_curr.node_id → h1.m_tree.get j = h.m_tree.get j) := by
  have hget : (_enable__ (pres ||| style) (if key then h.set_key s else h.set_val s)).m_tree.get
      h.m_curr.node_id =
        (if key then
          { h.m_tree.get h.m_curr.node_id with
            m_type := h.m_tree.type h.m_curr.node_id ||| (pres ||| style), m_key := s }
         else
          { h.m_tree.get h.m_curr.node_id with
            m_type := h.m_tree.type h.m_curr.node_id ||| (pres ||| style), m_val := s }) := by
    cases key <;>
      simp only [set_key, set_val, _enable__, get_modify, size_modify, hlive, and_self, if_true,
        Tree.type, Bool.false_eq_true, if_false]
  have hty : (_enable__ (pres ||| style) (if key then h.set_key s else h.set_val s)).m_tree.type
      h.m_curr.node_id = h.m_tree.type h.m_curr.node_id ||| (pres ||| style) := by
    show (Tree.get _ _).m_type = _
    rw [hget]
    cases key <;> rfl
  refine ⟨_, step_scalar_setter env h e key pres style s he, ?_, ?_, ?_, hget, ?_, ?_, ?_, ?_⟩
  · cases key <;> rfl
  · cases key <;> rfl
  · cases key <;> simp only [set_key, set_val, _enable__, size_modify, if_true,
      Bool.false_eq_true, if_false]
  · rw [hty]; exact or_or_and_left _ _ _
  · rw [hty]; exact or_or_and_right _ _ _
  · rw [hty]; exact or_and_self_left _ _
  · intro j hj
    cases key <;>
      simp only [set_key, set_val, _enable__, get_modify, size_modify, hj, false_and, if_true,
        Bool.false_eq_true, if_false]

/-- Witness of C22: the ten setters with their sides and bits; `set_key_scalar_dquoted` on a
sequence child holding a plain value adds the key and the key-present and double-quoted-key
bits, the value and the root staying as they were; `set_val_scalar_folded` on the untyped
root of the empty tree gives a folded value. -/
theorem c22_scalar_setters_witness :
    [Event.set_key_scalar_plain {}, .set_val_scalar_plain {}, .set_key_scalar_dquoted {},
      .set_val_scalar_dquoted {}, .set_key_scalar_squoted {}, .set_val_scalar_squoted {},
      .set_key_scalar_literal {}, .set_val_scalar_literal {}, .set_key_scalar_folded {},
      .set_val_scalar_folded {}].map Event.scalar_setter =
      [some (true, KEY, KEY_PLAIN, {}), some (false, VAL, VAL_PLAIN, {}),
       some (true, KEY, KEY_DQUO, {}), some (false, VAL, VAL_DQUO, {}),
       some (true, KEY, KEY_SQUO, {}), some (false, VAL, VAL_SQUO, {}),
       some (true, KEY, KEY_LITERAL, {}), some (false, VAL, VAL_LITERAL, {}),
       some (true, KEY, KEY_FOLDED, {}), some (false, VAL, VAL_FOLDED, {})] ∧
    (∃ h1, (in_flow_seq_val { str := 100, len := 1 }).step Env.plain
        (.set_key_scalar_dquoted { str := 200, len := 2 }) = .ok h1 ∧
      h1.m_curr = (in_flow_seq_val { str := 100, len := 1 }).m_curr ∧
      h1.m_lower = (in_flow_seq_val { str := 100, len := 1 }).m_lower ∧
      h1.m_tree.size = 2 ∧
      h1.m_tree.get 1 =
        { m_type := VAL ||| VAL_PLAIN ||| (KEY ||| KEY_DQUO), m_key := { str := 200, len := 2 },
          m_val := { str := 100, len := 1 }, m_parent := some 0 } ∧
      h1.m_tree.get 0 = (in_flow_seq_val { str := 100, len := 1 }).m_tree.get 0) ∧
    (∃ h1, start.step Env.plain (.set_val_scalar_folded { str := 300, len := 3 }) = .ok h1 ∧
      h1.m_tree.get 0 = { m_type := VAL ||| VAL_FOLDED, m_val := { str := 300, len := 3 } }) := by
  refine ⟨rfl, ?_, ?_⟩
  · obtain ⟨h1, hs, hc, hl, hsz, hg, -, -, -, ho⟩ :=
      c22_scalar_setters Env.plain (in_flow_seq_val { str := 100, len := 1 })
        (.set_key_scalar_dquoted { str := 200, len := 2 }) true KEY KEY_DQUO
        { str := 200, len := 2 } rfl (by decide)
    exact ⟨h1, hs, hc, hl, hsz.trans (by decide), hg.trans (by decide), ho 0 (by decide)⟩
  · obtain ⟨h1, hs, -, -, -, hg, -, -, -, -⟩ :=
      c22_scalar_setters Env.plain start (.set_val_scalar_folded { str := 300, len := 3 })
        false VAL VAL_FOLDED { str := 300, len := 3 } rfl (by decide)
    exact ⟨h1, hs, hg.trans (by decide)⟩

end EventHandlerTree

/-! ### Balanced scopes -/

namespace EventHandlerTree
open Tree

/-- A sequence of two calls that returns normally: both calls return normally. -/
theorem andThen_eq_ok {o : Outcome} {f : EventHandlerTree → Outcome} {h1 : EventHandlerTree}
    (hs : o.andThen f = .ok h1) : ∃ h0, o = .ok h0 ∧ f h0 = .ok h1 := by
  cases o with
  | ok h0 => exact ⟨h0, rfl, hs⟩
  | fail e h0 => exact Outcome.noConfusion hs

/-- Running two event sequences one after the other. -/
theorem run_append (env : Env) (as bs : List Event) (h : EventHandlerTree) :
    h.run env (as ++ bs) = (h.run env as).andThen (fun h1 => h1.run env bs) := by
  induction as generalizing h with
  | nil => rfl
  | cons a as ih =>
    simp only [List.cons_append, run]
    cases h.step env a with
    | ok h0 => exact ih h0
    | fail e h0 => rfl

/-- A setter leaves the frames of the level stack as they are. -/
theorem step_setter_frames (env : Env) (h h1 : EventHandlerTree) (e : Event)
    (he : e.is_setter = true) (hs : h.step env e = .ok h1) :
    h1.m_curr = h.m_curr ∧ h1.m_lower = h.m_lower := by
  have hg : grows h h1 := by
    apply grows_of_setter env h h1 e hs
    cases e <;> trivial
  exact ⟨hg.1, hg.2.1⟩

/-- Source `add_sibling` repositions the current frame and leaves the frames below it as they are. -/
theorem add_sibling_lower (h h1 : EventHandlerTree) (hs : h.add_sibling = .ok h1) :
    h1.m_lower = h.m_lower := by
  unfold add_sibling at hs
  cases hp : h.m_parent with
  | none => rw [hp] at hs; exact Outcome.noConfusion hs
  | some p =>
    rw [hp] at hs
    simp only at hs
    split_ifs at hs
    cases hs
    rfl

/-- Source `_remove_speculative_with_parent` does not touch the frames. -/
theorem remove_speculative_with_parent_frames (h h1 : EventHandlerTree)
    (hs : h._remove_speculative_with_parent = .ok h1) :
    h1.m_curr = h.m_curr ∧ h1.m_lower = h.m_lower := by
  unfold _remove_speculative_with_parent at hs
  by_cases h0 : h.m_tree.size = 0
  · simp only [h0, if_true] at hs; cases hs
  simp only [h0, if_false] at hs
  by_cases hp : h.m_tree.has_parent (h.m_tree.size - 1) = true
  swap
  · simp only [hp, Bool.not_false, if_true] at hs; cases hs
  simp only [hp, Bool.not_true, Bool.false_eq_true, if_false] at hs
  by_cases hty : h.m_tree.type (h.m_tree.size - 1) = NOTYPE
  · simp only [hty, if_true] at hs
    cases hs
    exact ⟨rfl, rfl⟩
  · simp only [hty, if_false] at hs
    cases hs
    exact ⟨rfl, rfl⟩

/-- After `_pop` the current frame is the frame that was right below the top, over the frames
that were below that one. -/
theorem pop_frames (h h1 : EventHandlerTree) (hs : h._pop = .ok h1) :
    h.m_lower = h1.m_curr :: h1.m_lower := by
  unfold _pop at hs
  obtain ⟨h0, h0s, hp⟩ := andThen_eq_ok hs
  obtain ⟨-, hl⟩ := remove_speculative_with_parent_frames h h0 h0s
  unfold _stack_pop at hp
  rw [← hl]
  cases hl0 : h0.m_lower with
  | nil => rw [hl0] at hp; exact Outcome.noConfusion hp
  | cons p rest =>
    rw [hl0] at hp
    cases hp
    rfl

/-- A value-opening event puts the former current frame on top of the frames below. -/
theorem step_opens_frames (env : Env) (h h1 : EventHandlerTree) (e : Event)
    (he : e.opens_value = true) (hs : h.step env e = .ok h1) :
    h1.m_lower = h.m_curr :: h.m_lower := by
  rw [step_opens_value env h e he] at hs
  split_ifs at hs
  cases hs
  exact opened_lower _ _

/-- A properly nested sequence that raises no error leaves the frames below the current one as
they were. -/
theorem nested_keeps_lower (env : Env) {body : List Event} (hb : Nested body) :
    ∀ h h1 : EventHandlerTree, h.run env body = .ok h1 → h1.m_lower = h.m_lower := by
  induction hb with
  | nil => intro h h1 hs; cases hs; rfl
  | setter e es he _ ih =>
    intro h h1 hs
    obtain ⟨h0, h0s, hr⟩ := andThen_eq_ok hs
    rw [ih h0 h1 hr]
    exact (step_setter_frames env h h0 e he h0s).2
  | sibling es _ ih =>
    intro h h1 hs
    obtain ⟨h0, h0s, hr⟩ := andThen_eq_ok hs
    rw [ih h0 h1 hr]
    exact add_sibling_lower h h0 h0s
  | scope e body es he _ _ ihb ihe =>
    intro h h1 hs
    obtain ⟨h0, h0s, hr⟩ := andThen_eq_ok hs
    rw [run_append] at hr
    obtain ⟨h2, h2s, hr2⟩ := andThen_eq_ok hr
    obtain ⟨h3, h3s, hr3⟩ := andThen_eq_ok hr2
    rw [step_closing] at h3s
    have hl0 := step_opens_frames env h h0 e he h0s
    have hl2 := ihb h0 h2 h2s
    have hl3 := pop_frames h2 h3 h3s
    rw [ihe h3 h1 hr3]
    rw [hl2, hl0] at hl3
    exact (List.cons.inj hl3).2.symm

/-- C21 (balanced scopes restore the position): for every state and every event sequence made
of a value-opening event, a properly nested sequence (`Nested`: setters, `add_sibling`
events and nested scopes, each closed by its matching end event) and the end event that
matches the opening event, if the sequence raises no error then the depth of the level
stack and the node identifier of the current frame afterwards are those before the
sequence, and the frames below the current one are unchanged. -/
theorem c21_balanced_scope (env : Env) (h h1 : EventHandlerTree) (e : Event) (body : List Event)
    (he : e.opens_value = true) (hb : Nested body)
    (hrun : h.run env (e :: (body ++ [e.closing])) = .ok h1) :
    h1.depth = h.depth ∧ h1.m_curr.node_id = h.m_curr.node_id ∧ h1.m_lower = h.m_lower := by
  obtain ⟨h0, h0s, hr⟩ := andThen_eq_ok hrun
  rw [run_append] at hr
  obtain ⟨h2, h2s, hr2⟩ := andThen_eq_ok hr
  obtain ⟨h3, h3s, hr3⟩ := andThen_eq_ok hr2
  have h31 : h3 = h1 := Outcome.ok.inj hr3
  subst h31
  rw [step_closing] at h3s
  have hl0 := step_opens_frames env h h0 e he h0s
  have hl2 := nested_keeps_lower env hb h0 h2 h2s
  have hl3 := pop_frames h2 h3 h3s
  rw [hl2, hl0] at hl3
  obtain ⟨hc, hl⟩ := List.cons.inj hl3
  refine ⟨?_, ?_, hl.symm⟩
  · simp only [depth, hl]
  · rw [← hc]

/-- The events of the block map `k: [a, b]`, `k2: v` are properly nested. -/
theorem nested_map_body_nested : Nested nested_map_body :=
  Nested.setter _ _ rfl
    (Nested.scope .begin_seq_val_flow
      [.set_val_scalar_plain { str := 110, len := 1 }, .add_sibling,
       .set_val_scalar_dquoted { str := 120, len := 1 }]
      [.add_sibling, .set_key_scalar_plain { str := 130, len := 2 },
       .set_val_scalar_plain { str := 140, len := 1 }]
      rfl
      (Nested.setter _ _ rfl (Nested.sibling _ (Nested.setter _ _ rfl Nested.nil)))
      (Nested.sibling _ (Nested.setter _ _ rfl (Nested.setter _ _ rfl Nested.nil))))

/-- Witness of C21: the block map `k: [a, b]`, `k2: v`, opened on the reset state, raises no
error, leaves five nodes and brings the handler back to the root frame alone; a flow map
with one pair opened on the first child of a flow sequence brings the handler back to that
child, over the unchanged root frame. -/
theorem c21_balanced_scope_witness :
    (Nested nested_map_body ∧
      ∃ h1, start.run Env.plain (.begin_map_val_block :: (nested_map_body ++ [.end_map])) = .ok h1 ∧
        h1.m_tree.size = 5 ∧
        h1.depth = start.depth ∧ h1.m_curr.node_id = start.m_curr.node_id ∧
        h1.m_lower = start.m_lower) ∧
    (in_flow_seq.depth = 2 ∧
      ∃ h1, in_flow_seq.run Env.plain
          [.begin_map_val_flow, .set_key_scalar_plain { str := 100, len := 1 },
           .set_val_scalar_plain { str := 110, len := 1 }, .end_map] = .ok h1 ∧
        h1.depth = in_flow_seq.depth ∧ h1.m_curr.node_id = in_flow_seq.m_curr.node_id ∧
        h1.m_lower = in_flow_seq.m_lower) :=
  ⟨⟨nested_map_body_nested,
     (start.run Env.plain (.begin_map_val_block :: (nested_map_body ++ [.end_map]))).state,
     by decide, by decide,
     c21_balanced_scope Env.plain start
       (start.run Env.plain (.begin_map_val_block :: (nested_map_body ++ [.end_map]))).state
       .begin_map_val_block nested_map_body rfl nested_map_body_nested (by decide)⟩,
   ⟨by decide,
     (in_flow_seq.run Env.plain
          [.begin_map_val_flow, .set_key_scalar_plain { str := 100, len := 1 },
           .set_val_scalar_plain { str := 110, len := 1 }, .end_map]).state,
     by decide,
     c21_balanced_scope Env.plain in_flow_seq
       (in_flow_seq.run Env.plain
          [.begin_map_val_flow, .set_key_scalar_plain { str := 100, len := 1 },
           .set_val_scalar_plain { str := 110, len := 1 }, .end_map]).state
       .begin_map_val_flow
       [.set_key_scalar_plain { str := 100, len := 1 },
        .set_val_scalar_plain { str := 110, len := 1 }]
       rfl (Nested.setter _ _ rfl (Nested.setter _ _ rfl Nested.nil)) (by decide)⟩⟩

end EventHandlerTree

end ryml
